import Mathlib

/-!
# SSD anchor generation (`useFullRangeModel.mjs`)

A shallow embedding of `createSsdAnchors`, `calculateScale`, the full-range
preset and `useFullRangeModel`, followed by theorems about them.

Modelling conventions.

* A JavaScript number that the algorithm treats as a real quantity (scales,
  aspect ratios, offsets, anchor coordinates) is an element of an arbitrary
  linearly ordered field `α`.  In `createSsdAnchors` and the definitions it is
  built from, arithmetic is exact: their theorems describe the expressions the
  code evaluates, not the rounding of each operation.
  `Math.sqrt` is a library function and is taken as a parameter `sqrt : α → α`.
* Rounding is modelled separately.  `roundBinary p` is IEEE 754 rounding to
  nearest, ties to even, onto `p` significant bits (exponent range unbounded:
  no overflow, no subnormals); `toDouble` is the rounding of a double operation
  and `fround` the conversion to `float32`.  The definitions `calculateScaleFl`,
  `shapeSizesFl`, `ceilDivFl` and `gridSizeFl` are `calculateScale`,
  `shapeSizes`, `ceilDiv` and `gridSize` with the result of every arithmetic
  operation passed through a rounding `fl`; with `fl` the identity they are the
  exact definitions.  Statements that depend on the value a double operation
  returns are made about these.
* Integer-valued configuration fields (`strides`, `inputSize*`, `featureMap*`)
  are integers, `numLayers` and all loop counters are naturals.
* An array read `a[i]` is `a[i]?`; `none` stands for JavaScript `undefined`.
* A property that may be absent or `null` is a `Field`.
* A loop bound that JavaScript may compute as `Infinity`, `-Infinity` or `NaN`
  is an `Extent`.
* A `while` loop that may run forever takes a fuel argument; running out of fuel
  is `none`.  The code has no `throw`, so there is no error outcome.
* A one-dimensional tensor of the external tensor library is the list of its
  entries, each converted to the storage type by a function `store` (`fround`
  for the library's `float32` tensors).
-/

namespace SsdAnchors

/-- A JavaScript property holding a `β`: absent (`undefined`), `null`, or a value. -/
inductive Field (β : Type) where
  | undefined : Field β
  | null : Field β
  | val (b : β) : Field β
  deriving DecidableEq, Repr

/-- JavaScript truthiness of a boolean-valued property (`undefined` and `null` are falsy). -/
def Field.truthy : Field Bool → Bool
  | .val b => b
  | _ => false

/-- The value of a numeric loop bound: a finite integer, `Infinity`, `-Infinity`, or `NaN`
(`undefined` converts to `NaN` in `<` and `/`, so an out-of-range read is `nan` too). -/
inductive Extent where
  | fin (n : ℤ) : Extent
  | posInf : Extent
  | negInf : Extent
  | nan : Extent
  deriving DecidableEq, Repr

/-- The output record `{ xCenter, yCenter, width, height }`. -/
structure Anchor (α : Type) where
  xCenter : α
  yCenter : α
  width : α
  height : α
  deriving DecidableEq, Repr

/-- The `config` object read by `createSsdAnchors`. -/
structure Config (α : Type) where
  reduceBoxesInLowestLayer : Field Bool
  interpolatedScaleAspectRatio : Field α
  featureMapHeight : List ℤ
  featureMapWidth : List ℤ
  numLayers : ℕ
  minScale : α
  maxScale : α
  inputSizeHeight : ℤ
  inputSizeWidth : ℤ
  anchorOffsetX : α
  anchorOffsetY : α
  strides : List ℤ
  aspectRatios : List α
  fixedAnchorSize : Field Bool
  deriving DecidableEq

/-- The local variables of the outer `while` loop that survive an iteration, with a ghost
trace: one entry per outer iteration, holding the value of `layerId` at its start and the
values of `lastSameStrideLayer` for which the inner loop body (lines 29-66) ran. -/
structure LoopState (α : Type) where
  anchors : List (Anchor α)
  layerId : ℕ
  trace : List (ℕ × List ℕ)
  deriving DecidableEq

/-- The local variables of the inner `while` loop (lines 24-67), with the ghost list of
the layer indices at which its body ran. -/
structure ScanState (α : Type) where
  lastSameStrideLayer : ℕ
  aspectRatios : List α
  scales : List α
  visited : List ℕ
  deriving DecidableEq

section Model

variable {α : Type} [LinearOrderedField α]

/-- Source lines 111-117. -/
def calculateScale (minScale maxScale : α) (strideIndex numStrides : ℕ) : α :=
  if numStrides = 1 then
    (minScale + maxScale) * 0.5
  else
    minScale + ((maxScale - minScale) * (strideIndex : α)) / ((numStrides : α) - 1)

/-- Source lines 5-13: the defaults written back onto the caller's object. Each test is
`=== null`, which an absent (`undefined`) property does not satisfy. -/
def setDefaults (config : Config α) : Config α :=
  let config :=
    if config.reduceBoxesInLowestLayer = Field.null then
      { config with reduceBoxesInLowestLayer := Field.val false }
    else config
  let config :=
    if config.interpolatedScaleAspectRatio = Field.null then
      { config with interpolatedScaleAspectRatio := Field.val 1.0 }
    else config
  if config.fixedAnchorSize = Field.null then
    { config with fixedAnchorSize := Field.val false }
  else config

/-- The test `config.interpolatedScaleAspectRatio > 0.0` (line 52): `null` converts to `0`
and `undefined` to `NaN`, both of which fail it. -/
def interpolatedPositive (config : Config α) : Option α :=
  match config.interpolatedScaleAspectRatio with
  | .val v => if v > 0 then some v else none
  | _ => none

/-- Source lines 44-51: the `for` loop over `config.aspectRatios`, pushing one aspect ratio
and one copy of `scale` per entry. -/
def pushAspectRatios (config : Config α) (scale : α) (aspectRatios scales : List α) :
    List α × List α :=
  config.aspectRatios.foldl (fun acc r => (acc.1 ++ [r], acc.2 ++ [scale]))
    (aspectRatios, scales)

/-- Source lines 29-65: the body of the inner `while` loop for the layer
`lastSameStrideLayer`, acting on the arrays `aspectRatios` and `scales`. -/
def memberShapes (sqrt : α → α) (config : Config α) (lastSameStrideLayer : ℕ)
    (aspectRatios scales : List α) : List α × List α :=
  let scale := calculateScale config.minScale config.maxScale lastSameStrideLayer
    config.strides.length
  if lastSameStrideLayer = 0 ∧ config.reduceBoxesInLowestLayer.truthy = true then
    (aspectRatios ++ [1] ++ [2] ++ [0.5], scales ++ [0.1] ++ [scale] ++ [scale])
  else
    let acc := pushAspectRatios config scale aspectRatios scales
    match interpolatedPositive config with
    | some v =>
      let scaleNext :=
        if (lastSameStrideLayer : ℤ) = (config.strides.length : ℤ) - 1 then 1.0
        else calculateScale config.minScale config.maxScale (lastSameStrideLayer + 1)
          config.strides.length
      (acc.1 ++ [v], acc.2 ++ [sqrt (scale * scaleNext)])
    | none => acc

/-- Source lines 24-67: the inner `while` loop. The first argument bounds the number of
iterations; the loop is entered with it set to `strides.length - layerId`, which the
condition `lastSameStrideLayer < strides.length` never lets it exceed. -/
def sameStrideScan (sqrt : α → α) (config : Config α) (layerId : ℕ) :
    ℕ → ScanState α → ScanState α
  | 0, s => s
  | fuel + 1, s =>
    if s.lastSameStrideLayer < config.strides.length ∧
        config.strides[s.lastSameStrideLayer]? = config.strides[layerId]? then
      let acc := memberShapes sqrt config s.lastSameStrideLayer s.aspectRatios s.scales
      sameStrideScan sqrt config layerId fuel
        { lastSameStrideLayer := s.lastSameStrideLayer + 1
          aspectRatios := acc.1
          scales := acc.2
          visited := s.visited ++ [s.lastSameStrideLayer] }
    else s

/-- Source lines 69-73: `anchorHeight` and `anchorWidth` from the parallel arrays
`aspectRatios` and `scales` (which always have the same length). -/
def shapeSizes (sqrt : α → α) (aspectRatios scales : List α) : List α × List α :=
  (List.zip aspectRatios scales).foldl
    (fun acc p => (acc.1 ++ [p.2 / sqrt p.1], acc.2 ++ [p.2 * sqrt p.1])) ([], [])

/-- The value of `Math.ceil(a / stride)` (lines 82-83) for an integer `a` and the value
read from `strides`: division by zero gives an infinity or `NaN`, division by `undefined`
gives `NaN`. -/
def ceilDiv (a : ℤ) : Option ℤ → Extent
  | none => Extent.nan
  | some stride =>
    if stride = 0 then
      if 0 < a then Extent.posInf else if a < 0 then Extent.negInf else Extent.nan
    else Extent.fin ⌈(a : ℚ) / (stride : ℚ)⌉

/-- An array entry used as a loop bound; `undefined` behaves as `NaN`. -/
def Extent.ofRead : Option ℤ → Extent
  | none => Extent.nan
  | some n => Extent.fin n

/-- Source lines 75-84: `(featureMapHeight, featureMapWidth)` for the group starting at
`layerId`. -/
def gridSize (config : Config α) (layerId : ℕ) : Extent × Extent :=
  if config.featureMapHeight.length > 0 then
    (Extent.ofRead config.featureMapHeight[layerId]?,
      Extent.ofRead config.featureMapWidth[layerId]?)
  else
    let stride := config.strides[layerId]?
    (ceilDiv config.inputSizeHeight stride, ceilDiv config.inputSizeWidth stride)

/-- Source lines 89-101: the anchor pushed for cell `(x, y)` and one shape. -/
def newAnchor (config : Config α) (featureMapHeight featureMapWidth : ℤ) (y x : ℕ)
    (shape : α × α) : Anchor α :=
  let xCenter := ((x : α) + config.anchorOffsetX) / (featureMapWidth : α)
  let yCenter := ((y : α) + config.anchorOffsetY) / (featureMapHeight : α)
  if config.fixedAnchorSize.truthy = true then
    { xCenter := xCenter, yCenter := yCenter, width := 1.0, height := 1.0 }
  else
    { xCenter := xCenter, yCenter := yCenter, width := shape.1, height := shape.2 }

/-- Source lines 86-104 when both bounds are finite: `y` outer, `x` middle, `anchorId`
inner, each iteration pushing one anchor. A loop `for (i = 0; i < n; ++i)` with integer `n`
runs for `i = 0, …, n.toNat - 1`; the inner loop walks the parallel arrays `anchorWidth`
and `anchorHeight` (which always have the same length) together. -/
def emitFinite (config : Config α) (featureMapHeight featureMapWidth : ℤ)
    (anchorWidth anchorHeight : List α) (anchors : List (Anchor α)) : List (Anchor α) :=
  (List.range featureMapHeight.toNat).foldl
    (fun anchors y =>
      (List.range featureMapWidth.toNat).foldl
        (fun anchors x =>
          (List.zip anchorWidth anchorHeight).foldl
            (fun anchors shape =>
              anchors ++ [newAnchor config featureMapHeight featureMapWidth y x shape])
            anchors)
        anchors)
    anchors

/-- Source lines 86-104 for arbitrary bounds. A bound of `Infinity` on a loop that is
entered never lets it end (`none`); a bound of `-Infinity` or `NaN` fails the first test. -/
def emitAnchors (config : Config α) (featureMapHeight featureMapWidth : Extent)
    (anchorWidth anchorHeight : List α) (anchors : List (Anchor α)) :
    Option (List (Anchor α)) :=
  match featureMapHeight, featureMapWidth with
  | .fin h, .fin w => some (emitFinite config h w anchorWidth anchorHeight anchors)
  | .fin h, .posInf => if 0 < h then none else some anchors
  | .fin _, _ => some anchors
  | .posInf, _ => none
  | _, _ => some anchors

/-- Source lines 18-67: the inner loop as the outer iteration at `layerId` runs it, from
empty arrays. -/
def groupScan (sqrt : α → α) (config : Config α) (layerId : ℕ) : ScanState α :=
  sameStrideScan sqrt config layerId (config.strides.length - layerId)
    { lastSameStrideLayer := layerId, aspectRatios := [], scales := [], visited := [] }

/-- Source lines 69-73 for the group starting at `layerId`: `(anchorHeight, anchorWidth)`. -/
def groupSizes (sqrt : α → α) (config : Config α) (layerId : ℕ) : List α × List α :=
  shapeSizes sqrt (groupScan sqrt config layerId).aspectRatios
    (groupScan sqrt config layerId).scales

/-- Source lines 75-104 for the group starting at `layerId`: the array `anchors` after the
group's pushes. -/
def groupAnchors (sqrt : α → α) (config : Config α) (layerId : ℕ)
    (anchors : List (Anchor α)) : Option (List (Anchor α)) :=
  emitAnchors config (gridSize config layerId).1 (gridSize config layerId).2
    (groupSizes sqrt config layerId).2 (groupSizes sqrt config layerId).1 anchors

/-- Source lines 18-105: one iteration of the outer `while` loop. -/
def groupStep (sqrt : α → α) (config : Config α) (st : LoopState α) :
    Option (LoopState α) :=
  match groupAnchors sqrt config st.layerId st.anchors with
  | none => none
  | some anchors =>
    some { anchors := anchors
           layerId := (groupScan sqrt config st.layerId).lastSameStrideLayer
           trace := st.trace ++ [(st.layerId, (groupScan sqrt config st.layerId).visited)] }

/-- Source lines 17-106: the outer `while` loop, with fuel. -/
def anchorsLoop (sqrt : α → α) (config : Config α) : ℕ → LoopState α → Option (LoopState α)
  | 0, _ => none
  | fuel + 1, st =>
    if st.layerId < config.numLayers then
      match groupStep sqrt config st with
      | none => none
      | some st => anchorsLoop sqrt config fuel st
    else some st

/-- Source lines 3-109, as a run: the final loop state and the caller's object after the
call, or `none` when the fuel does not suffice. -/
def createSsdAnchorsRun (sqrt : α → α) (fuel : ℕ) (config : Config α) :
    Option (LoopState α × Config α) :=
  let config := setDefaults config
  (anchorsLoop sqrt config fuel { anchors := [], layerId := 0, trace := [] }).map
    (fun st => (st, config))

/-- Source lines 3-109: the returned array. -/
def createSsdAnchors (sqrt : α → α) (fuel : ℕ) (config : Config α) :
    Option (List (Anchor α)) :=
  (createSsdAnchorsRun sqrt fuel config).map (fun r => r.1.anchors)

/-- Source lines 140-155. -/
def FULL_RANGE_DETECTOR_ANCHOR_CONFIG : Config α :=
  { reduceBoxesInLowestLayer := Field.val false
    interpolatedScaleAspectRatio := Field.val 0.0
    featureMapHeight := []
    featureMapWidth := []
    numLayers := 1
    minScale := 0.1484375
    maxScale := 0.75
    inputSizeHeight := 192
    inputSizeWidth := 192
    anchorOffsetX := 0.5
    anchorOffsetY := 0.5
    strides := [4]
    aspectRatios := [1.0]
    fixedAnchorSize := Field.val true }

/-- The structural well-formedness conditions of the configuration: `numLayers` positive,
`strides` positive with at least `numLayers` entries, and the explicit feature-map sizes
both empty or both with at least `numLayers` entries. -/
def Config.WellFormed (config : Config α) : Prop :=
  0 < config.numLayers ∧ config.numLayers ≤ config.strides.length ∧
  (∀ s ∈ config.strides, 0 < s) ∧
  ((config.featureMapHeight = [] ∧ config.featureMapWidth = []) ∨
    (config.numLayers ≤ config.featureMapHeight.length ∧
      config.numLayers ≤ config.featureMapWidth.length))

/-- The input resolution and every explicit feature-map size is a positive integer. -/
def Config.PositiveSizes (config : Config α) : Prop :=
  0 < config.inputSizeHeight ∧ 0 < config.inputSizeWidth ∧
  (∀ h ∈ config.featureMapHeight, 0 < h) ∧ (∀ w ∈ config.featureMapWidth, 0 < w)

/-- The outer loop started in the first state ends in the second: the relational reading
of lines 17-106. -/
inductive Iterates (sqrt : α → α) (config : Config α) : LoopState α → LoopState α → Prop
  | done (st : LoopState α) (h : ¬ st.layerId < config.numLayers) : Iterates sqrt config st st
  | step (st st1 st2 : LoopState α) (h : st.layerId < config.numLayers)
      (hstep : groupStep sqrt config st = some st1) (hrest : Iterates sqrt config st1 st2) :
      Iterates sqrt config st st2

/-- The full-range preset over the rationals with explicit feature-map sizes `[2]` and
`[2]`: one stride group on a 2 × 2 grid with one shape. -/
def twoByTwoConfig : Config ℚ :=
  { (FULL_RANGE_DETECTOR_ANCHOR_CONFIG : Config ℚ) with
    featureMapHeight := [2], featureMapWidth := [2] }

/-- The order inside one stride group: in the list `as` that the group starting at layer
`s` pushes on an `H × W` grid, the entry at index `(y * W + x) * S + k` has the centers of
cell `(x, y)` and the width and height of the shape `k` (which are `1.0` under
`fixedAnchorSize`), where `S` is the number of shapes accumulated for the group. -/
def GroupOrder (sqrt : α → α) (config : Config α) (s : ℕ) (H W : ℤ)
    (as : List (Anchor α)) : Prop :=
  ∀ (y x k : ℕ) (w h : α), y < H.toNat → x < W.toNat →
    (groupSizes sqrt config s).2[k]? = some w →
    (groupSizes sqrt config s).1[k]? = some h →
    as[(y * W.toNat + x) * (groupScan sqrt config s).aspectRatios.length + k]? =
      some { xCenter := ((x : α) + config.anchorOffsetX) / (W : α)
             yCenter := ((y : α) + config.anchorOffsetY) / (H : α)
             width := if config.fixedAnchorSize.truthy = true then 1 else w
             height := if config.fixedAnchorSize.truthy = true then 1 else h }

/-- The full-range preset over the rationals with a second stride entry equal to the first
and an 8 × 8 input, `numLayers` staying `1`. -/
def extraStrideConfig : Config ℚ :=
  { (FULL_RANGE_DETECTOR_ANCHOR_CONFIG : Config ℚ) with
    strides := [4, 4], inputSizeHeight := 8, inputSizeWidth := 8 }

/-- The full-range preset over the rationals with two layers of different strides and
explicit feature-map sizes that have one entry only. -/
def shortFeatureMapConfig : Config ℚ :=
  { (FULL_RANGE_DETECTOR_ANCHOR_CONFIG : Config ℚ) with
    numLayers := 2, strides := [1, 2], featureMapHeight := [1], featureMapWidth := [1] }

/-- The full-range preset over the rationals with `numLayers` raised to `2`, its single
stride staying. -/
def shortStridesConfig : Config ℚ :=
  { (FULL_RANGE_DETECTOR_ANCHOR_CONFIG : Config ℚ) with numLayers := 2 }

/-- The full-range preset over the rationals with `reduceBoxesInLowestLayer` set. -/
def reducedLowestConfig : Config ℚ :=
  { (FULL_RANGE_DETECTOR_ANCHOR_CONFIG : Config ℚ) with
    reduceBoxesInLowestLayer := Field.val true }

/-- A property that is unset (absent or `null`) takes the given default; a set one stays. -/
def Field.orDefault {β : Type} (f : Field β) (default : β) : Field β :=
  match f with
  | .val b => Field.val b
  | _ => Field.val default

/-- The defaulting step as the specification words it: every unset field is replaced by
its documented default (`false`, `1.0`, `false`), an unset field being one that is
missing or `null`. To be compared with `setDefaults`, which is what the code does. -/
def specDefaults (config : Config α) : Config α :=
  { config with
    reduceBoxesInLowestLayer := config.reduceBoxesInLowestLayer.orDefault false
    interpolatedScaleAspectRatio := config.interpolatedScaleAspectRatio.orDefault 1.0
    fixedAnchorSize := config.fixedAnchorSize.orDefault false }

/-- The full-range preset over the rationals on an explicit 1 × 1 grid, with the property
`interpolatedScaleAspectRatio` left out of the object. -/
def absentInterpolatedConfig : Config ℚ :=
  { (FULL_RANGE_DETECTOR_ANCHOR_CONFIG : Config ℚ) with
    interpolatedScaleAspectRatio := Field.undefined
    featureMapHeight := [1], featureMapWidth := [1] }

/-- The full-range preset over the rationals on an explicit 1 × 1 grid, with
`fixedAnchorSize` holding `null`. -/
def nullFixedConfig : Config ℚ :=
  { (FULL_RANGE_DETECTOR_ANCHOR_CONFIG : Config ℚ) with
    fixedAnchorSize := Field.null
    featureMapHeight := [1], featureMapWidth := [1] }

/-- The full-range preset over the rationals with `interpolatedScaleAspectRatio` set to
`1.0`. -/
def interpolatedConfig : Config ℚ :=
  { (FULL_RANGE_DETECTOR_ANCHOR_CONFIG : Config ℚ) with
    interpolatedScaleAspectRatio := Field.val 1.0 }

/-- The full-range preset over the rationals on an explicit 1 × 1 grid, with the single
aspect ratio `16` and `fixedAnchorSize` false. -/
def wideShapeConfig : Config ℚ :=
  { (FULL_RANGE_DETECTOR_ANCHOR_CONFIG : Config ℚ) with
    aspectRatios := [16], fixedAnchorSize := Field.val false
    featureMapHeight := [1], featureMapWidth := [1] }

/-- The object of source lines 119-138 (`tensorsToDetectionConfig`). -/
structure TensorsToDetectionConfig (α : Type) where
  applyExponentialOnBoxSize : Bool
  flipVertically : Bool
  ignoreClasses : List ℕ
  numClasses : ℕ
  numBoxes : ℕ
  numCoords : ℕ
  boxCoordOffset : ℕ
  keypointCoordOffset : ℕ
  numKeypoints : ℕ
  numValuesPerKeypoint : ℕ
  sigmoidScore : Bool
  scoreClippingThresh : α
  reverseOutputOrder : Bool
  xScale : α
  yScale : α
  hScale : α
  wScale : α
  minScoreThresh : α

/-- Source lines 119-138. -/
def FULL_RANGE_TENSORS_TO_DETECTION_CONFIG : TensorsToDetectionConfig α :=
  { applyExponentialOnBoxSize := false
    flipVertically := false
    ignoreClasses := []
    numClasses := 1
    numBoxes := 2304
    numCoords := 16
    boxCoordOffset := 0
    keypointCoordOffset := 4
    numKeypoints := 6
    numValuesPerKeypoint := 2
    sigmoidScore := true
    scoreClippingThresh := 100.0
    reverseOutputOrder := true
    xScale := 192.0
    yScale := 192.0
    hScale := 192.0
    wScale := 192.0
    minScoreThresh := 0.6 }

/-- The object of source lines 157-162 (`imageToTensorConfig`); `outputTensorSize` is the
pair `(width, height)`. -/
structure ImageToTensorConfig where
  outputTensorSize : ℕ × ℕ
  keepAspectRatio : Bool
  outputTensorFloatRange : List ℤ
  borderMode : String

/-- Source lines 157-162. -/
def FULL_RANGE_IMAGE_TO_TENSOR_CONFIG : ImageToTensorConfig :=
  { outputTensorSize := (192, 192)
    keepAspectRatio := true
    outputTensorFloatRange := [-1, 1]
    borderMode := "zero" }

/-- The call `tf.tensor1d(values)` of the external tensor library: a one-dimensional
tensor is modelled by the list of its entries, each converted by `store` to the tensor's
storage type (the library stores `float32`, so for the code `store` is `fround`). -/
def tensor1d (store : α → α) (values : List α) : List α := values.map store

/-- The object `model.detector.anchorTensor` (lines 175-180). -/
structure AnchorTensor (α : Type) where
  x : List α
  y : List α
  w : List α
  h : List α

/-- The fields of `model.detector` that `useFullRangeModel` writes. -/
structure Detector (α : Type) where
  imageToTensorConfig : ImageToTensorConfig
  tensorsToDetectionConfig : TensorsToDetectionConfig α
  anchors : List (Anchor α)
  anchorTensor : AnchorTensor α

/-- Source lines 164-181, acting on `model.detector`; `store` is the conversion the tensor
library applies to stored entries; `none` when the fuel given to `createSsdAnchors` does
not suffice. -/
def useFullRangeModel (store : α → α) (sqrt : α → α) (fuel : ℕ) (detector : Detector α) :
    Option (Detector α) :=
  let detector := { detector with imageToTensorConfig := FULL_RANGE_IMAGE_TO_TENSOR_CONFIG }
  let detector :=
    { detector with tensorsToDetectionConfig := FULL_RANGE_TENSORS_TO_DETECTION_CONFIG }
  match createSsdAnchors sqrt fuel FULL_RANGE_DETECTOR_ANCHOR_CONFIG with
  | none => none
  | some anchors =>
    let detector := { detector with anchors := anchors }
    let anchorW := tensor1d store (detector.anchors.map (fun a => a.width))
    let anchorH := tensor1d store (detector.anchors.map (fun a => a.height))
    let anchorX := tensor1d store (detector.anchors.map (fun a => a.xCenter))
    let anchorY := tensor1d store (detector.anchors.map (fun a => a.yCenter))
    some { detector with
           anchorTensor := { x := anchorX, y := anchorY, w := anchorW, h := anchorH } }

/-- Rounding of a rational to the nearest integer, a tie going to the even neighbour. -/
def roundHalfEven (x : ℚ) : ℤ :=
  if x - ⌊x⌋ < 1 / 2 then ⌊x⌋
  else if 1 / 2 < x - ⌊x⌋ then ⌊x⌋ + 1
  else if ⌊x⌋ % 2 = 0 then ⌊x⌋ else ⌊x⌋ + 1

/-- IEEE 754 rounding to nearest, ties to even, onto the binary format with `p`
significant bits: for `2 ^ e ≤ |q| < 2 ^ (e + 1)` the result is the multiple of
`2 ^ (e - (p - 1))` nearest to `q`. The exponent range is unbounded: overflow to
`Infinity` and gradual underflow are not modelled. -/
def roundBinary (p : ℕ) (q : ℚ) : ℚ :=
  if q = 0 then 0
  else
    (roundHalfEven (q / 2 ^ (Int.log 2 |q| - ((p : ℤ) - 1))) : ℚ) *
      2 ^ (Int.log 2 |q| - ((p : ℤ) - 1))

/-- The double (binary64) nearest to a rational: the result of one arithmetic operation
of the code, and the value of a numeric literal. -/
def toDouble (q : ℚ) : ℚ := roundBinary 53 q

/-- The single-precision number (binary32) nearest to a rational: `Math.fround`, the
conversion applied to every entry stored in a `float32` tensor. -/
def fround (q : ℚ) : ℚ := roundBinary 24 q

/-- Source lines 111-117 in machine arithmetic: as `calculateScale`, with the result of
every arithmetic operation rounded by `fl`. In the code `fl` rounds to the nearest double
(`toDouble`); with `fl` the identity this is `calculateScale`. The index and the number of
strides are integers, which a double holds exactly. -/
def calculateScaleFl (fl : α → α) (minScale maxScale : α) (strideIndex numStrides : ℕ) : α :=
  if numStrides = 1 then
    fl (fl (minScale + maxScale) * 0.5)
  else
    fl (minScale +
      fl (fl (fl (maxScale - minScale) * (strideIndex : α)) / fl ((numStrides : α) - 1)))

/-- Source lines 69-73 in machine arithmetic: as `shapeSizes`, with the quotient and the
product rounded by `fl` (`sqrt` is `Math.sqrt`, which returns a double). -/
def shapeSizesFl (fl : α → α) (sqrt : α → α) (aspectRatios scales : List α) :
    List α × List α :=
  (List.zip aspectRatios scales).foldl
    (fun acc p => (acc.1 ++ [fl (p.2 / sqrt p.1)], acc.2 ++ [fl (p.2 * sqrt p.1)])) ([], [])

/-- The value of `Math.ceil(a / stride)` (lines 82-83) in machine arithmetic: as `ceilDiv`,
with the quotient rounded by `fl` before the ceiling is taken. -/
def ceilDivFl (fl : ℚ → ℚ) (a : ℤ) : Option ℤ → Extent
  | none => Extent.nan
  | some stride =>
    if stride = 0 then
      if 0 < a then Extent.posInf else if a < 0 then Extent.negInf else Extent.nan
    else Extent.fin ⌈fl ((a : ℚ) / (stride : ℚ))⌉

/-- Source lines 75-84 in machine arithmetic: as `gridSize`, with `ceilDivFl`. -/
def gridSizeFl (fl : ℚ → ℚ) (config : Config α) (layerId : ℕ) : Extent × Extent :=
  if config.featureMapHeight.length > 0 then
    (Extent.ofRead config.featureMapHeight[layerId]?,
      Extent.ofRead config.featureMapWidth[layerId]?)
  else
    let stride := config.strides[layerId]?
    (ceilDivFl fl config.inputSizeHeight stride, ceilDivFl fl config.inputSizeWidth stride)

/-- The full-range preset over the rationals with an input size above `2 ^ 53` and the
stride `2 ^ 52 + 1`: the input size is three strides and one. -/
def hugeInputConfig : Config ℚ :=
  { (FULL_RANGE_DETECTOR_ANCHOR_CONFIG : Config ℚ) with
    inputSizeHeight := 13510798882111492, inputSizeWidth := 13510798882111492
    strides := [4503599627370497] }

/-- A `model.detector` whose written fields are empty before the call. -/
def emptyDetector : Detector ℚ :=
  { imageToTensorConfig := FULL_RANGE_IMAGE_TO_TENSOR_CONFIG
    tensorsToDetectionConfig := FULL_RANGE_TENSORS_TO_DETECTION_CONFIG
    anchors := []
    anchorTensor := { x := [], y := [], w := [], h := [] } }

end Model

/-! ## Auxiliary lemmas on lists and loops -/

section Lemmas

set_option linter.unusedSectionVars false

variable {α : Type} [LinearOrderedField α]

theorem foldl_push_flatMap {β γ : Type} (f : β → List γ) (l : List β) (init : List γ) :
    l.foldl (fun acc b => acc ++ f b) init = init ++ l.flatMap f := by
  induction l generalizing init with
  | nil => simp
  | cons b l ih => simp [List.foldl_cons, ih, List.flatMap_cons, List.append_assoc]

theorem foldl_push_map {β γ : Type} (f : β → γ) (l : List β) (init : List γ) :
    l.foldl (fun acc b => acc ++ [f b]) init = init ++ l.map f := by
  induction l generalizing init with
  | nil => simp
  | cons b l ih => simp [List.foldl_cons, ih, List.append_assoc]

theorem length_flatMap_range {γ : Type} (m : ℕ) (f : ℕ → List γ) (n : ℕ)
    (hf : ∀ i, i < n → (f i).length = m) : ((List.range n).flatMap f).length = n * m := by
  induction n with
  | zero => simp
  | succ n ih =>
    rw [List.range_succ, List.flatMap_append, List.length_append,
      ih (fun i hi => hf i (Nat.lt_succ_of_lt hi))]
    simp [List.flatMap_cons, hf n (Nat.lt_succ_self n), Nat.succ_mul]

theorem getElem?_flatMap_range {γ : Type} (m : ℕ) (f : ℕ → List γ) (n : ℕ)
    (hf : ∀ i, i < n → (f i).length = m) (i j : ℕ) (hi : i < n) (hj : j < m) :
    ((List.range n).flatMap f)[i * m + j]? = (f i)[j]? := by
  induction n with
  | zero => omega
  | succ n ih =>
    have hlen := length_flatMap_range m f n (fun i hi => hf i (Nat.lt_succ_of_lt hi))
    rw [List.range_succ, List.flatMap_append]
    by_cases hin : i < n
    · have hlt : i * m + j < ((List.range n).flatMap f).length := by
        rw [hlen]
        calc i * m + j < i * m + m := by omega
          _ = (i + 1) * m := by ring
          _ ≤ n * m := Nat.mul_le_mul_right m hin
      rw [List.getElem?_append_left hlt]
      exact ih (fun i hi => hf i (Nat.lt_succ_of_lt hi)) hin
    · have hie : i = n := by omega
      subst hie
      rw [List.getElem?_append_right (by rw [hlen]; omega), hlen]
      simp [List.flatMap_cons]

theorem emitFinite_eq (config : Config α) (h w : ℤ) (aw ah : List α)
    (anchors : List (Anchor α)) :
    emitFinite config h w aw ah anchors =
      anchors ++ (List.range h.toNat).flatMap (fun y =>
        (List.range w.toNat).flatMap (fun x =>
          (List.zip aw ah).map (newAnchor config h w y x))) := by
  unfold emitFinite
  simp only [foldl_push_map, foldl_push_flatMap]

theorem foldl_push_pair {β γ δ : Type} (f : β → γ) (g : β → δ) (l : List β)
    (a : List γ) (b : List δ) :
    l.foldl (fun acc p => (acc.1 ++ [f p], acc.2 ++ [g p])) (a, b) =
      (a ++ l.map f, b ++ l.map g) := by
  induction l generalizing a b with
  | nil => simp
  | cons p l ih => simp [List.foldl_cons, ih, List.append_assoc]

theorem pushAspectRatios_eq (config : Config α) (scale : α) (ars scs : List α) :
    pushAspectRatios config scale ars scs =
      (ars ++ config.aspectRatios,
        scs ++ List.replicate config.aspectRatios.length scale) := by
  unfold pushAspectRatios
  rw [foldl_push_pair (fun r => r) (fun _ => scale)]
  simp [List.map_const']

theorem shapeSizes_eq (sqrt : α → α) (ars scs : List α) :
    shapeSizes sqrt ars scs =
      ((List.zip ars scs).map (fun p => p.2 / sqrt p.1),
        (List.zip ars scs).map (fun p => p.2 * sqrt p.1)) := by
  unfold shapeSizes
  rw [foldl_push_pair (fun p : α × α => p.2 / sqrt p.1) (fun p : α × α => p.2 * sqrt p.1)]
  simp

/-- The pairs pushed by the inner loop body at a layer, onto empty arrays. -/
theorem memberShapes_append (sqrt : α → α) (config : Config α) (l : ℕ) (ars scs : List α) :
    memberShapes sqrt config l ars scs =
      (ars ++ (memberShapes sqrt config l [] []).1,
        scs ++ (memberShapes sqrt config l [] []).2) := by
  unfold memberShapes
  simp only [pushAspectRatios_eq]
  split
  · simp
  · split <;> simp

theorem memberShapes_length (sqrt : α → α) (config : Config α) (l : ℕ) :
    (memberShapes sqrt config l [] []).1.length = (memberShapes sqrt config l [] []).2.length := by
  unfold memberShapes
  simp only [pushAspectRatios_eq]
  split
  · simp
  · split <;> simp

theorem sameStrideScan_spec (sqrt : α → α) (config : Config α) (layerId : ℕ) (fuel : ℕ)
    (s : ScanState α) :
    s.lastSameStrideLayer ≤ (sameStrideScan sqrt config layerId fuel s).lastSameStrideLayer ∧
    (sameStrideScan sqrt config layerId fuel s).lastSameStrideLayer ≤
      s.lastSameStrideLayer + fuel ∧
    (sameStrideScan sqrt config layerId fuel s).visited =
      s.visited ++ List.range' s.lastSameStrideLayer
        ((sameStrideScan sqrt config layerId fuel s).lastSameStrideLayer -
          s.lastSameStrideLayer) ∧
    (∀ l, s.lastSameStrideLayer ≤ l →
      l < (sameStrideScan sqrt config layerId fuel s).lastSameStrideLayer →
      l < config.strides.length ∧ config.strides[l]? = config.strides[layerId]?) ∧
    ((sameStrideScan sqrt config layerId fuel s).lastSameStrideLayer <
        s.lastSameStrideLayer + fuel →
      ¬ ((sameStrideScan sqrt config layerId fuel s).lastSameStrideLayer <
            config.strides.length ∧
          config.strides[(sameStrideScan sqrt config layerId fuel s).lastSameStrideLayer]? =
            config.strides[layerId]?)) := by
  induction fuel generalizing s with
  | zero =>
    simp only [sameStrideScan]
    refine ⟨le_refl _, le_refl _, by simp, ?_, ?_⟩
    · intro l h1 h2; omega
    · intro h; omega
  | succ fuel ih =>
    unfold sameStrideScan
    by_cases hc : s.lastSameStrideLayer < config.strides.length ∧
        config.strides[s.lastSameStrideLayer]? = config.strides[layerId]?
    · rw [if_pos hc]
      dsimp only
      obtain ⟨h1, h2, h3, h4, h5⟩ := ih
        { lastSameStrideLayer := s.lastSameStrideLayer + 1
          aspectRatios := (memberShapes sqrt config s.lastSameStrideLayer
            s.aspectRatios s.scales).1
          scales := (memberShapes sqrt config s.lastSameStrideLayer
            s.aspectRatios s.scales).2
          visited := s.visited ++ [s.lastSameStrideLayer] }
      simp only at h1 h2 h3 h4 h5
      refine ⟨by omega, by omega, ?_, ?_, ?_⟩
      · rw [h3, List.append_assoc]
        congr 1
        generalize (sameStrideScan sqrt config layerId fuel _).lastSameStrideLayer = r at h1 ⊢
        obtain ⟨k, rfl⟩ : ∃ k, r = s.lastSameStrideLayer + 1 + k := ⟨r - (s.lastSameStrideLayer + 1), by omega⟩
        have e1 : s.lastSameStrideLayer + 1 + k - (s.lastSameStrideLayer + 1) = k := by omega
        have e2 : s.lastSameStrideLayer + 1 + k - s.lastSameStrideLayer = k + 1 := by omega
        rw [e1, e2, List.range'_succ]
        simp
      · intro l hl1 hl2
        by_cases hl : l = s.lastSameStrideLayer
        · subst hl; exact hc
        · exact h4 l (by omega) hl2
      · intro hlt
        exact h5 (by omega)
    · rw [if_neg hc]
      refine ⟨le_refl _, by omega, by simp, ?_, ?_⟩
      · intro l h1 h2; omega
      · intro _; exact hc

theorem sameStrideScan_shapes (sqrt : α → α) (config : Config α) (layerId : ℕ) (fuel : ℕ)
    (s : ScanState α) :
    (sameStrideScan sqrt config layerId fuel s).aspectRatios =
      s.aspectRatios ++ (List.range' s.lastSameStrideLayer
        ((sameStrideScan sqrt config layerId fuel s).lastSameStrideLayer -
          s.lastSameStrideLayer)).flatMap (fun l => (memberShapes sqrt config l [] []).1) ∧
    (sameStrideScan sqrt config layerId fuel s).scales =
      s.scales ++ (List.range' s.lastSameStrideLayer
        ((sameStrideScan sqrt config layerId fuel s).lastSameStrideLayer -
          s.lastSameStrideLayer)).flatMap (fun l => (memberShapes sqrt config l [] []).2) := by
  induction fuel generalizing s with
  | zero => simp [sameStrideScan]
  | succ fuel ih =>
    unfold sameStrideScan
    by_cases hc : s.lastSameStrideLayer < config.strides.length ∧
        config.strides[s.lastSameStrideLayer]? = config.strides[layerId]?
    · rw [if_pos hc]
      dsimp only
      obtain ⟨h1, h2⟩ := ih
        { lastSameStrideLayer := s.lastSameStrideLayer + 1
          aspectRatios := (memberShapes sqrt config s.lastSameStrideLayer
            s.aspectRatios s.scales).1
          scales := (memberShapes sqrt config s.lastSameStrideLayer
            s.aspectRatios s.scales).2
          visited := s.visited ++ [s.lastSameStrideLayer] }
      have hge := (sameStrideScan_spec sqrt config layerId fuel
        { lastSameStrideLayer := s.lastSameStrideLayer + 1
          aspectRatios := (memberShapes sqrt config s.lastSameStrideLayer
            s.aspectRatios s.scales).1
          scales := (memberShapes sqrt config s.lastSameStrideLayer
            s.aspectRatios s.scales).2
          visited := s.visited ++ [s.lastSameStrideLayer] }).1
      simp only at h1 h2 hge
      rw [h1, h2]
      generalize (sameStrideScan sqrt config layerId fuel _).lastSameStrideLayer = r at hge ⊢
      obtain ⟨k, rfl⟩ : ∃ k, r = s.lastSameStrideLayer + 1 + k :=
        ⟨r - (s.lastSameStrideLayer + 1), by omega⟩
      have e1 : s.lastSameStrideLayer + 1 + k - (s.lastSameStrideLayer + 1) = k := by omega
      have e2 : s.lastSameStrideLayer + 1 + k - s.lastSameStrideLayer = k + 1 := by omega
      rw [e1, e2, List.range'_succ, memberShapes_append sqrt config s.lastSameStrideLayer
        s.aspectRatios s.scales]
      simp [List.flatMap_cons, List.append_assoc]
    · rw [if_neg hc]
      simp

theorem groupScan_last (sqrt : α → α) (config : Config α) (layerId : ℕ) :
    layerId ≤ (groupScan sqrt config layerId).lastSameStrideLayer ∧
    (layerId < config.strides.length →
      layerId < (groupScan sqrt config layerId).lastSameStrideLayer ∧
      (groupScan sqrt config layerId).lastSameStrideLayer ≤ config.strides.length) ∧
    (config.strides.length ≤ layerId →
      (groupScan sqrt config layerId).lastSameStrideLayer = layerId) ∧
    (∀ l, layerId ≤ l → l < (groupScan sqrt config layerId).lastSameStrideLayer →
      l < config.strides.length ∧ config.strides[l]? = config.strides[layerId]?) ∧
    ¬ ((groupScan sqrt config layerId).lastSameStrideLayer < config.strides.length ∧
        config.strides[(groupScan sqrt config layerId).lastSameStrideLayer]? =
          config.strides[layerId]?) := by
  obtain ⟨h1, h2, -, h4, h5⟩ := sameStrideScan_spec sqrt config layerId
    (config.strides.length - layerId)
    { lastSameStrideLayer := layerId, aspectRatios := [], scales := [], visited := [] }
  have e : sameStrideScan sqrt config layerId (config.strides.length - layerId)
      { lastSameStrideLayer := layerId, aspectRatios := [], scales := [], visited := [] } =
      groupScan sqrt config layerId := rfl
  simp only [e] at h1 h2 h4 h5
  refine ⟨h1, ?_, ?_, h4, ?_⟩
  · intro hlt
    refine ⟨?_, by omega⟩
    by_contra hnot
    have heq : (groupScan sqrt config layerId).lastSameStrideLayer = layerId := by omega
    apply h5 (by omega)
    rw [heq]
    exact ⟨hlt, rfl⟩
  · intro hle
    omega
  · by_cases hlt : (groupScan sqrt config layerId).lastSameStrideLayer <
        layerId + (config.strides.length - layerId)
    · exact h5 hlt
    · intro hcon
      have := hcon.1
      omega

theorem groupScan_visited (sqrt : α → α) (config : Config α) (layerId : ℕ) :
    (groupScan sqrt config layerId).visited =
      List.range' layerId ((groupScan sqrt config layerId).lastSameStrideLayer - layerId) := by
  have h := (sameStrideScan_spec sqrt config layerId (config.strides.length - layerId)
    { lastSameStrideLayer := layerId, aspectRatios := [], scales := [], visited := [] }).2.2.1
  simpa using h

theorem groupScan_shapes (sqrt : α → α) (config : Config α) (layerId : ℕ) :
    (groupScan sqrt config layerId).aspectRatios =
      (groupScan sqrt config layerId).visited.flatMap
        (fun l => (memberShapes sqrt config l [] []).1) ∧
    (groupScan sqrt config layerId).scales =
      (groupScan sqrt config layerId).visited.flatMap
        (fun l => (memberShapes sqrt config l [] []).2) := by
  rw [groupScan_visited]
  have h := sameStrideScan_shapes sqrt config layerId (config.strides.length - layerId)
    { lastSameStrideLayer := layerId, aspectRatios := [], scales := [], visited := [] }
  simpa using h

theorem flatMap_length_eq {β γ δ : Type} (f : β → List γ) (g : β → List δ) (l : List β)
    (h : ∀ b, (f b).length = (g b).length) :
    (l.flatMap f).length = (l.flatMap g).length := by
  induction l with
  | nil => simp
  | cons b l ih => simp [List.flatMap_cons, h b, ih]

theorem groupScan_lengths (sqrt : α → α) (config : Config α) (layerId : ℕ) :
    (groupScan sqrt config layerId).aspectRatios.length =
      (groupScan sqrt config layerId).scales.length := by
  rw [(groupScan_shapes sqrt config layerId).1, (groupScan_shapes sqrt config layerId).2]
  exact flatMap_length_eq _ _ _ (fun l => memberShapes_length sqrt config l)

theorem groupSizes_eq (sqrt : α → α) (config : Config α) (layerId : ℕ) :
    groupSizes sqrt config layerId =
      ((List.zip (groupScan sqrt config layerId).aspectRatios
          (groupScan sqrt config layerId).scales).map (fun p => p.2 / sqrt p.1),
        (List.zip (groupScan sqrt config layerId).aspectRatios
          (groupScan sqrt config layerId).scales).map (fun p => p.2 * sqrt p.1)) := by
  unfold groupSizes
  exact shapeSizes_eq sqrt _ _

theorem groupSizes_length (sqrt : α → α) (config : Config α) (layerId : ℕ) :
    (groupSizes sqrt config layerId).1.length =
      (groupScan sqrt config layerId).aspectRatios.length ∧
    (groupSizes sqrt config layerId).2.length =
      (groupScan sqrt config layerId).aspectRatios.length := by
  rw [groupSizes_eq]
  simp [groupScan_lengths sqrt config layerId]

/-- The anchors one group pushes for finite bounds, as a list. -/
theorem emitFinite_nil (config : Config α) (h w : ℤ) (aw ah : List α) :
    emitFinite config h w aw ah [] =
      (List.range h.toNat).flatMap (fun y =>
        (List.range w.toNat).flatMap (fun x =>
          (List.zip aw ah).map (newAnchor config h w y x))) := by
  rw [emitFinite_eq]; simp

theorem emitAnchors_append (config : Config α) (H W : Extent) (aw ah : List α)
    (anchors : List (Anchor α)) :
    emitAnchors config H W aw ah anchors =
      (emitAnchors config H W aw ah []).map (fun new => anchors ++ new) := by
  cases H <;> cases W <;> simp [emitAnchors, emitFinite_eq]
  split <;> simp

theorem groupAnchors_append (sqrt : α → α) (config : Config α) (layerId : ℕ)
    (anchors : List (Anchor α)) :
    groupAnchors sqrt config layerId anchors =
      (groupAnchors sqrt config layerId []).map (fun new => anchors ++ new) := by
  unfold groupAnchors
  exact emitAnchors_append _ _ _ _ _ _

theorem groupStep_eq_some (sqrt : α → α) (config : Config α) (st st1 : LoopState α)
    (h : groupStep sqrt config st = some st1) :
    ∃ new, groupAnchors sqrt config st.layerId [] = some new ∧
      st1.anchors = st.anchors ++ new ∧
      st1.layerId = (groupScan sqrt config st.layerId).lastSameStrideLayer ∧
      st1.trace = st.trace ++ [(st.layerId, (groupScan sqrt config st.layerId).visited)] := by
  unfold groupStep at h
  rw [groupAnchors_append] at h
  cases hg : groupAnchors sqrt config st.layerId [] with
  | none => simp [hg] at h
  | some new =>
    simp only [hg, Option.map_some', Option.some.injEq] at h
    subst h
    exact ⟨new, rfl, rfl, rfl, rfl⟩

theorem groupStep_of_groupAnchors (sqrt : α → α) (config : Config α) (st : LoopState α)
    (new : List (Anchor α)) (h : groupAnchors sqrt config st.layerId [] = some new) :
    groupStep sqrt config st = some
      { anchors := st.anchors ++ new
        layerId := (groupScan sqrt config st.layerId).lastSameStrideLayer
        trace := st.trace ++ [(st.layerId, (groupScan sqrt config st.layerId).visited)] } := by
  unfold groupStep
  rw [groupAnchors_append, h]
  rfl

theorem anchorsLoop_iterates (sqrt : α → α) (config : Config α) (fuel : ℕ)
    (st st2 : LoopState α) (h : anchorsLoop sqrt config fuel st = some st2) :
    Iterates sqrt config st st2 := by
  induction fuel generalizing st with
  | zero => simp [anchorsLoop] at h
  | succ fuel ih =>
    unfold anchorsLoop at h
    by_cases hc : st.layerId < config.numLayers
    · rw [if_pos hc] at h
      cases hs : groupStep sqrt config st with
      | none => simp [hs] at h
      | some st1 =>
        simp only [hs] at h
        exact Iterates.step st st1 st2 hc hs (ih st1 h)
    · rw [if_neg hc] at h
      simp only [Option.some.injEq] at h
      subst h
      exact Iterates.done st hc

theorem iterates_anchorsLoop (sqrt : α → α) (config : Config α) (st st2 : LoopState α)
    (h : Iterates sqrt config st st2) :
    ∃ n, ∀ fuel, n ≤ fuel → anchorsLoop sqrt config fuel st = some st2 := by
  induction h with
  | done st hc =>
    refine ⟨1, fun fuel hf => ?_⟩
    obtain ⟨k, rfl⟩ : ∃ k, fuel = k + 1 := ⟨fuel - 1, by omega⟩
    simp [anchorsLoop, hc]
  | step st st1 st2 hc hs _ ih =>
    obtain ⟨n, hn⟩ := ih
    refine ⟨n + 1, fun fuel hf => ?_⟩
    obtain ⟨k, rfl⟩ : ∃ k, fuel = k + 1 := ⟨fuel - 1, by omega⟩
    simp only [anchorsLoop, hc, if_true, hs]
    exact hn k (by omega)

theorem gridSize_finite (config : Config α) (hwf : config.WellFormed) (layerId : ℕ)
    (hl : layerId < config.numLayers) :
    ∃ h w : ℤ, gridSize config layerId = (Extent.fin h, Extent.fin w) := by
  obtain ⟨_, hlen, hpos, hfm⟩ := hwf
  unfold gridSize
  by_cases hH : config.featureMapHeight.length > 0
  · rw [if_pos hH]
    rcases hfm with ⟨hnil, _⟩ | ⟨h1, h2⟩
    · rw [hnil] at hH; simp at hH
    · have e1 : layerId < config.featureMapHeight.length := by omega
      have e2 : layerId < config.featureMapWidth.length := by omega
      refine ⟨config.featureMapHeight[layerId], config.featureMapWidth[layerId], ?_⟩
      rw [List.getElem?_eq_getElem e1, List.getElem?_eq_getElem e2]
      rfl
  · rw [if_neg hH]
    have e : layerId < config.strides.length := by omega
    have hs : 0 < config.strides[layerId] := hpos _ (List.getElem_mem e)
    refine ⟨⌈(config.inputSizeHeight : ℚ) / (config.strides[layerId] : ℚ)⌉,
      ⌈(config.inputSizeWidth : ℚ) / (config.strides[layerId] : ℚ)⌉, ?_⟩
    simp only [List.getElem?_eq_getElem e, ceilDiv, ne_of_gt hs, if_false]

theorem groupAnchors_finite (sqrt : α → α) (config : Config α) (layerId : ℕ) (h w : ℤ)
    (hg : gridSize config layerId = (Extent.fin h, Extent.fin w)) :
    groupAnchors sqrt config layerId [] = some
      ((List.range h.toNat).flatMap (fun y =>
        (List.range w.toNat).flatMap (fun x =>
          (List.zip (groupSizes sqrt config layerId).2
            (groupSizes sqrt config layerId).1).map (newAnchor config h w y x)))) := by
  unfold groupAnchors
  rw [hg]
  simp only [emitAnchors, emitFinite_nil]

theorem anchorsLoop_terminates (sqrt : α → α) (config : Config α) (hwf : config.WellFormed) :
    ∀ (n : ℕ) (st : LoopState α), config.numLayers - st.layerId = n →
      ∃ st2, Iterates sqrt config st st2 ∧
        ∀ fuel, config.numLayers - st.layerId < fuel →
          anchorsLoop sqrt config fuel st = some st2 := by
  intro n
  induction n using Nat.strong_induction_on with
  | _ n ih =>
    intro st hn
    by_cases hc : st.layerId < config.numLayers
    · obtain ⟨h, w, hg⟩ := gridSize_finite config hwf st.layerId hc
      have hga := groupAnchors_finite sqrt config st.layerId h w hg
      have hstep := groupStep_of_groupAnchors sqrt config st _ hga
      have hlen : st.layerId < config.strides.length := lt_of_lt_of_le hc hwf.2.1
      have hprog := ((groupScan_last sqrt config st.layerId).2.1 hlen).1
      obtain ⟨st2, hit, hfuel⟩ := ih
        (config.numLayers - (groupScan sqrt config st.layerId).lastSameStrideLayer)
        (by omega)
        { anchors := st.anchors ++ (List.range h.toNat).flatMap (fun y =>
            (List.range w.toNat).flatMap (fun x =>
              (List.zip (groupSizes sqrt config st.layerId).2
                (groupSizes sqrt config st.layerId).1).map (newAnchor config h w y x)))
          layerId := (groupScan sqrt config st.layerId).lastSameStrideLayer
          trace := st.trace ++ [(st.layerId, (groupScan sqrt config st.layerId).visited)] }
        rfl
      refine ⟨st2, Iterates.step st _ st2 hc hstep hit, fun fuel hf => ?_⟩
      obtain ⟨k, rfl⟩ : ∃ k, fuel = k + 1 := ⟨fuel - 1, by omega⟩
      simp only [anchorsLoop, hc, if_true, hstep]
      exact hfuel k (by simp only; omega)
    · refine ⟨st, Iterates.done st hc, fun fuel hf => ?_⟩
      obtain ⟨k, rfl⟩ : ∃ k, fuel = k + 1 := ⟨fuel - 1, by omega⟩
      simp [anchorsLoop, hc]

theorem iterates_spec (sqrt : α → α) (config : Config α)
    (hle : config.numLayers ≤ config.strides.length) (st st2 : LoopState α)
    (h : Iterates sqrt config st st2) :
    ∃ (newTrace : List (ℕ × List ℕ)) (groups : List (List (Anchor α))) (tail : List ℕ),
      st2.trace = st.trace ++ newTrace ∧
      st2.anchors = st.anchors ++ groups.flatten ∧
      List.Forall₂ (fun g as => groupAnchors sqrt config g.1 [] = some as) newTrace groups ∧
      ¬ st2.layerId < config.numLayers ∧
      (st.layerId ≤ config.strides.length → st2.layerId ≤ config.strides.length) ∧
      newTrace.flatMap Prod.snd = List.range' st.layerId (st2.layerId - st.layerId) ∧
      (∀ g ∈ newTrace, g.1 < config.numLayers ∧
        g.2 = (groupScan sqrt config g.1).visited) ∧
      newTrace.map Prod.fst ++ [st2.layerId] = st.layerId :: tail ∧
      List.Chain' (· < ·) (st.layerId :: tail) ∧
      (st.layerId < config.numLayers → ∃ s, s < config.numLayers ∧
        st2.layerId = (groupScan sqrt config s).lastSameStrideLayer) := by
  induction h with
  | done st hc =>
    refine ⟨[], [], [], by simp, by simp, List.Forall₂.nil, hc, fun h => h, by simp,
      by simp, by simp, by simp, fun h => absurd h hc⟩
  | step st st1 st2 hc hs _ ih =>
    obtain ⟨newTrace, groups, tail, h1, h2, h3, h4, h5, h6, h7, h8, h9, h10⟩ := ih
    obtain ⟨new, hnew, ha, hl, ht⟩ := groupStep_eq_some sqrt config st st1 hs
    have hlen : st.layerId < config.strides.length := lt_of_lt_of_le hc hle
    obtain ⟨hprog, hbound⟩ := (groupScan_last sqrt config st.layerId).2.1 hlen
    have hchain : st.layerId < st1.layerId := by rw [hl]; exact hprog
    have hmono : st1.layerId ≤ st2.layerId := by
      have hc9 := h9
      rw [← h8] at hc9
      cases newTrace with
      | nil => simp at h8; omega
      | cons g rest =>
        simp only [List.map_cons, List.cons_append, List.cons.injEq] at h8
        have hp := List.chain'_iff_pairwise.mp h9
        rw [← h8.2] at hp
        have := (List.pairwise_cons.mp hp).1 st2.layerId (by simp)
        omega
    refine ⟨(st.layerId, (groupScan sqrt config st.layerId).visited) :: newTrace,
      new :: groups, st1.layerId :: tail, ?_, ?_, ?_, h4, ?_, ?_, ?_, ?_, ?_, ?_⟩
    · rw [h1, ht]; simp
    · rw [h2, ha]; simp
    · exact List.Forall₂.cons hnew h3
    · intro _
      exact h5 (by rw [hl]; exact hbound)
    · rw [List.flatMap_cons, h6, groupScan_visited, ← hl]
      obtain ⟨k1, hk1⟩ : ∃ k1, st1.layerId = st.layerId + k1 :=
        ⟨st1.layerId - st.layerId, by omega⟩
      obtain ⟨k2, hk2⟩ : ∃ k2, st2.layerId = st.layerId + k1 + k2 :=
        ⟨st2.layerId - st1.layerId, by omega⟩
      have e1 : st.layerId + k1 - st.layerId = k1 := by omega
      have e2 : st.layerId + k1 + k2 - (st.layerId + k1) = k2 := by omega
      have e3 : st.layerId + k1 + k2 - st.layerId = k2 + k1 := by omega
      rw [hk2, hk1, e1, e2, e3]
      exact List.range'_append_1 _ _ _
    · intro g hg
      rcases List.mem_cons.mp hg with rfl | hg
      · exact ⟨hc, rfl⟩
      · exact h7 g hg
    · simp only [List.map_cons, List.cons_append, List.cons.injEq, true_and]
      exact h8
    · exact List.Chain'.cons hchain h9
    · intro _
      by_cases hc1 : st1.layerId < config.numLayers
      · exact h10 hc1
      · refine ⟨st.layerId, hc, ?_⟩
        cases hrest : newTrace with
        | nil =>
          rw [hrest] at h8
          simp at h8
          rw [← hl]; omega
        | cons g rest =>
          have := (h7 g (by rw [hrest]; simp)).1
          rw [hrest] at h8
          simp only [List.map_cons, List.cons_append, List.cons.injEq] at h8
          omega

theorem length_grid {β γ : Type} (H W : ℕ) (shapes : List β) (f : ℕ → ℕ → β → γ) :
    ((List.range H).flatMap (fun y => (List.range W).flatMap (fun x =>
      shapes.map (f y x)))).length = H * W * shapes.length := by
  rw [length_flatMap_range (W * shapes.length) _ H, Nat.mul_assoc]
  intro y _
  exact length_flatMap_range shapes.length _ W (fun x _ => by simp)

theorem getElem?_grid {β γ : Type} (H W : ℕ) (shapes : List β) (f : ℕ → ℕ → β → γ)
    (y x k : ℕ) (hy : y < H) (hx : x < W) (hk : k < shapes.length) :
    ((List.range H).flatMap (fun y => (List.range W).flatMap (fun x =>
      shapes.map (f y x))))[(y * W + x) * shapes.length + k]? =
      shapes[k]?.map (f y x) := by
  have e : (y * W + x) * shapes.length + k =
      y * (W * shapes.length) + (x * shapes.length + k) := by ring
  have hlt : x * shapes.length + k < W * shapes.length := by
    calc x * shapes.length + k < x * shapes.length + shapes.length := by omega
      _ = (x + 1) * shapes.length := by ring
      _ ≤ W * shapes.length := Nat.mul_le_mul_right _ hx
  rw [e, getElem?_flatMap_range (W * shapes.length) _ H
    (fun y _ => length_flatMap_range shapes.length _ W (fun x _ => by simp)) y _ hy hlt,
    getElem?_flatMap_range shapes.length _ W (fun x _ => by simp) x k hx hk]
  simp

theorem setDefaults_fields (config : Config α) :
    (setDefaults config).featureMapHeight = config.featureMapHeight ∧
    (setDefaults config).featureMapWidth = config.featureMapWidth ∧
    (setDefaults config).numLayers = config.numLayers ∧
    (setDefaults config).minScale = config.minScale ∧
    (setDefaults config).maxScale = config.maxScale ∧
    (setDefaults config).inputSizeHeight = config.inputSizeHeight ∧
    (setDefaults config).inputSizeWidth = config.inputSizeWidth ∧
    (setDefaults config).anchorOffsetX = config.anchorOffsetX ∧
    (setDefaults config).anchorOffsetY = config.anchorOffsetY ∧
    (setDefaults config).strides = config.strides ∧
    (setDefaults config).aspectRatios = config.aspectRatios := by
  unfold setDefaults
  dsimp only
  split_ifs <;> simp

theorem setDefaults_wellFormed (config : Config α) (h : config.WellFormed) :
    (setDefaults config).WellFormed := by
  obtain ⟨e1, e2, e3, _, _, _, _, _, _, e10, _⟩ := setDefaults_fields config
  unfold Config.WellFormed at h ⊢
  rw [e1, e2, e3, e10]
  exact h

theorem setDefaults_of_set (config : Config α)
    (h1 : config.reduceBoxesInLowestLayer ≠ Field.null)
    (h2 : config.interpolatedScaleAspectRatio ≠ Field.null)
    (h3 : config.fixedAnchorSize ≠ Field.null) : setDefaults config = config := by
  unfold setDefaults
  simp [h1, h2, h3]

theorem lit_zero : (0.0 : α) = 0 := by norm_num

theorem lit_one : (1.0 : α) = 1 := by norm_num

theorem lit_half : (0.5 : α) = 1 / 2 := by norm_num

theorem fullRange_groupScan (sqrt : α → α) :
    groupScan sqrt (FULL_RANGE_DETECTOR_ANCHOR_CONFIG : Config α) 0 =
      { lastSameStrideLayer := 1, aspectRatios := [1],
        scales := [(0.1484375 + 0.75) * 0.5], visited := [0] } := by
  simp [groupScan, sameStrideScan, memberShapes, FULL_RANGE_DETECTOR_ANCHOR_CONFIG,
    pushAspectRatios, interpolatedPositive, calculateScale, Field.truthy, lit_zero, lit_one]

theorem fullRange_gridSize :
    gridSize (FULL_RANGE_DETECTOR_ANCHOR_CONFIG : Config α) 0 =
      (Extent.fin 48, Extent.fin 48) := by
  have h : ⌈(192 : ℚ) / 4⌉ = 48 := by
    rw [Int.ceil_eq_iff]; norm_num
  simp [gridSize, FULL_RANGE_DETECTOR_ANCHOR_CONFIG, ceilDiv, h]

theorem fullRange_run (sqrt : α → α) (fuel : ℕ) :
    createSsdAnchorsRun sqrt (fuel + 2) (FULL_RANGE_DETECTOR_ANCHOR_CONFIG : Config α) =
      some ({ anchors := (List.range 48).flatMap (fun y => (List.range 48).flatMap (fun x =>
                [({ xCenter := ((x : α) + 0.5) / 48, yCenter := ((y : α) + 0.5) / 48,
                    width := 1, height := 1 } : Anchor α)]))
              layerId := 1
              trace := [(0, [0])] }, FULL_RANGE_DETECTOR_ANCHOR_CONFIG) := by
  have hd : setDefaults (FULL_RANGE_DETECTOR_ANCHOR_CONFIG : Config α) =
      FULL_RANGE_DETECTOR_ANCHOR_CONFIG :=
    setDefaults_of_set _ (by simp [FULL_RANGE_DETECTOR_ANCHOR_CONFIG])
      (by simp [FULL_RANGE_DETECTOR_ANCHOR_CONFIG]) (by simp [FULL_RANGE_DETECTOR_ANCHOR_CONFIG])
  have hga := groupAnchors_finite sqrt (FULL_RANGE_DETECTOR_ANCHOR_CONFIG : Config α) 0 48 48
    fullRange_gridSize
  have hstep := groupStep_of_groupAnchors sqrt (FULL_RANGE_DETECTOR_ANCHOR_CONFIG : Config α)
    { anchors := [], layerId := 0, trace := [] } _ hga
  have hn : (FULL_RANGE_DETECTOR_ANCHOR_CONFIG : Config α).numLayers = 1 := rfl
  unfold createSsdAnchorsRun
  simp only [hd, anchorsLoop, hn, Nat.lt_one_iff, if_true, hstep, fullRange_groupScan,
    Nat.lt_irrefl, if_false, one_ne_zero, Option.map_some', groupSizes_eq]
  simp [newAnchor, FULL_RANGE_DETECTOR_ANCHOR_CONFIG, Field.truthy, lit_one]

theorem groupAnchors_index (sqrt : α → α) (config : Config α) (s : ℕ) (H W : ℤ)
    (hg : gridSize config s = (Extent.fin H, Extent.fin W)) :
    ∃ as, groupAnchors sqrt config s [] = some as ∧
      as.length = H.toNat * W.toNat * (groupScan sqrt config s).aspectRatios.length ∧
      ∀ (y x k : ℕ) (w h : α), y < H.toNat → x < W.toNat →
        (groupSizes sqrt config s).2[k]? = some w →
        (groupSizes sqrt config s).1[k]? = some h →
        as[(y * W.toNat + x) * (groupScan sqrt config s).aspectRatios.length + k]? =
          some (newAnchor config H W y x (w, h)) := by
  have hl := groupSizes_length sqrt config s
  have hz : (List.zip (groupSizes sqrt config s).2 (groupSizes sqrt config s).1).length =
      (groupScan sqrt config s).aspectRatios.length := by
    rw [List.length_zip, hl.1, hl.2]; simp
  refine ⟨_, groupAnchors_finite sqrt config s H W hg, ?_, ?_⟩
  · rw [length_grid, hz]
  · intro y x k w h hy hx hw hh
    have hk : k < (List.zip (groupSizes sqrt config s).2 (groupSizes sqrt config s).1).length := by
      rw [hz, ← hl.2]
      exact (List.getElem?_eq_some_iff.mp hw).1
    have hzk : (List.zip (groupSizes sqrt config s).2 (groupSizes sqrt config s).1)[k]? =
        some (w, h) := List.getElem?_zip_eq_some.mpr ⟨hw, hh⟩
    rw [← hz, getElem?_grid _ _ _ _ y x k hy hx hk, hzk]
    rfl

theorem newAnchor_eq (config : Config α) (H W : ℤ) (y x : ℕ) (w h : α) :
    newAnchor config H W y x (w, h) =
      { xCenter := ((x : α) + config.anchorOffsetX) / (W : α)
        yCenter := ((y : α) + config.anchorOffsetY) / (H : α)
        width := if config.fixedAnchorSize.truthy = true then 1 else w
        height := if config.fixedAnchorSize.truthy = true then 1 else h } := by
  unfold newAnchor
  split_ifs <;> simp [lit_one]

theorem createSsdAnchorsRun_wellFormed (sqrt : α → α) (config : Config α)
    (hwf : config.WellFormed) :
    ∃ st, Iterates sqrt (setDefaults config) { anchors := [], layerId := 0, trace := [] } st ∧
      ∀ fuel, config.numLayers < fuel →
        createSsdAnchorsRun sqrt fuel config = some (st, setDefaults config) := by
  obtain ⟨st, hit, hfuel⟩ := anchorsLoop_terminates sqrt (setDefaults config)
    (setDefaults_wellFormed config hwf) _ { anchors := [], layerId := 0, trace := [] } rfl
  refine ⟨st, hit, fun fuel hf => ?_⟩
  unfold createSsdAnchorsRun
  have hn := (setDefaults_fields config).2.2.1
  dsimp only
  rw [hfuel fuel (by simp only [hn]; omega)]
  rfl

theorem setDefaults_positiveSizes (config : Config α) (h : config.PositiveSizes) :
    (setDefaults config).PositiveSizes := by
  obtain ⟨e1, e2, _, _, _, e6, e7, _⟩ := setDefaults_fields config
  unfold Config.PositiveSizes at h ⊢
  rw [e1, e2, e6, e7]
  exact h

theorem gridSize_pos (config : Config α) (hwf : config.WellFormed)
    (hpos : config.PositiveSizes) (layerId : ℕ) (hl : layerId < config.numLayers) :
    ∃ h w : ℤ, gridSize config layerId = (Extent.fin h, Extent.fin w) ∧ 0 < h ∧ 0 < w := by
  obtain ⟨_, hlen, hspos, hfm⟩ := hwf
  obtain ⟨hH, hW, hfh, hfw⟩ := hpos
  unfold gridSize
  by_cases hne : config.featureMapHeight.length > 0
  · rw [if_pos hne]
    rcases hfm with ⟨hnil, _⟩ | ⟨h1, h2⟩
    · rw [hnil] at hne; simp at hne
    · have e1 : layerId < config.featureMapHeight.length := by omega
      have e2 : layerId < config.featureMapWidth.length := by omega
      refine ⟨config.featureMapHeight[layerId], config.featureMapWidth[layerId], ?_,
        hfh _ (List.getElem_mem e1), hfw _ (List.getElem_mem e2)⟩
      rw [List.getElem?_eq_getElem e1, List.getElem?_eq_getElem e2]
      rfl
  · rw [if_neg hne]
    have e : layerId < config.strides.length := by omega
    have hs : 0 < config.strides[layerId] := hspos _ (List.getElem_mem e)
    have hsq : (0 : ℚ) < (config.strides[layerId] : ℚ) := by exact_mod_cast hs
    refine ⟨⌈(config.inputSizeHeight : ℚ) / (config.strides[layerId] : ℚ)⌉,
      ⌈(config.inputSizeWidth : ℚ) / (config.strides[layerId] : ℚ)⌉, ?_, ?_, ?_⟩
    · simp only [List.getElem?_eq_getElem e, ceilDiv, ne_of_gt hs, if_false]
    · exact Int.ceil_pos.mpr (div_pos (by exact_mod_cast hH) hsq)
    · exact Int.ceil_pos.mpr (div_pos (by exact_mod_cast hW) hsq)

theorem group_counts (sqrt : α → α) (config : Config α) (hwf : config.WellFormed)
    (hpos : config.PositiveSizes) (trace : List (ℕ × List ℕ))
    (groups : List (List (Anchor α)))
    (h : List.Forall₂ (fun g as => groupAnchors sqrt config g.1 [] = some as) trace groups)
    (hlt : ∀ g ∈ trace, g.1 < config.numLayers) :
    ∃ products : List ℤ,
      List.Forall₂ (fun g p => ∃ H W : ℤ,
        gridSize config g.1 = (Extent.fin H, Extent.fin W) ∧
        p = H * W * ((groupScan sqrt config g.1).aspectRatios.length : ℤ)) trace products ∧
      List.Forall₂ (fun as p => (as.length : ℤ) = p) groups products ∧
      (groups.flatten.length : ℤ) = products.sum := by
  induction h with
  | nil => exact ⟨[], List.Forall₂.nil, List.Forall₂.nil, by simp⟩
  | @cons g as trace groups hg _ ih =>
    obtain ⟨products, h1, h2, h3⟩ := ih (fun g hg => hlt g (List.mem_cons_of_mem _ hg))
    obtain ⟨H, W, hgrid, hH, hW⟩ := gridSize_pos config hwf hpos g.1 (hlt g (by simp))
    obtain ⟨as2, has, hlen, -⟩ := groupAnchors_index sqrt config g.1 H W hgrid
    have e : as = as2 := by
      rw [hg] at has
      exact Option.some.inj has
    subst e
    have hcount : (as.length : ℤ) =
        H * W * ((groupScan sqrt config g.1).aspectRatios.length : ℤ) := by
      rw [hlen]
      push_cast
      rw [Int.toNat_of_nonneg (le_of_lt hH), Int.toNat_of_nonneg (le_of_lt hW)]
    refine ⟨_ :: products, List.Forall₂.cons ⟨H, W, hgrid, rfl⟩ h1,
      List.Forall₂.cons hcount h2, ?_⟩
    simp only [List.flatten_cons, List.length_append, List.sum_cons]
    push_cast
    rw [h3, hcount]

/-- A run whose first stride group already reaches `numLayers`. -/
theorem singleGroup_run (sqrt : α → α) (config : Config α) (H W : ℤ)
    (hn : 0 < config.numLayers)
    (hg : gridSize (setDefaults config) 0 = (Extent.fin H, Extent.fin W))
    (hlast : config.numLayers ≤ (groupScan sqrt (setDefaults config) 0).lastSameStrideLayer)
    (fuel : ℕ) :
    createSsdAnchorsRun sqrt (fuel + 2) config =
      some ({ anchors := (List.range H.toNat).flatMap (fun y =>
                (List.range W.toNat).flatMap (fun x =>
                  (List.zip (groupSizes sqrt (setDefaults config) 0).2
                    (groupSizes sqrt (setDefaults config) 0).1).map
                      (newAnchor (setDefaults config) H W y x)))
              layerId := (groupScan sqrt (setDefaults config) 0).lastSameStrideLayer
              trace := [(0, (groupScan sqrt (setDefaults config) 0).visited)] },
            setDefaults config) := by
  have hga := groupAnchors_finite sqrt (setDefaults config) 0 H W hg
  have hstep := groupStep_of_groupAnchors sqrt (setDefaults config)
    { anchors := [], layerId := 0, trace := [] } _ hga
  have hnl := (setDefaults_fields config).2.2.1
  unfold createSsdAnchorsRun
  dsimp only
  have h0 : (0 : ℕ) < (setDefaults config).numLayers := by rw [hnl]; exact hn
  have h1 : ¬ (groupScan sqrt (setDefaults config) 0).lastSameStrideLayer <
      (setDefaults config).numLayers := by rw [hnl]; omega
  simp only [anchorsLoop, h0, if_true, hstep, h1, if_false, Option.map_some',
    List.nil_append]

theorem extraStride_setDefaults : setDefaults extraStrideConfig = extraStrideConfig :=
  setDefaults_of_set _ (by simp [extraStrideConfig, FULL_RANGE_DETECTOR_ANCHOR_CONFIG])
    (by simp [extraStrideConfig, FULL_RANGE_DETECTOR_ANCHOR_CONFIG])
    (by simp [extraStrideConfig, FULL_RANGE_DETECTOR_ANCHOR_CONFIG])

theorem extraStride_gridSize :
    gridSize extraStrideConfig 0 = (Extent.fin 2, Extent.fin 2) := by
  have h : ⌈(8 : ℚ) / 4⌉ = 2 := by
    rw [Int.ceil_eq_iff]; norm_num
  simp [gridSize, extraStrideConfig, FULL_RANGE_DETECTOR_ANCHOR_CONFIG, ceilDiv, h]

theorem extraStride_groupScan (sqrt : ℚ → ℚ) :
    (groupScan sqrt extraStrideConfig 0).lastSameStrideLayer = 2 ∧
    (groupScan sqrt extraStrideConfig 0).visited = [0, 1] := by
  simp [groupScan, sameStrideScan, extraStrideConfig, FULL_RANGE_DETECTOR_ANCHOR_CONFIG]

/-- Once the cursor has reached the end of `strides` while still below `numLayers`, the
outer loop makes no progress. -/
theorem anchorsLoop_stuck (sqrt : α → α) (config : Config α) (fuel : ℕ) (st : LoopState α)
    (h1 : config.strides.length ≤ st.layerId) (h2 : st.layerId < config.numLayers) :
    anchorsLoop sqrt config fuel st = none := by
  induction fuel generalizing st with
  | zero => rfl
  | succ fuel ih =>
    unfold anchorsLoop
    rw [if_pos h2]
    cases hs : groupStep sqrt config st with
    | none => rfl
    | some st1 =>
      obtain ⟨_, _, _, hl, _⟩ := groupStep_eq_some sqrt config st st1 hs
      have hsame := (groupScan_last sqrt config st.layerId).2.2.1 h1
      exact ih st1 (by rw [hl, hsame]; exact h1) (by rw [hl, hsame]; exact h2)

theorem anchorsLoop_short_strides (sqrt : α → α) (config : Config α)
    (hshort : config.strides.length < config.numLayers) (fuel : ℕ) (st : LoopState α)
    (h : st.layerId ≤ config.strides.length) :
    anchorsLoop sqrt config fuel st = none := by
  induction fuel generalizing st with
  | zero => rfl
  | succ fuel ih =>
    by_cases hlen : config.strides.length ≤ st.layerId
    · exact anchorsLoop_stuck sqrt config _ st hlen (by omega)
    · unfold anchorsLoop
      rw [if_pos (by omega)]
      cases hs : groupStep sqrt config st with
      | none => rfl
      | some st1 =>
        obtain ⟨_, _, _, hl, _⟩ := groupStep_eq_some sqrt config st st1 hs
        have hb := ((groupScan_last sqrt config st.layerId).2.1 (by omega)).2
        exact ih st1 (by rw [hl]; exact hb)

theorem emitAnchors_mem (config : Config α) (H W : Extent) (aw ah : List α)
    (new : List (Anchor α)) (h : emitAnchors config H W aw ah [] = some new) :
    ∀ a ∈ new, ∃ (h w : ℤ) (y x : ℕ) (shape : α × α), a = newAnchor config h w y x shape := by
  intro a ha
  cases H <;> cases W <;> simp only [emitAnchors, emitFinite_nil, Option.some.injEq] at h
  case fin.fin hh ww =>
    subst h
    simp only [List.mem_flatMap, List.mem_map] at ha
    obtain ⟨y, _, x, _, shape, _, rfl⟩ := ha
    exact ⟨hh, ww, y, x, shape, rfl⟩
  case fin.posInf hh =>
    split at h
    · simp at h
    · simp only [Option.some.injEq] at h
      subst h
      simp at ha
  all_goals first
    | (subst h; simp at ha)
    | simp at h

theorem setDefaults_fixedAnchorSize (config : Config α)
    (h : config.fixedAnchorSize = Field.val true) :
    (setDefaults config).fixedAnchorSize = Field.val true := by
  unfold setDefaults
  dsimp only
  split_ifs <;> simp_all

theorem iterates_anchors_forall (sqrt : α → α) (config : Config α) (P : Anchor α → Prop)
    (hP : ∀ (h w : ℤ) (y x : ℕ) (shape : α × α), P (newAnchor config h w y x shape))
    (st st2 : LoopState α) (hit : Iterates sqrt config st st2)
    (hst : ∀ a ∈ st.anchors, P a) : ∀ a ∈ st2.anchors, P a := by
  induction hit with
  | done st _ => exact hst
  | step st st1 st2 _ hs _ ih =>
    apply ih
    obtain ⟨new, hnew, ha, -, -⟩ := groupStep_eq_some sqrt config st st1 hs
    intro a hmem
    rw [ha] at hmem
    rcases List.mem_append.mp hmem with hold | hn
    · exact hst a hold
    · obtain ⟨h, w, y, x, shape, rfl⟩ := emitAnchors_mem config _ _ _ _ new hnew a hn
      exact hP h w y x shape

theorem createSsdAnchors_eq_some (sqrt : α → α) (fuel : ℕ) (config : Config α)
    (anchors : List (Anchor α)) (h : createSsdAnchors sqrt fuel config = some anchors) :
    ∃ st, Iterates sqrt (setDefaults config) { anchors := [], layerId := 0, trace := [] } st ∧
      st.anchors = anchors := by
  unfold createSsdAnchors createSsdAnchorsRun at h
  dsimp only at h
  cases hl : anchorsLoop sqrt (setDefaults config) fuel
      { anchors := [], layerId := 0, trace := [] } with
  | none => simp [hl] at h
  | some st =>
    simp only [hl, Option.map_some', Option.some.injEq] at h
    exact ⟨st, anchorsLoop_iterates sqrt _ fuel _ st hl, h⟩

theorem twoByTwo_anchors :
    createSsdAnchors Rat.sqrt 2 twoByTwoConfig =
      some [{ xCenter := 1 / 4, yCenter := 1 / 4, width := 1, height := 1 },
            { xCenter := 3 / 4, yCenter := 1 / 4, width := 1, height := 1 },
            { xCenter := 1 / 4, yCenter := 3 / 4, width := 1, height := 1 },
            { xCenter := 3 / 4, yCenter := 3 / 4, width := 1, height := 1 }] := by
  simp [createSsdAnchors, createSsdAnchorsRun, setDefaults, anchorsLoop, groupStep,
    groupAnchors, groupScan, sameStrideScan, groupSizes, shapeSizes, gridSize, emitAnchors,
    emitFinite, memberShapes, pushAspectRatios, interpolatedPositive, calculateScale,
    newAnchor, Field.truthy, twoByTwoConfig, FULL_RANGE_DETECTOR_ANCHOR_CONFIG,
    Extent.ofRead, List.range_succ]
  norm_num

theorem setDefaults_reduce (config : Config α)
    (h : config.reduceBoxesInLowestLayer = Field.val true) :
    (setDefaults config).reduceBoxesInLowestLayer = Field.val true := by
  unfold setDefaults
  dsimp only
  split_ifs <;> simp_all

theorem memberShapes_reduced (sqrt : α → α) (config : Config α)
    (h : config.reduceBoxesInLowestLayer = Field.val true) (ars scs : List α) :
    memberShapes sqrt config 0 ars scs =
      (ars ++ [1, 2, 0.5],
        scs ++ [0.1, calculateScale config.minScale config.maxScale 0 config.strides.length,
          calculateScale config.minScale config.maxScale 0 config.strides.length]) := by
  simp [memberShapes, h, Field.truthy]

theorem groupScan_zero_visited (sqrt : α → α) (config : Config α) (h : config.strides ≠ []) :
    (groupScan sqrt config 0).visited = 0 :: (groupScan sqrt config 0).visited.tail := by
  have hlen : 0 < config.strides.length := List.length_pos.mpr h
  have hprog := ((groupScan_last sqrt config 0).2.1 hlen).1
  rw [groupScan_visited]
  obtain ⟨k, hk⟩ : ∃ k, (groupScan sqrt config 0).lastSameStrideLayer - 0 = k + 1 :=
    ⟨(groupScan sqrt config 0).lastSameStrideLayer - 1, by omega⟩
  rw [hk, List.range'_succ]
  rfl

theorem interpolatedPositive_isSome (config : Config α) :
    (interpolatedPositive config).isSome = true ↔
      ∃ v, config.interpolatedScaleAspectRatio = Field.val v ∧ 0 < v := by
  unfold interpolatedPositive
  cases h : config.interpolatedScaleAspectRatio with
  | undefined => simp
  | null => simp
  | val v =>
    by_cases hv : v > 0
    · simp [hv]
    · simp [hv]

theorem calculateScale_single (minScale maxScale : α) (strideIndex : ℕ) :
    calculateScale minScale maxScale strideIndex 1 = (minScale + maxScale) / 2 := by
  simp only [calculateScale, if_true]
  norm_num
  ring

theorem memberShapes_scales_single (sqrt : α → α) (config : Config α)
    (hlen : config.strides.length = 1) (x : α)
    (hx : x ∈ (memberShapes sqrt config 0 [] []).2) :
    x = (config.minScale + config.maxScale) / 2 ∨
    (x = 0.1 ∧ config.reduceBoxesInLowestLayer.truthy = true) ∨
    (x = sqrt ((config.minScale + config.maxScale) / 2 * 1.0) ∧
      (interpolatedPositive config).isSome = true) := by
  by_cases h1 : config.reduceBoxesInLowestLayer.truthy = true
  · simp [memberShapes, hlen, calculateScale_single, h1] at hx
    rcases hx with h | h
    · exact Or.inr (Or.inl ⟨h, h1⟩)
    · exact Or.inl h
  · cases hi : interpolatedPositive config with
    | none =>
      simp [memberShapes, pushAspectRatios_eq, hlen, calculateScale_single, h1, hi] at hx
      exact Or.inl hx.2
    | some v =>
      simp [memberShapes, pushAspectRatios_eq, hlen, calculateScale_single, h1, hi] at hx
      rcases hx with h | h
      · exact Or.inl h.2
      · refine Or.inr (Or.inr ⟨?_, rfl⟩)
        rw [h, lit_one, mul_one]

theorem groupScan_scales_single (sqrt : α → α) (config : Config α)
    (hlen : config.strides.length = 1) (layerId : ℕ) (x : α)
    (hx : x ∈ (groupScan sqrt config layerId).scales) :
    x ∈ (memberShapes sqrt config 0 [] []).2 := by
  rw [(groupScan_shapes sqrt config layerId).2, List.mem_flatMap] at hx
  obtain ⟨l, hl, hmem⟩ := hx
  rw [groupScan_visited] at hl
  have h1 := (List.mem_range'_1.mp hl)
  have hl0 : l = 0 := by
    by_cases hlt : layerId < config.strides.length
    · have := ((groupScan_last sqrt config layerId).2.1 hlt).2
      omega
    · have := (groupScan_last sqrt config layerId).2.2.1 (by omega)
      omega
  rw [hl0] at hmem
  exact hmem

theorem setDefaults_idem (config : Config α) :
    setDefaults (setDefaults config) = setDefaults config := by
  apply setDefaults_of_set
  all_goals
    unfold setDefaults
    dsimp only
    split_ifs <;> simp_all

theorem createSsdAnchorsRun_setDefaults (sqrt : α → α) (fuel : ℕ) (config : Config α) :
    createSsdAnchorsRun sqrt fuel (setDefaults config) = createSsdAnchorsRun sqrt fuel config := by
  unfold createSsdAnchorsRun
  dsimp only
  rw [setDefaults_idem]

theorem createSsdAnchors_setDefaults (sqrt : α → α) (fuel : ℕ) (config : Config α) :
    createSsdAnchors sqrt fuel (setDefaults config) = createSsdAnchors sqrt fuel config := by
  unfold createSsdAnchors
  rw [createSsdAnchorsRun_setDefaults]

theorem setDefaults_eq_specDefaults (config : Config α)
    (h1 : config.reduceBoxesInLowestLayer ≠ Field.undefined)
    (h2 : config.interpolatedScaleAspectRatio ≠ Field.undefined)
    (h3 : config.fixedAnchorSize ≠ Field.undefined) :
    setDefaults config = specDefaults config := by
  obtain ⟨r, i, fh, fw, n, mn, mx, ih, iw, ox, oy, st, ar, fx⟩ := config
  cases r <;> cases i <;> cases fx <;>
    simp_all [setDefaults, specDefaults, Field.orDefault]

theorem setDefaults_defaulted (config : Config α) :
    (setDefaults config).reduceBoxesInLowestLayer =
      (if config.reduceBoxesInLowestLayer = Field.null then Field.val false
       else config.reduceBoxesInLowestLayer) ∧
    (setDefaults config).interpolatedScaleAspectRatio =
      (if config.interpolatedScaleAspectRatio = Field.null then Field.val 1.0
       else config.interpolatedScaleAspectRatio) ∧
    (setDefaults config).fixedAnchorSize =
      (if config.fixedAnchorSize = Field.null then Field.val false
       else config.fixedAnchorSize) := by
  unfold setDefaults
  dsimp only
  split_ifs <;> simp_all

theorem createSsdAnchorsRun_config (sqrt : α → α) (fuel : ℕ) (config after : Config α)
    (st : LoopState α) (h : createSsdAnchorsRun sqrt fuel config = some (st, after)) :
    after = setDefaults config := by
  unfold createSsdAnchorsRun at h
  dsimp only at h
  cases hl : anchorsLoop sqrt (setDefaults config) fuel
      { anchors := [], layerId := 0, trace := [] } with
  | none => simp [hl] at h
  | some st2 =>
    simp only [hl, Option.map_some', Option.some.injEq, Prod.mk.injEq] at h
    exact h.2.symm

theorem nullFixed_run :
    ∃ st : LoopState ℚ,
      createSsdAnchorsRun Rat.sqrt 2 nullFixedConfig = some (st, setDefaults nullFixedConfig) := by
  have hn : (0 : ℕ) < nullFixedConfig.numLayers := by
    simp [nullFixedConfig, FULL_RANGE_DETECTOR_ANCHOR_CONFIG]
  have hg : gridSize (setDefaults nullFixedConfig) 0 = (Extent.fin 1, Extent.fin 1) := by
    simp [gridSize, setDefaults, nullFixedConfig, FULL_RANGE_DETECTOR_ANCHOR_CONFIG,
      Extent.ofRead]
  have hl : nullFixedConfig.numLayers ≤
      (groupScan Rat.sqrt (setDefaults nullFixedConfig) 0).lastSameStrideLayer := by
    simp [groupScan, sameStrideScan, setDefaults, nullFixedConfig,
      FULL_RANGE_DETECTOR_ANCHOR_CONFIG]
  exact ⟨_, singleGroup_run Rat.sqrt nullFixedConfig 1 1 hn hg hl 0⟩

theorem nullFixed_wellFormed : nullFixedConfig.WellFormed := by
  unfold Config.WellFormed nullFixedConfig FULL_RANGE_DETECTOR_ANCHOR_CONFIG
  simp

theorem last_index_iff (l n : ℕ) : ((l : ℤ) = (n : ℤ) - 1) ↔ l + 1 = n := by
  constructor <;> intro h <;> omega

theorem interpolatedPositive_eq_some (config : Config α) (v : α)
    (hv : config.interpolatedScaleAspectRatio = Field.val v) (hpos : 0 < v) :
    interpolatedPositive config = some v := by
  simp [interpolatedPositive, hv, hpos]

/-- The arrays after the loop body at a layer, written out case by case. -/
theorem memberShapes_eq (sqrt : α → α) (config : Config α) (l : ℕ) (ars scs : List α) :
    memberShapes sqrt config l ars scs =
      if l = 0 ∧ config.reduceBoxesInLowestLayer.truthy = true then
        (ars ++ [1, 2, 0.5],
          scs ++ [0.1,
            calculateScale config.minScale config.maxScale l config.strides.length,
            calculateScale config.minScale config.maxScale l config.strides.length])
      else
        match interpolatedPositive config with
        | some v =>
          (ars ++ config.aspectRatios ++ [v],
            scs ++ List.replicate config.aspectRatios.length
                (calculateScale config.minScale config.maxScale l config.strides.length) ++
              [sqrt (calculateScale config.minScale config.maxScale l config.strides.length *
                (if l + 1 = config.strides.length then 1.0
                 else calculateScale config.minScale config.maxScale (l + 1)
                   config.strides.length))])
        | none =>
          (ars ++ config.aspectRatios,
            scs ++ List.replicate config.aspectRatios.length
              (calculateScale config.minScale config.maxScale l config.strides.length)) := by
  unfold memberShapes
  simp only [pushAspectRatios_eq, last_index_iff]
  by_cases h1 : l = 0 ∧ config.reduceBoxesInLowestLayer.truthy = true
  · rw [if_pos h1, if_pos h1]
    simp
  · rw [if_neg h1, if_neg h1]

theorem calculateScale_general (minScale maxScale : α) (strideIndex numStrides : ℕ)
    (h : numStrides ≠ 1) :
    calculateScale minScale maxScale strideIndex numStrides =
      minScale + (maxScale - minScale) * (strideIndex : α) / ((numStrides : α) - 1) := by
  simp [calculateScale, h]

theorem divisor_ne_zero (numStrides : ℕ) (h : numStrides ≠ 1) :
    (numStrides : α) - 1 ≠ 0 := by
  intro h0
  apply h
  have : (numStrides : α) = ((1 : ℕ) : α) := by
    rw [Nat.cast_one]
    exact sub_eq_zero.mp h0
  exact Nat.cast_injective this

theorem ceil_div_least (a s : ℤ) (hs : 0 < s) :
    a ≤ ⌈(a : ℚ) / (s : ℚ)⌉ * s ∧
    ∀ H : ℤ, a ≤ H * s → ⌈(a : ℚ) / (s : ℚ)⌉ ≤ H := by
  have hsq : (0 : ℚ) < (s : ℚ) := by exact_mod_cast hs
  constructor
  · have h := Int.le_ceil ((a : ℚ) / (s : ℚ))
    have h2 : (a : ℚ) ≤ (⌈(a : ℚ) / (s : ℚ)⌉ : ℚ) * (s : ℚ) := (div_le_iff₀ hsq).mp h
    exact_mod_cast h2
  · intro H hH
    apply Int.ceil_le.mpr
    rw [div_le_iff₀ hsq]
    exact_mod_cast hH

theorem gridSize_cases (config : Config α) (hwf : config.WellFormed) (s : ℕ)
    (hs : s < config.numLayers) :
    (config.featureMapHeight ≠ [] →
      ∃ h w : ℤ, config.featureMapHeight[s]? = some h ∧ config.featureMapWidth[s]? = some w ∧
        gridSize config s = (Extent.fin h, Extent.fin w)) ∧
    (config.featureMapHeight = [] →
      ∃ stride : ℤ, config.strides[s]? = some stride ∧ 0 < stride ∧
        gridSize config s =
          (Extent.fin ⌈(config.inputSizeHeight : ℚ) / (stride : ℚ)⌉,
            Extent.fin ⌈(config.inputSizeWidth : ℚ) / (stride : ℚ)⌉)) := by
  obtain ⟨_, hlen, hpos, hfm⟩ := hwf
  constructor
  · intro hne
    have hH : config.featureMapHeight.length > 0 := List.length_pos.mpr hne
    rcases hfm with ⟨hnil, _⟩ | ⟨h1, h2⟩
    · exact absurd hnil hne
    · have e1 : s < config.featureMapHeight.length := by omega
      have e2 : s < config.featureMapWidth.length := by omega
      refine ⟨config.featureMapHeight[s], config.featureMapWidth[s],
        List.getElem?_eq_getElem e1, List.getElem?_eq_getElem e2, ?_⟩
      unfold gridSize
      rw [if_pos hH, List.getElem?_eq_getElem e1, List.getElem?_eq_getElem e2]
      rfl
  · intro hnil
    have e : s < config.strides.length := by omega
    have hs0 : 0 < config.strides[s] := hpos _ (List.getElem_mem e)
    refine ⟨config.strides[s], List.getElem?_eq_getElem e, hs0, ?_⟩
    unfold gridSize
    rw [if_neg (by rw [hnil]; simp)]
    simp only [List.getElem?_eq_getElem e, ceilDiv, ne_of_gt hs0, if_false]

theorem rat_sqrt_sixteen : Rat.sqrt 16 = 4 := by
  rw [show (16 : ℚ) = 4 * 4 by norm_num, Rat.sqrt_eq]
  exact abs_of_pos (by norm_num)

theorem emitAnchors_mem_bounds (config : Config α) (H W : Extent) (aw ah : List α)
    (new : List (Anchor α)) (h : emitAnchors config H W aw ah [] = some new) :
    ∀ a ∈ new, ∃ (h w : ℤ) (y x : ℕ) (shape : α × α),
      a = newAnchor config h w y x shape ∧ y < h.toNat ∧ x < w.toNat := by
  intro a ha
  cases H <;> cases W <;> simp only [emitAnchors, emitFinite_nil, Option.some.injEq] at h
  case fin.fin hh ww =>
    subst h
    simp only [List.mem_flatMap, List.mem_map, List.mem_range] at ha
    obtain ⟨y, hy, x, hx, shape, _, rfl⟩ := ha
    exact ⟨hh, ww, y, x, shape, rfl, hy, hx⟩
  case fin.posInf hh =>
    split at h
    · simp at h
    · simp only [Option.some.injEq] at h
      subst h
      simp at ha
  all_goals first
    | (subst h; simp at ha)
    | simp at h

theorem iterates_anchors_forall_bounded (sqrt : α → α) (config : Config α)
    (P : Anchor α → Prop)
    (hP : ∀ (h w : ℤ) (y x : ℕ) (shape : α × α), y < h.toNat → x < w.toNat →
      P (newAnchor config h w y x shape))
    (st st2 : LoopState α) (hit : Iterates sqrt config st st2)
    (hst : ∀ a ∈ st.anchors, P a) : ∀ a ∈ st2.anchors, P a := by
  induction hit with
  | done st _ => exact hst
  | step st st1 st2 _ hs _ ih =>
    apply ih
    obtain ⟨new, hnew, ha, -, -⟩ := groupStep_eq_some sqrt config st st1 hs
    intro a hmem
    rw [ha] at hmem
    rcases List.mem_append.mp hmem with hold | hn
    · exact hst a hold
    · obtain ⟨h, w, y, x, shape, rfl, hy, hx⟩ :=
        emitAnchors_mem_bounds config _ _ _ _ new hnew a hn
      exact hP h w y x shape hy hx

theorem center_bounds (n : ℤ) (i : ℕ) (off : α) (hi : i < n.toNat) (h0 : 0 ≤ off)
    (h1 : off ≤ 1) :
    0 ≤ ((i : α) + off) / (n : α) ∧ ((i : α) + off) / (n : α) ≤ 1 := by
  have hn : 0 < n := by
    by_contra hneg
    have : n.toNat = 0 := Int.toNat_eq_zero.mpr (by omega)
    omega
  have hnα : (0 : α) < (n : α) := by exact_mod_cast hn
  have hle : ((i : ℤ)) + 1 ≤ n := by
    have := Int.toNat_of_nonneg (le_of_lt hn)
    omega
  have hleα : (i : α) + 1 ≤ (n : α) := by exact_mod_cast hle
  have hi0 : (0 : α) ≤ (i : α) := Nat.cast_nonneg i
  constructor
  · exact div_nonneg (by linarith) (le_of_lt hnα)
  · rw [div_le_one hnα]
    linarith

theorem wideShape_anchors :
    createSsdAnchors Rat.sqrt 2 wideShapeConfig =
      some [{ xCenter := 1 / 2, yCenter := 1 / 2, width := 115 / 64, height := 115 / 1024 }] := by
  simp [createSsdAnchors, createSsdAnchorsRun, setDefaults, anchorsLoop, groupStep,
    groupAnchors, groupScan, sameStrideScan, groupSizes, shapeSizes, gridSize, emitAnchors,
    emitFinite, memberShapes, pushAspectRatios, interpolatedPositive, calculateScale,
    newAnchor, Field.truthy, wideShapeConfig, FULL_RANGE_DETECTOR_ANCHOR_CONFIG,
    Extent.ofRead, List.range_succ, lit_zero, rat_sqrt_sixteen]
  norm_num

/-- On a config none of whose three defaulted fields is missing, the call returns what it
returns on the config with the unset fields replaced by their defaults. -/
theorem createSsdAnchors_specDefaults (sqrt : α → α) (fuel : ℕ) (config : Config α)
    (h1 : config.reduceBoxesInLowestLayer ≠ Field.undefined)
    (h2 : config.interpolatedScaleAspectRatio ≠ Field.undefined)
    (h3 : config.fixedAnchorSize ≠ Field.undefined) :
    createSsdAnchors sqrt fuel config = createSsdAnchors sqrt fuel (specDefaults config) := by
  rw [← setDefaults_eq_specDefaults config h1 h2 h3, createSsdAnchors_setDefaults]

theorem roundHalfEven_of_lt (x : ℚ) (m : ℤ) (h1 : (m : ℚ) - 1 / 2 < x)
    (h2 : x < (m : ℚ) + 1 / 2) : roundHalfEven x = m := by
  unfold roundHalfEven
  have hf1 : (⌊x⌋ : ℚ) ≤ x := Int.floor_le x
  have hf2 : x < (⌊x⌋ : ℚ) + 1 := Int.lt_floor_add_one x
  have hfm : ⌊x⌋ = m ∨ ⌊x⌋ = m - 1 := by
    have a1 : ((⌊x⌋ : ℤ) : ℚ) < (m : ℚ) + 1 := by linarith
    have a2 : (m : ℚ) - 2 < ((⌊x⌋ : ℤ) : ℚ) := by linarith
    have b1 : ⌊x⌋ < m + 1 := by exact_mod_cast a1
    have b2 : m - 2 < ⌊x⌋ := by exact_mod_cast a2
    omega
  rcases hfm with h | h
  · rw [h]
    rw [h] at hf1 hf2
    rw [if_pos (by linarith)]
  · rw [h]
    rw [h] at hf1 hf2
    push_cast at hf1 hf2 ⊢
    rw [if_neg (by linarith), if_pos (by linarith)]
    ring

theorem roundHalfEven_tie (x : ℚ) (f : ℤ) (h : x = (f : ℚ) + 1 / 2) :
    roundHalfEven x = if f % 2 = 0 then f else f + 1 := by
  have hf : ⌊x⌋ = f := by
    rw [Int.floor_eq_iff]
    constructor <;> linarith
  unfold roundHalfEven
  rw [hf, h]
  rw [if_neg (by linarith), if_neg (by linarith)]

theorem roundHalfEven_intCast (n : ℤ) : roundHalfEven (n : ℚ) = n :=
  roundHalfEven_of_lt _ n (by linarith) (by linarith)

theorem roundHalfEven_bounds (x : ℚ) :
    (roundHalfEven x = ⌊x⌋ ∨ roundHalfEven x = ⌊x⌋ + 1) ∧
    (roundHalfEven x = ⌊x⌋ + 1 → (1 / 2 : ℚ) ≤ x - ⌊x⌋) ∧
    (roundHalfEven x = ⌊x⌋ → x - ⌊x⌋ ≤ (1 / 2 : ℚ)) := by
  unfold roundHalfEven
  split_ifs with h1 h2 h3
  · exact ⟨Or.inl rfl, fun h => by omega, fun _ => le_of_lt h1⟩
  · exact ⟨Or.inr rfl, fun _ => le_of_lt h2, fun h => by omega⟩
  · exact ⟨Or.inl rfl, fun h => by omega, fun _ => not_lt.mp h2⟩
  · exact ⟨Or.inr rfl, fun _ => not_lt.mp h1, fun h => by omega⟩

theorem roundHalfEven_mono : Monotone roundHalfEven := by
  intro x y hxy
  have hfl : ⌊x⌋ ≤ ⌊y⌋ := Int.floor_mono hxy
  rcases lt_or_eq_of_le hfl with hlt | heq
  · obtain ⟨hx, -, -⟩ := roundHalfEven_bounds x
    obtain ⟨hy, -, -⟩ := roundHalfEven_bounds y
    rcases hx with hx | hx <;> rcases hy with hy | hy <;> rw [hx, hy] <;> omega
  · unfold roundHalfEven
    rw [← heq]
    have hd : x - ⌊x⌋ ≤ y - ⌊x⌋ := by linarith
    split_ifs <;> first | omega | (exfalso; linarith)

theorem roundHalfEven_neg (x : ℚ) : roundHalfEven (-x) = -roundHalfEven x := by
  by_cases hint : (⌊x⌋ : ℚ) = x
  · rw [← hint, ← Int.cast_neg, roundHalfEven_intCast, roundHalfEven_intCast]
  · have hf1 : (⌊x⌋ : ℚ) < x := lt_of_le_of_ne (Int.floor_le x) hint
    have hf2 : x < (⌊x⌋ : ℚ) + 1 := Int.lt_floor_add_one x
    have hneg : ⌊-x⌋ = -⌊x⌋ - 1 := by
      rw [Int.floor_eq_iff]
      push_cast
      constructor <;> linarith
    unfold roundHalfEven
    rw [hneg]
    push_cast
    have hpar : (-⌊x⌋ - 1) % 2 = 0 ↔ ¬ (⌊x⌋ % 2 = 0) := by omega
    split_ifs <;> first | omega | (exfalso; linarith)

theorem roundBinary_zero (p : ℕ) : roundBinary p 0 = 0 := by
  simp [roundBinary]

theorem log_two_eq (q : ℚ) (e : ℤ) (hq : 0 < q) (h1 : (2 : ℚ) ^ e ≤ q)
    (h2 : q < (2 : ℚ) ^ (e + 1)) : Int.log 2 q = e := by
  have a1 : e ≤ Int.log 2 q := by
    apply (Int.zpow_le_iff_le_log (by norm_num : 1 < 2) hq).mp
    simpa using h1
  have a2 : Int.log 2 q < e + 1 := by
    apply (Int.lt_zpow_iff_log_lt (by norm_num : 1 < 2) hq).mp
    simpa using h2
  omega

theorem log_two_spec (q : ℚ) (hq : 0 < q) :
    (2 : ℚ) ^ (Int.log 2 q) ≤ q ∧ q < (2 : ℚ) ^ (Int.log 2 q + 1) := by
  have h1 := Int.zpow_log_le_self (b := 2) (r := q) (by norm_num) hq
  have h2 := Int.lt_zpow_succ_log_self (b := 2) (by norm_num) q
  simp only [Nat.cast_ofNat] at h1 h2
  exact ⟨h1, h2⟩

/-- Evaluation of `roundBinary` from the binade of its argument. -/
theorem roundBinary_eq (p : ℕ) (q : ℚ) (e : ℤ) (hq : q ≠ 0) (h1 : (2 : ℚ) ^ e ≤ |q|)
    (h2 : |q| < (2 : ℚ) ^ (e + 1)) :
    roundBinary p q =
      (roundHalfEven (q / 2 ^ (e - ((p : ℤ) - 1))) : ℚ) * 2 ^ (e - ((p : ℤ) - 1)) := by
  unfold roundBinary
  rw [if_neg hq, log_two_eq |q| e (abs_pos.mpr hq) h1 h2]

theorem roundBinary_neg (p : ℕ) (q : ℚ) : roundBinary p (-q) = -roundBinary p q := by
  unfold roundBinary
  by_cases hq : q = 0
  · simp [hq]
  · rw [if_neg hq, if_neg (neg_ne_zero.mpr hq), abs_neg, neg_div, roundHalfEven_neg]
    push_cast
    ring

theorem two_zpow_pos (e : ℤ) : (0 : ℚ) < 2 ^ e := zpow_pos (by norm_num) e

theorem roundBinary_pos_bounds (p : ℕ) (hp : 1 ≤ p) (q : ℚ) (hq : 0 < q) :
    (2 : ℚ) ^ (Int.log 2 q) ≤ roundBinary p q ∧
    roundBinary p q ≤ (2 : ℚ) ^ (Int.log 2 q + 1) := by
  obtain ⟨h1, h2⟩ := log_two_spec q hq
  have habs : |q| = q := abs_of_pos hq
  rw [roundBinary_eq p q (Int.log 2 q) (ne_of_gt hq) (by rw [habs]; exact h1)
    (by rw [habs]; exact h2)]
  set e := Int.log 2 q with he
  have hu : (0 : ℚ) < 2 ^ (e - ((p : ℤ) - 1)) := two_zpow_pos _
  obtain ⟨k, hk⟩ : ∃ k : ℕ, (p : ℤ) - 1 = (k : ℤ) := ⟨p - 1, by omega⟩
  have elo : (2 : ℚ) ^ e = (((2 : ℤ) ^ k : ℤ) : ℚ) * 2 ^ (e - ((p : ℤ) - 1)) := by
    rw [hk]
    push_cast
    rw [← zpow_natCast, ← zpow_add₀ (by norm_num : (2 : ℚ) ≠ 0)]
    congr 1
    ring
  have ehi : (2 : ℚ) ^ (e + 1) = (((2 : ℤ) ^ (k + 1) : ℤ) : ℚ) * 2 ^ (e - ((p : ℤ) - 1)) := by
    rw [hk]
    push_cast
    rw [← zpow_natCast, ← zpow_add₀ (by norm_num : (2 : ℚ) ≠ 0)]
    congr 1
    push_cast
    ring
  constructor
  · rw [elo]
    apply mul_le_mul_of_nonneg_right _ (le_of_lt hu)
    have hle : (((2 : ℤ) ^ k : ℤ) : ℚ) ≤ q / 2 ^ (e - ((p : ℤ) - 1)) := by
      rw [le_div_iff₀ hu, ← elo]
      exact h1
    have := roundHalfEven_mono hle
    rw [roundHalfEven_intCast] at this
    exact_mod_cast this
  · rw [ehi]
    apply mul_le_mul_of_nonneg_right _ (le_of_lt hu)
    have hle : q / 2 ^ (e - ((p : ℤ) - 1)) ≤ (((2 : ℤ) ^ (k + 1) : ℤ) : ℚ) := by
      rw [div_le_iff₀ hu, ← ehi]
      exact le_of_lt h2
    have := roundHalfEven_mono hle
    rw [roundHalfEven_intCast] at this
    exact_mod_cast this

theorem roundBinary_mono_pos (p : ℕ) (hp : 1 ≤ p) (x y : ℚ) (hx : 0 < x) (hxy : x ≤ y) :
    roundBinary p x ≤ roundBinary p y := by
  have hy : 0 < y := lt_of_lt_of_le hx hxy
  have hlog : Int.log 2 x ≤ Int.log 2 y := Int.log_mono_right hx hxy
  rcases lt_or_eq_of_le hlog with hlt | heq
  · have b1 := (roundBinary_pos_bounds p hp x hx).2
    have b2 := (roundBinary_pos_bounds p hp y hy).1
    have hz : (2 : ℚ) ^ (Int.log 2 x + 1) ≤ 2 ^ (Int.log 2 y) :=
      zpow_le_zpow_right₀ (by norm_num) (by omega)
    linarith
  · obtain ⟨x1, x2⟩ := log_two_spec x hx
    obtain ⟨y1, y2⟩ := log_two_spec y hy
    rw [roundBinary_eq p x (Int.log 2 x) (ne_of_gt hx) (by rw [abs_of_pos hx]; exact x1)
      (by rw [abs_of_pos hx]; exact x2),
      roundBinary_eq p y (Int.log 2 y) (ne_of_gt hy) (by rw [abs_of_pos hy]; exact y1)
      (by rw [abs_of_pos hy]; exact y2), heq]
    have hu : (0 : ℚ) < 2 ^ (Int.log 2 y - ((p : ℤ) - 1)) := two_zpow_pos _
    apply mul_le_mul_of_nonneg_right _ (le_of_lt hu)
    have := roundHalfEven_mono (div_le_div_of_nonneg_right hxy (le_of_lt hu))
    exact_mod_cast this

theorem roundBinary_nonneg (p : ℕ) (hp : 1 ≤ p) (q : ℚ) (hq : 0 ≤ q) :
    0 ≤ roundBinary p q := by
  rcases lt_or_eq_of_le hq with h | h
  · exact le_trans (le_of_lt (two_zpow_pos _)) (roundBinary_pos_bounds p hp q h).1
  · rw [← h, roundBinary_zero]

/-- Rounding to nearest is monotone. -/
theorem roundBinary_mono (p : ℕ) (hp : 1 ≤ p) : Monotone (roundBinary p) := by
  intro x y hxy
  rcases lt_trichotomy x 0 with hx | hx | hx
  · rcases lt_or_le y 0 with hy | hy
    · have h := roundBinary_mono_pos p hp (-y) (-x) (by linarith) (by linarith)
      rw [roundBinary_neg, roundBinary_neg] at h
      linarith
    · have h1 := roundBinary_nonneg p hp (-x) (by linarith)
      rw [roundBinary_neg] at h1
      have h2 := roundBinary_nonneg p hp y hy
      linarith
  · rw [hx, roundBinary_zero]
    exact roundBinary_nonneg p hp y (by rw [← hx]; exact hxy)
  · exact roundBinary_mono_pos p hp x y hx hxy

theorem toDouble_mono : Monotone toDouble := roundBinary_mono 53 (by norm_num)

theorem toDouble_zero : toDouble 0 = 0 := roundBinary_zero 53

/-- In exact arithmetic, for `numStrides ≥ 2` and `minScale ≤ maxScale`, `calculateScale`
is `minScale` at index 0 and `maxScale` at index `numStrides - 1`, is non-decreasing in the
index and stays between the two; for `numStrides = 1` it lies between them too. -/
theorem calculateScale_exact_bounds (minScale maxScale : α) (numStrides : ℕ) (hn : 2 ≤ numStrides)
    (hle : minScale ≤ maxScale) :
    calculateScale minScale maxScale 0 numStrides = minScale ∧
    calculateScale minScale maxScale (numStrides - 1) numStrides = maxScale ∧
    (∀ i j : ℕ, i ≤ j →
      calculateScale minScale maxScale i numStrides ≤
        calculateScale minScale maxScale j numStrides) ∧
    (∀ i : ℕ, i ≤ numStrides - 1 →
      minScale ≤ calculateScale minScale maxScale i numStrides ∧
      calculateScale minScale maxScale i numStrides ≤ maxScale) ∧
    (∀ i : ℕ, minScale ≤ calculateScale minScale maxScale i 1 ∧
      calculateScale minScale maxScale i 1 ≤ maxScale) := by
  have hne : numStrides ≠ 1 := by omega
  have hd : (0 : α) < (numStrides : α) - 1 := by
    have : ((2 : ℕ) : α) ≤ (numStrides : α) := Nat.cast_le.mpr hn
    have h2 : ((2 : ℕ) : α) = 2 := by norm_num
    rw [h2] at this
    linarith
  have hdiff : (0 : α) ≤ maxScale - minScale := sub_nonneg.mpr hle
  have hmono : ∀ i j : ℕ, i ≤ j →
      calculateScale minScale maxScale i numStrides ≤
        calculateScale minScale maxScale j numStrides := by
    intro i j hij
    rw [calculateScale_general _ _ _ _ hne, calculateScale_general _ _ _ _ hne]
    have hc : (i : α) ≤ (j : α) := Nat.cast_le.mpr hij
    have : (maxScale - minScale) * (i : α) ≤ (maxScale - minScale) * (j : α) :=
      mul_le_mul_of_nonneg_left hc hdiff
    have := div_le_div_of_nonneg_right this (le_of_lt hd)
    linarith
  have h0 : calculateScale minScale maxScale 0 numStrides = minScale := by
    rw [calculateScale_general _ _ _ _ hne]
    simp
  have hlast : calculateScale minScale maxScale (numStrides - 1) numStrides = maxScale := by
    rw [calculateScale_general _ _ _ _ hne]
    have hc : ((numStrides - 1 : ℕ) : α) = (numStrides : α) - 1 := by
      rw [Nat.cast_sub (by omega)]
      simp
    rw [hc, mul_div_assoc, div_self (ne_of_gt hd)]
    ring
  refine ⟨h0, hlast, hmono, ?_, ?_⟩
  · intro i hi
    constructor
    · have h := hmono 0 i (Nat.zero_le _)
      rw [h0] at h
      exact h
    · have h := hmono i (numStrides - 1) hi
      rw [hlast] at h
      exact h
  · intro i
    rw [calculateScale_single]
    constructor <;> linarith

/-- Evaluation of `roundBinary` at a positive rational from its binade and the nearest
multiple of the unit in the last place. -/
theorem roundBinary_cert (p : ℕ) (q : ℚ) (e m : ℤ) (hq : 0 < q) (h1 : (2 : ℚ) ^ e ≤ q)
    (h2 : q < (2 : ℚ) ^ (e + 1))
    (h3 : (m : ℚ) - 1 / 2 < q / 2 ^ (e - ((p : ℤ) - 1)))
    (h4 : q / 2 ^ (e - ((p : ℤ) - 1)) < (m : ℚ) + 1 / 2) :
    roundBinary p q = (m : ℚ) * 2 ^ (e - ((p : ℤ) - 1)) := by
  rw [roundBinary_eq p q e (ne_of_gt hq) (by rw [abs_of_pos hq]; exact h1)
    (by rw [abs_of_pos hq]; exact h2), roundHalfEven_of_lt _ m h3 h4]

/-- Evaluation of `roundBinary` at a positive rational that lies half-way between two
neighbours. -/
theorem roundBinary_cert_tie (p : ℕ) (q : ℚ) (e f : ℤ) (hq : 0 < q) (h1 : (2 : ℚ) ^ e ≤ q)
    (h2 : q < (2 : ℚ) ^ (e + 1))
    (h3 : q / 2 ^ (e - ((p : ℤ) - 1)) = (f : ℚ) + 1 / 2) :
    roundBinary p q =
      ((if f % 2 = 0 then f else f + 1 : ℤ) : ℚ) * 2 ^ (e - ((p : ℤ) - 1)) := by
  rw [roundBinary_eq p q e (ne_of_gt hq) (by rw [abs_of_pos hq]; exact h1)
    (by rw [abs_of_pos hq]; exact h2), roundHalfEven_tie _ f h3]

theorem toDouble_tenth : toDouble 0.1 = 3602879701896397 / 36028797018963968 := by
  unfold toDouble
  rw [roundBinary_cert 53 _ (-4) 7205759403792794 (by norm_num) (by norm_num) (by norm_num)
    (by norm_num) (by norm_num)]
  norm_num

theorem toDouble_nine_tenths : toDouble 0.9 = 8106479329266893 / 9007199254740992 := by
  unfold toDouble
  rw [roundBinary_cert 53 _ (-1) 8106479329266893 (by norm_num) (by norm_num) (by norm_num)
    (by norm_num) (by norm_num)]
  norm_num

theorem toDouble_three : toDouble (((4 : ℕ) : ℚ) - 1) = 3 := by
  unfold toDouble
  rw [roundBinary_cert 53 _ 1 6755399441055744 (by norm_num) (by norm_num) (by norm_num)
    (by norm_num) (by norm_num)]
  norm_num

/-- With the identity as rounding, `calculateScaleFl` is `calculateScale`. -/
theorem calculateScaleFl_id (minScale maxScale : α) (strideIndex numStrides : ℕ) :
    calculateScaleFl (fun x => x) minScale maxScale strideIndex numStrides =
      calculateScale minScale maxScale strideIndex numStrides := rfl

theorem toDouble_quarter : toDouble (1 / 4) = 1 / 4 := by
  unfold toDouble
  rw [roundBinary_cert 53 _ (-2) 4503599627370496 (by norm_num) (by norm_num) (by norm_num)
    (by norm_num) (by norm_num)]
  norm_num

theorem toDouble_three_quarters : toDouble (3 / 4) = 3 / 4 := by
  unfold toDouble
  rw [roundBinary_cert 53 _ (-1) 6755399441055744 (by norm_num) (by norm_num) (by norm_num)
    (by norm_num) (by norm_num)]
  norm_num

theorem toDouble_two_quarters : toDouble (1 / 4 + 1 / 4) = 1 / 4 + 1 / 4 := by
  unfold toDouble
  rw [roundBinary_cert 53 _ (-1) 4503599627370496 (by norm_num) (by norm_num) (by norm_num)
    (by norm_num) (by norm_num)]
  norm_num

theorem toDouble_six_quarters : toDouble (3 / 4 + 3 / 4) = 3 / 4 + 3 / 4 := by
  unfold toDouble
  rw [roundBinary_cert 53 _ 0 6755399441055744 (by norm_num) (by norm_num) (by norm_num)
    (by norm_num) (by norm_num)]
  norm_num

theorem roundHalfEven_ge_succ (x : ℚ) (K : ℤ) (h : (K : ℚ) + 1 / 2 < x) :
    K + 1 ≤ roundHalfEven x := by
  have hK : K ≤ ⌊x⌋ := Int.le_floor.mpr (by linarith)
  obtain ⟨h1, -, h3⟩ := roundHalfEven_bounds x
  rcases h1 with h1 | h1
  · have h4 := h3 h1
    have hlt : (K : ℚ) < (⌊x⌋ : ℚ) := by linarith
    have h5 : K < ⌊x⌋ := by exact_mod_cast hlt
    omega
  · omega

theorem roundHalfEven_le_pred (x : ℚ) (K : ℤ) (h : x < (K : ℚ) - 1 / 2) :
    roundHalfEven x ≤ K - 1 := by
  have h1 := roundHalfEven_ge_succ (-x) (-K) (by push_cast; linarith)
  rw [roundHalfEven_neg] at h1
  omega

/-- For a positive integer `a` below `2 ^ 53` and a positive integer `s`, rounding the
quotient `a / s` to the nearest double moves it across no integer. -/
theorem toDouble_div_pos (a s : ℤ) (ha : 0 < a) (hs : 0 < s) (hlt : a < 2 ^ 53) (z : ℤ) :
    (toDouble ((a : ℚ) / (s : ℚ)) ≤ (z : ℚ) ↔ (a : ℚ) / (s : ℚ) ≤ (z : ℚ)) ∧
    ((z : ℚ) ≤ toDouble ((a : ℚ) / (s : ℚ)) ↔ (z : ℚ) ≤ (a : ℚ) / (s : ℚ)) := by
  have haq : (0 : ℚ) < a := by exact_mod_cast ha
  have hsq : (0 : ℚ) < s := by exact_mod_cast hs
  have hs1 : (1 : ℚ) ≤ s := by exact_mod_cast hs
  have hqpos : (0 : ℚ) < (a : ℚ) / (s : ℚ) := div_pos haq hsq
  have hqa : (a : ℚ) / (s : ℚ) ≤ a := div_le_self (le_of_lt haq) hs1
  have ha53 : (a : ℚ) < 2 ^ 53 := by exact_mod_cast hlt
  have hq53 : (a : ℚ) / (s : ℚ) < ((2 : ℕ) : ℚ) ^ (53 : ℤ) := by
    have h2 : (((2 : ℕ) : ℚ)) ^ (53 : ℤ) = 2 ^ 53 := by norm_num
    rw [h2]
    linarith
  have he : Int.log 2 ((a : ℚ) / (s : ℚ)) < 53 :=
    (Int.lt_zpow_iff_log_lt (by norm_num) hqpos).mp hq53
  obtain ⟨l1, l2⟩ := log_two_spec ((a : ℚ) / (s : ℚ)) hqpos
  obtain ⟨n, hn⟩ : ∃ n : ℕ, (n : ℤ) = 52 - Int.log 2 ((a : ℚ) / (s : ℚ)) :=
    ⟨(52 - Int.log 2 ((a : ℚ) / (s : ℚ))).toNat, Int.toNat_of_nonneg (by omega)⟩
  have hexp : Int.log 2 ((a : ℚ) / (s : ℚ)) - (((53 : ℕ) : ℤ) - 1) = -(n : ℤ) := by
    push_cast
    omega
  have hNpos : (0 : ℚ) < (((2 : ℤ) ^ n : ℤ) : ℚ) := by
    push_cast
    positivity
  have hto : toDouble ((a : ℚ) / (s : ℚ)) =
      (roundHalfEven ((a : ℚ) / (s : ℚ) * (((2 : ℤ) ^ n : ℤ) : ℚ)) : ℚ) /
        (((2 : ℤ) ^ n : ℤ) : ℚ) := by
    unfold toDouble
    rw [roundBinary_eq 53 _ (Int.log 2 ((a : ℚ) / (s : ℚ))) (ne_of_gt hqpos)
      (by rw [abs_of_pos hqpos]; exact l1) (by rw [abs_of_pos hqpos]; exact l2), hexp,
      zpow_neg, zpow_natCast]
    push_cast
    simp only [div_eq_mul_inv, inv_inv]
  -- the stride is below two units of the last place, counted in quotient steps
  have hsN : (s : ℚ) < 2 * (((2 : ℤ) ^ n : ℤ) : ℚ) := by
    have e1 : Int.log 2 ((a : ℚ) / (s : ℚ)) = 52 - (n : ℤ) := by omega
    have e2 : (2 : ℚ) ^ (Int.log 2 ((a : ℚ) / (s : ℚ))) = 2 ^ (52 : ℤ) / 2 ^ (n : ℤ) := by
      rw [e1, zpow_sub₀ (by norm_num : (2 : ℚ) ≠ 0)]
    rw [e2, zpow_natCast] at l1
    have l3 : (2 : ℚ) ^ (52 : ℤ) / 2 ^ n * (s : ℚ) ≤ (a : ℚ) := (le_div_iff₀ hsq).mp l1
    have hp : (0 : ℚ) < 2 ^ n := by positivity
    have l4 : (2 : ℚ) ^ (52 : ℤ) * (s : ℚ) ≤ (a : ℚ) * 2 ^ n := by
      rw [div_mul_eq_mul_div, div_le_iff₀ hp] at l3
      exact l3
    have ha53n : (a : ℚ) < 9007199254740992 := by
      have h2 : (2 : ℚ) ^ 53 = 9007199254740992 := by norm_num
      rw [h2] at ha53
      exact ha53
    have l5 : (a : ℚ) * 2 ^ n < 9007199254740992 * 2 ^ n := mul_lt_mul_of_pos_right ha53n hp
    have h52 : (2 : ℚ) ^ (52 : ℤ) = 4503599627370496 := by norm_num
    rw [h52] at l4
    push_cast
    linarith
  have hstep : ∀ x y : ℤ, (x : ℚ) < (y : ℚ) * (s : ℚ) →
      (x : ℚ) / (s : ℚ) * (((2 : ℤ) ^ n : ℤ) : ℚ) + 1 / 2 <
        (y : ℚ) * (((2 : ℤ) ^ n : ℤ) : ℚ) := by
    intro x y hxy
    have h1 : x + 1 ≤ y * s := by
      have : x < y * s := by exact_mod_cast hxy
      omega
    have h2 : (x : ℚ) + 1 ≤ (y : ℚ) * (s : ℚ) := by exact_mod_cast h1
    have h3 : (x : ℚ) / (s : ℚ) ≤ (y : ℚ) - 1 / (s : ℚ) := by
      rw [div_le_iff₀ hsq, sub_mul, one_div, inv_mul_cancel₀ (ne_of_gt hsq)]
      linarith
    have h4 : (1 : ℚ) / 2 < (((2 : ℤ) ^ n : ℤ) : ℚ) / (s : ℚ) := by
      rw [lt_div_iff₀ hsq]
      linarith
    have h5 : (x : ℚ) / (s : ℚ) * (((2 : ℤ) ^ n : ℤ) : ℚ) ≤
        ((y : ℚ) - 1 / (s : ℚ)) * (((2 : ℤ) ^ n : ℤ) : ℚ) :=
      mul_le_mul_of_nonneg_right h3 (le_of_lt hNpos)
    have h6 : ((y : ℚ) - 1 / (s : ℚ)) * (((2 : ℤ) ^ n : ℤ) : ℚ) =
        (y : ℚ) * (((2 : ℤ) ^ n : ℤ) : ℚ) - (((2 : ℤ) ^ n : ℤ) : ℚ) / (s : ℚ) := by
      ring
    linarith
  have hcast : ∀ y : ℤ, (y : ℚ) * (((2 : ℤ) ^ n : ℤ) : ℚ) = ((y * (2 : ℤ) ^ n : ℤ) : ℚ) := by
    intro y
    push_cast
    rfl
  constructor
  · constructor
    · intro h
      by_contra hcon
      have hzq : (z : ℚ) < (a : ℚ) / (s : ℚ) := not_le.mp hcon
      have hza : (z : ℚ) * (s : ℚ) < (a : ℚ) := (lt_div_iff₀ hsq).mp hzq
      -- the quotient is at least `1 / s` above `z`
      have h1 : z * s + 1 ≤ a := by
        have : z * s < a := by exact_mod_cast hza
        omega
      have h2 : (z : ℚ) * (s : ℚ) + 1 ≤ (a : ℚ) := by exact_mod_cast h1
      have h3 : (z : ℚ) + 1 / (s : ℚ) ≤ (a : ℚ) / (s : ℚ) := by
        rw [le_div_iff₀ hsq, add_mul, one_div, inv_mul_cancel₀ (ne_of_gt hsq)]
        exact h2
      have h4 : (1 : ℚ) / 2 < (((2 : ℤ) ^ n : ℤ) : ℚ) / (s : ℚ) := by
        rw [lt_div_iff₀ hsq]
        linarith
      have h5 : ((z : ℚ) + 1 / (s : ℚ)) * (((2 : ℤ) ^ n : ℤ) : ℚ) ≤
          (a : ℚ) / (s : ℚ) * (((2 : ℤ) ^ n : ℤ) : ℚ) :=
        mul_le_mul_of_nonneg_right h3 (le_of_lt hNpos)
      have h6 : ((z : ℚ) + 1 / (s : ℚ)) * (((2 : ℤ) ^ n : ℤ) : ℚ) =
          (z : ℚ) * (((2 : ℤ) ^ n : ℤ) : ℚ) + (((2 : ℤ) ^ n : ℤ) : ℚ) / (s : ℚ) := by
        ring
      have h7 := roundHalfEven_ge_succ ((a : ℚ) / (s : ℚ) * (((2 : ℤ) ^ n : ℤ) : ℚ))
        (z * (2 : ℤ) ^ n) (by rw [← hcast]; linarith)
      have h8 : ((z * (2 : ℤ) ^ n + 1 : ℤ) : ℚ) ≤
          (roundHalfEven ((a : ℚ) / (s : ℚ) * (((2 : ℤ) ^ n : ℤ) : ℚ)) : ℚ) := by
        exact_mod_cast h7
      rw [hto, div_le_iff₀ hNpos, hcast] at h
      have h9 : ((z * (2 : ℤ) ^ n + 1 : ℤ) : ℚ) = ((z * (2 : ℤ) ^ n : ℤ) : ℚ) + 1 := by
        push_cast
        rfl
      linarith
    · intro h
      have h1 := roundHalfEven_mono (mul_le_mul_of_nonneg_right h (le_of_lt hNpos))
      rw [hcast, roundHalfEven_intCast] at h1
      rw [hto, div_le_iff₀ hNpos, hcast]
      exact_mod_cast h1
  · constructor
    · intro h
      by_contra hcon
      have hzq : (a : ℚ) / (s : ℚ) < (z : ℚ) := not_le.mp hcon
      have hza : (a : ℚ) < (z : ℚ) * (s : ℚ) := (div_lt_iff₀ hsq).mp hzq
      have h5 := hstep a z hza
      have h7 := roundHalfEven_le_pred ((a : ℚ) / (s : ℚ) * (((2 : ℤ) ^ n : ℤ) : ℚ))
        (z * (2 : ℤ) ^ n) (by rw [← hcast]; linarith)
      have h8 : (roundHalfEven ((a : ℚ) / (s : ℚ) * (((2 : ℤ) ^ n : ℤ) : ℚ)) : ℚ) ≤
          ((z * (2 : ℤ) ^ n - 1 : ℤ) : ℚ) := by
        exact_mod_cast h7
      rw [hto, le_div_iff₀ hNpos, hcast] at h
      have h9 : ((z * (2 : ℤ) ^ n - 1 : ℤ) : ℚ) = ((z * (2 : ℤ) ^ n : ℤ) : ℚ) - 1 := by
        push_cast
        rfl
      linarith
    · intro h
      have h1 := roundHalfEven_mono (mul_le_mul_of_nonneg_right h (le_of_lt hNpos))
      rw [hcast, roundHalfEven_intCast] at h1
      rw [hto, le_div_iff₀ hNpos, hcast]
      exact_mod_cast h1

/-- For an integer `a` of magnitude below `2 ^ 53` and a positive integer `s`, the ceiling
of the quotient `a / s` rounded to the nearest double is the ceiling of the exact
quotient. -/
theorem ceil_toDouble_div (a s : ℤ) (hs : 0 < s) (hlt : |a| < 2 ^ 53) :
    ⌈toDouble ((a : ℚ) / (s : ℚ))⌉ = ⌈(a : ℚ) / (s : ℚ)⌉ := by
  obtain ⟨hlo, hhi⟩ := abs_lt.mp hlt
  apply eq_of_forall_ge_iff
  intro z
  rw [Int.ceil_le, Int.ceil_le]
  rcases lt_trichotomy a 0 with ha | ha | ha
  · have h := (toDouble_div_pos (-a) s (by omega) hs (by omega) (-z)).2
    have e : ((-a : ℤ) : ℚ) / (s : ℚ) = -((a : ℚ) / (s : ℚ)) := by
      push_cast
      ring
    rw [e] at h
    unfold toDouble at h ⊢
    rw [roundBinary_neg, Int.cast_neg, neg_le_neg_iff, neg_le_neg_iff] at h
    exact h
  · rw [ha]
    simp [toDouble_zero]
  · exact (toDouble_div_pos a s ha hs hhi z).1

theorem gridSizeFl_toDouble (config : Config α) (hwf : config.WellFormed) (s : ℕ)
    (hs : s < config.numLayers) (hH : |config.inputSizeHeight| < 2 ^ 53)
    (hW : |config.inputSizeWidth| < 2 ^ 53) :
    gridSizeFl toDouble config s = gridSize config s := by
  obtain ⟨_, hlen, hpos, _⟩ := hwf
  unfold gridSizeFl gridSize
  by_cases hfm : config.featureMapHeight.length > 0
  · rw [if_pos hfm, if_pos hfm]
  · rw [if_neg hfm, if_neg hfm]
    have e : s < config.strides.length := by omega
    have hs0 : 0 < config.strides[s] := hpos _ (List.getElem_mem e)
    simp only [List.getElem?_eq_getElem e, ceilDivFl, ceilDiv, ne_of_gt hs0, if_false]
    rw [ceil_toDouble_div _ _ hs0 hH, ceil_toDouble_div _ _ hs0 hW]

theorem toDouble_huge_quotient :
    toDouble (13510798882111492 / 4503599627370497) = 3 := by
  unfold toDouble
  rw [roundBinary_cert 53 _ 1 6755399441055744 (by norm_num) (by norm_num) (by norm_num)
    (by norm_num) (by norm_num)]
  norm_num

theorem toDouble_huge_size : toDouble 13510798882111492 = 13510798882111492 := by
  unfold toDouble
  rw [roundBinary_cert 53 _ 53 6755399441055746 (by norm_num) (by norm_num) (by norm_num)
    (by norm_num) (by norm_num)]
  norm_num

theorem toDouble_huge_stride : toDouble 4503599627370497 = 4503599627370497 := by
  unfold toDouble
  rw [roundBinary_cert 53 _ 52 4503599627370497 (by norm_num) (by norm_num) (by norm_num)
    (by norm_num) (by norm_num)]
  norm_num

theorem roundHalfEven_abs_sub (x : ℚ) : |(roundHalfEven x : ℚ) - x| ≤ 1 / 2 := by
  have hf1 : (⌊x⌋ : ℚ) ≤ x := Int.floor_le x
  have hf2 : x < (⌊x⌋ : ℚ) + 1 := Int.lt_floor_add_one x
  obtain ⟨h1, h2, h3⟩ := roundHalfEven_bounds x
  rw [abs_le]
  rcases h1 with h1 | h1
  · have h4 := h3 h1
    rw [h1]
    constructor <;> linarith
  · have h4 := h2 h1
    rw [h1]
    push_cast
    constructor <;> linarith

/-- Rounding to `p` significant bits changes a number by at most the relative error
`2 ^ (-p)`. -/
theorem roundBinary_rel_error (p : ℕ) (q : ℚ) :
    |roundBinary p q - q| ≤ 1 / 2 ^ p * |q| := by
  by_cases hq : q = 0
  · rw [hq, roundBinary_zero]
    simp
  · have habs : 0 < |q| := abs_pos.mpr hq
    obtain ⟨l1, l2⟩ := log_two_spec |q| habs
    have hU : (0 : ℚ) < 2 ^ (Int.log 2 |q| - ((p : ℤ) - 1)) := two_zpow_pos _
    have e1 : roundBinary p q =
        (roundHalfEven (q / 2 ^ (Int.log 2 |q| - ((p : ℤ) - 1))) : ℚ) *
          2 ^ (Int.log 2 |q| - ((p : ℤ) - 1)) := by
      unfold roundBinary
      rw [if_neg hq]
    have e2 : roundBinary p q - q =
        ((roundHalfEven (q / 2 ^ (Int.log 2 |q| - ((p : ℤ) - 1))) : ℚ) -
          q / 2 ^ (Int.log 2 |q| - ((p : ℤ) - 1))) *
          2 ^ (Int.log 2 |q| - ((p : ℤ) - 1)) := by
      rw [e1, sub_mul, div_mul_cancel₀ _ (ne_of_gt hU)]
    have e3 : (2 : ℚ) ^ (Int.log 2 |q| - ((p : ℤ) - 1)) =
        2 ^ (Int.log 2 |q|) * 2 / 2 ^ p := by
      rw [zpow_sub₀ (by norm_num : (2 : ℚ) ≠ 0), zpow_sub₀ (by norm_num : (2 : ℚ) ≠ 0),
        zpow_natCast, zpow_one]
      field_simp
    have hp : (0 : ℚ) < 2 ^ p := by positivity
    rw [e2, abs_mul, abs_of_pos hU]
    have h1 := roundHalfEven_abs_sub (q / 2 ^ (Int.log 2 |q| - ((p : ℤ) - 1)))
    have h2 : |(roundHalfEven (q / 2 ^ (Int.log 2 |q| - ((p : ℤ) - 1))) : ℚ) -
        q / 2 ^ (Int.log 2 |q| - ((p : ℤ) - 1))| * 2 ^ (Int.log 2 |q| - ((p : ℤ) - 1)) ≤
        1 / 2 * 2 ^ (Int.log 2 |q| - ((p : ℤ) - 1)) :=
      mul_le_mul_of_nonneg_right h1 (le_of_lt hU)
    have h3 : (1 : ℚ) / 2 * 2 ^ (Int.log 2 |q| - ((p : ℤ) - 1)) =
        1 / 2 ^ p * 2 ^ (Int.log 2 |q|) := by
      rw [e3]
      field_simp
    have h4 : (1 : ℚ) / 2 ^ p * 2 ^ (Int.log 2 |q|) ≤ 1 / 2 ^ p * |q| :=
      mul_le_mul_of_nonneg_left l1 (by positivity)
    linarith

theorem toDouble_rel_error (x : ℚ) : |toDouble x - x| ≤ 1 / 2 ^ 53 * |x| :=
  roundBinary_rel_error 53 x

theorem shapeSizesFl_eq (fl : α → α) (sqrt : α → α) (ars scs : List α) :
    shapeSizesFl fl sqrt ars scs =
      ((List.zip ars scs).map (fun p => fl (p.2 / sqrt p.1)),
        (List.zip ars scs).map (fun p => fl (p.2 * sqrt p.1))) := by
  unfold shapeSizesFl
  rw [foldl_push_pair (fun p : α × α => fl (p.2 / sqrt p.1))
    (fun p : α × α => fl (p.2 * sqrt p.1))]
  simp

/-- With the identity as rounding, `shapeSizesFl` is `shapeSizes`. -/
theorem shapeSizesFl_id (sqrt : α → α) (ars scs : List α) :
    shapeSizesFl (fun x => x) sqrt ars scs = shapeSizes sqrt ars scs := rfl

/-- With a rounding of relative error at most `u < 1`, the rounded product `sc * r` and the
rounded quotient `sc / r` have a quotient within the relative error `2 u / (1 - u)` of
`r * r` and a product within the relative error `2 u + u ^ 2` of `sc ^ 2`. -/
theorem rounded_shape_bounds (fl : α → α) (u : α) (hu0 : 0 ≤ u) (hu1 : u < 1)
    (hfl : ∀ x, |fl x - x| ≤ u * |x|) (sc r : α) (hr : 0 < r) :
    (sc ≠ 0 → |fl (sc * r) / fl (sc / r) - r * r| ≤ 2 * u / (1 - u) * (r * r)) ∧
    |fl (sc * r) * fl (sc / r) - sc ^ 2| ≤ (2 * u + u ^ 2) * sc ^ 2 := by
  have hrne : r ≠ 0 := ne_of_gt hr
  have hw := hfl (sc * r)
  have hh := hfl (sc / r)
  have hXY : sc * r * (sc / r) = sc ^ 2 := by
    field_simp
    ring
  have hX : sc * r = r * r * (sc / r) := by
    field_simp
    ring
  have habsX : |sc * r| = r * r * |sc / r| := by
    rw [hX, abs_mul, abs_of_pos (mul_pos hr hr)]
  constructor
  · intro hsc
    have hY0 : sc / r ≠ 0 := div_ne_zero hsc hrne
    have hYpos : 0 < |sc / r| := abs_pos.mpr hY0
    have hlow : (1 - u) * |sc / r| ≤ |fl (sc / r)| := by
      have h1 := abs_sub_abs_le_abs_sub (sc / r) (fl (sc / r))
      rw [abs_sub_comm] at h1
      linarith
    have hhpos : 0 < |fl (sc / r)| :=
      lt_of_lt_of_le (mul_pos (by linarith) hYpos) hlow
    have hhne : fl (sc / r) ≠ 0 := abs_pos.mp hhpos
    have e : fl (sc * r) / fl (sc / r) - r * r =
        ((fl (sc * r) - sc * r) - r * r * (fl (sc / r) - sc / r)) / fl (sc / r) := by
      field_simp
      ring
    have hnum : |(fl (sc * r) - sc * r) - r * r * (fl (sc / r) - sc / r)| ≤
        2 * u * (r * r) * |sc / r| := by
      have h1 := abs_sub (fl (sc * r) - sc * r) (r * r * (fl (sc / r) - sc / r))
      have h2 : |r * r * (fl (sc / r) - sc / r)| = r * r * |fl (sc / r) - sc / r| := by
        rw [abs_mul, abs_of_pos (mul_pos hr hr)]
      have h3 : r * r * |fl (sc / r) - sc / r| ≤ r * r * (u * |sc / r|) :=
        mul_le_mul_of_nonneg_left hh (le_of_lt (mul_pos hr hr))
      rw [habsX] at hw
      rw [h2] at h1
      calc |(fl (sc * r) - sc * r) - r * r * (fl (sc / r) - sc / r)|
          ≤ |fl (sc * r) - sc * r| + r * r * |fl (sc / r) - sc / r| := h1
        _ ≤ u * (r * r * |sc / r|) + r * r * (u * |sc / r|) := add_le_add hw h3
        _ = 2 * u * (r * r) * |sc / r| := by ring
    have h1u : 0 < 1 - u := by linarith
    rw [e, abs_div, div_le_iff₀ hhpos]
    have h5 : 2 * u / (1 - u) * (r * r) * ((1 - u) * |sc / r|) ≤
        2 * u / (1 - u) * (r * r) * |fl (sc / r)| :=
      mul_le_mul_of_nonneg_left hlow
        (mul_nonneg (div_nonneg (by linarith) (le_of_lt h1u)) (le_of_lt (mul_pos hr hr)))
    have h6 : 2 * u / (1 - u) * (r * r) * ((1 - u) * |sc / r|) =
        2 * u * (r * r) * |sc / r| := by
      field_simp
      ring
    linarith
  · have e : fl (sc * r) * fl (sc / r) - sc ^ 2 =
        (fl (sc * r) - sc * r) * (fl (sc / r) - sc / r) +
          sc * r * (fl (sc / r) - sc / r) + sc / r * (fl (sc * r) - sc * r) := by
      rw [← hXY]
      ring
    have habsXY : |sc * r| * |sc / r| = sc ^ 2 := by
      rw [← abs_mul, hXY, abs_of_nonneg (sq_nonneg sc)]
    have a0 : 0 ≤ |sc * r| := abs_nonneg _
    have b0 : 0 ≤ |sc / r| := abs_nonneg _
    have t1 : |(fl (sc * r) - sc * r) * (fl (sc / r) - sc / r)| ≤
        u * |sc * r| * (u * |sc / r|) := by
      rw [abs_mul]
      exact mul_le_mul hw hh (abs_nonneg _) (mul_nonneg hu0 a0)
    have t2 : |sc * r * (fl (sc / r) - sc / r)| ≤ |sc * r| * (u * |sc / r|) := by
      rw [abs_mul]
      exact mul_le_mul_of_nonneg_left hh a0
    have t3 : |sc / r * (fl (sc * r) - sc * r)| ≤ |sc / r| * (u * |sc * r|) := by
      rw [abs_mul]
      exact mul_le_mul_of_nonneg_left hw b0
    have s1 := abs_add ((fl (sc * r) - sc * r) * (fl (sc / r) - sc / r) +
      sc * r * (fl (sc / r) - sc / r)) (sc / r * (fl (sc * r) - sc * r))
    have s2 := abs_add ((fl (sc * r) - sc * r) * (fl (sc / r) - sc / r))
      (sc * r * (fl (sc / r) - sc / r))
    have e2 : (2 * u + u ^ 2) * sc ^ 2 =
        u * |sc * r| * (u * |sc / r|) + |sc * r| * (u * |sc / r|) +
          |sc / r| * (u * |sc * r|) := by
      rw [← habsXY]
      ring
    rw [e, e2]
    linarith

theorem rat_sqrt_nine : Rat.sqrt 9 = 3 := by
  rw [show (9 : ℚ) = 3 * 3 by norm_num, Rat.sqrt_eq]
  exact abs_of_pos (by norm_num)

theorem rat_sqrt_four : Rat.sqrt 4 = 2 := by
  rw [show (4 : ℚ) = 2 * 2 by norm_num, Rat.sqrt_eq]
  exact abs_of_pos (by norm_num)

theorem toDouble_nine : toDouble 9 = 9 := by
  unfold toDouble
  rw [roundBinary_cert 53 _ 3 5066549580791808 (by norm_num) (by norm_num) (by norm_num)
    (by norm_num) (by norm_num)]
  norm_num

theorem shapeSizesFl_getElem? (fl : α → α) (sqrt : α → α) (ars scs : List α) (k : ℕ)
    (ar sc : α) (har : ars[k]? = some ar) (hsc : scs[k]? = some sc) :
    (shapeSizesFl fl sqrt ars scs).1[k]? = some (fl (sc / sqrt ar)) ∧
    (shapeSizesFl fl sqrt ars scs).2[k]? = some (fl (sc * sqrt ar)) := by
  have hz : (List.zip ars scs)[k]? = some (ar, sc) :=
    List.getElem?_zip_eq_some.mpr ⟨har, hsc⟩
  rw [shapeSizesFl_eq]
  simp [List.getElem?_map, hz]

theorem fullRange_anchors_explicit (sqrt : α → α) (fuel : ℕ) :
    createSsdAnchors sqrt (fuel + 2) FULL_RANGE_DETECTOR_ANCHOR_CONFIG =
      some ((List.range 48).flatMap (fun y => (List.range 48).flatMap (fun x =>
        [({ xCenter := ((x : α) + 0.5) / 48, yCenter := ((y : α) + 0.5) / 48,
            width := 1, height := 1 } : Anchor α)]))) := by
  unfold createSsdAnchors
  rw [fullRange_run]
  rfl

theorem fullRange_anchors_unit (sqrt : α → α) (fuel : ℕ) :
    ∃ anchors : List (Anchor α),
      createSsdAnchors sqrt (fuel + 2) FULL_RANGE_DETECTOR_ANCHOR_CONFIG = some anchors ∧
      anchors.length = 2304 ∧ ∀ a ∈ anchors, a.width = 1 ∧ a.height = 1 := by
  refine ⟨_, fullRange_anchors_explicit sqrt fuel, ?_, ?_⟩
  · have h := length_grid 48 48 [()] (fun (y x : ℕ) (_ : Unit) =>
      ({ xCenter := ((x : α) + 0.5) / 48, yCenter := ((y : α) + 0.5) / 48,
         width := 1, height := 1 } : Anchor α))
    simpa using h
  · intro a ha
    simp only [List.mem_flatMap, List.mem_singleton] at ha
    obtain ⟨y, _, x, _, rfl⟩ := ha
    exact ⟨rfl, rfl⟩

/-- With the identity as rounding, `gridSizeFl` is `gridSize`. -/
theorem gridSizeFl_id (config : Config α) (layerId : ℕ) :
    gridSizeFl (fun x => x) config layerId = gridSize config layerId := by
  have h : ∀ (a : ℤ) (o : Option ℤ), ceilDivFl (fun x => x) a o = ceilDiv a o := by
    intro a o
    cases o <;> rfl
  unfold gridSizeFl gridSize
  simp only [h]

/-- The number `1` is a `float32`. -/
theorem fround_one : fround 1 = 1 := by
  unfold fround
  rw [roundBinary_cert 24 _ 0 8388608 (by norm_num) (by norm_num) (by norm_num)
    (by norm_num) (by norm_num)]
  norm_num

end Lemmas

/-! ## The claims -/

section Claims

variable {α : Type} [LinearOrderedField α]

/-- C1 (worked scenario). On the full-range preset `createSsdAnchors` returns, for every
fuel of at least two, a list of exactly 2304 anchors whose entry at index `48 * y + x`
(`y, x < 48`) is `{ xCenter := (x + 0.5) / 48, yCenter := (y + 0.5) / 48, width := 1,
height := 1 }`; the first anchor has centers `0.5 / 48` and the last `47.5 / 48`. -/
theorem worked_scenario_full_range (sqrt : α → α) (fuel : ℕ) :
    ∃ anchors : List (Anchor α),
      createSsdAnchors sqrt (fuel + 2) FULL_RANGE_DETECTOR_ANCHOR_CONFIG = some anchors ∧
      anchors.length = 2304 ∧
      (∀ y x : Fin 48, anchors[48 * y.val + x.val]? =
        some { xCenter := ((x.val : α) + 0.5) / 48, yCenter := ((y.val : α) + 0.5) / 48,
               width := 1, height := 1 }) ∧
      anchors.head? =
        some { xCenter := 0.5 / 48, yCenter := 0.5 / 48, width := 1, height := 1 } ∧
      anchors.getLast? =
        some { xCenter := 47.5 / 48, yCenter := 47.5 / 48, width := 1, height := 1 } := by
  have hgrid : ∀ y x : ℕ, y < 48 → x < 48 →
      ((List.range 48).flatMap (fun y => (List.range 48).flatMap (fun x =>
        [({ xCenter := ((x : α) + 0.5) / 48, yCenter := ((y : α) + 0.5) / 48,
            width := 1, height := 1 } : Anchor α)])))[48 * y + x]? =
        some { xCenter := ((x : α) + 0.5) / 48, yCenter := ((y : α) + 0.5) / 48,
               width := 1, height := 1 } := by
    intro y x hy hx
    have h := getElem?_grid 48 48 [()] (fun (y x : ℕ) (_ : Unit) =>
      ({ xCenter := ((x : α) + 0.5) / 48, yCenter := ((y : α) + 0.5) / 48,
         width := 1, height := 1 } : Anchor α)) y x 0 hy hx (by simp)
    have e : (y * 48 + x) * [()].length + 0 = 48 * y + x := by
      simp only [List.length_singleton]; ring
    rw [e] at h
    simpa using h
  have hlen : ((List.range 48).flatMap (fun y => (List.range 48).flatMap (fun x =>
        [({ xCenter := ((x : α) + 0.5) / 48, yCenter := ((y : α) + 0.5) / 48,
            width := 1, height := 1 } : Anchor α)]))).length = 2304 := by
    have h := length_grid 48 48 [()] (fun (y x : ℕ) (_ : Unit) =>
      ({ xCenter := ((x : α) + 0.5) / 48, yCenter := ((y : α) + 0.5) / 48,
         width := 1, height := 1 } : Anchor α))
    simpa using h
  refine ⟨_, ?_, hlen, fun y x => hgrid y.val x.val y.isLt x.isLt, ?_, ?_⟩
  · unfold createSsdAnchors
    rw [fullRange_run]
    rfl
  · rw [List.head?_eq_getElem?]
    have h := hgrid 0 0 (by norm_num) (by norm_num)
    simpa using h
  · rw [List.getLast?_eq_getElem?, hlen]
    have h := hgrid 47 47 (by norm_num) (by norm_num)
    have e : (47.5 : α) = 47 + 0.5 := by norm_num
    rw [e]
    simpa using h

/-- C2 (output order). For every well-formed config the run returns, for every fuel above
`numLayers`, the concatenation of the stride groups' anchors, the groups being taken in
strictly increasing order of their starting layer; each group has a finite grid; within a
group with grid `H × W` and `S` shapes the anchor at group-relative index
`(y * W + x) * S + k` is the one of cell `(x, y)` and shape `k` (`y` outer, `x` middle,
shape inner); and a group with a 2 × 2 grid and one shape pushes its four anchors in the
order `(y=0,x=0)`, `(y=0,x=1)`, `(y=1,x=0)`, `(y=1,x=1)`. -/
theorem output_order (sqrt : α → α) (config : Config α) (hwf : config.WellFormed) :
    ∃ (st : LoopState α) (groups : List (List (Anchor α))),
      (∀ fuel, config.numLayers < fuel →
        createSsdAnchorsRun sqrt fuel config = some (st, setDefaults config) ∧
        createSsdAnchors sqrt fuel config = some groups.flatten) ∧
      st.anchors = groups.flatten ∧
      List.Forall₂ (fun g as => groupAnchors sqrt (setDefaults config) g.1 [] = some as)
        st.trace groups ∧
      (st.trace.map Prod.fst).Sorted (· < ·) ∧
      (∀ g ∈ st.trace, ∃ H W : ℤ,
        gridSize (setDefaults config) g.1 = (Extent.fin H, Extent.fin W)) ∧
      (∀ (s : ℕ) (H W : ℤ),
        gridSize (setDefaults config) s = (Extent.fin H, Extent.fin W) →
        ∃ as, groupAnchors sqrt (setDefaults config) s [] = some as ∧
          GroupOrder sqrt (setDefaults config) s H W as) ∧
      (∀ (s : ℕ) (w h : α),
        gridSize (setDefaults config) s = (Extent.fin 2, Extent.fin 2) →
        groupSizes sqrt (setDefaults config) s = ([h], [w]) →
        groupAnchors sqrt (setDefaults config) s [] = some
          [newAnchor (setDefaults config) 2 2 0 0 (w, h),
           newAnchor (setDefaults config) 2 2 0 1 (w, h),
           newAnchor (setDefaults config) 2 2 1 0 (w, h),
           newAnchor (setDefaults config) 2 2 1 1 (w, h)]) := by
  obtain ⟨st, hit, hrun⟩ := createSsdAnchorsRun_wellFormed sqrt config hwf
  have hwf2 := setDefaults_wellFormed config hwf
  obtain ⟨newTrace, groups, tail, h1, h2, h3, -, -, -, h7, h8, h9, -⟩ :=
    iterates_spec sqrt (setDefaults config) hwf2.2.1 _ st hit
  simp only [List.nil_append] at h1 h2
  refine ⟨st, groups, ?_, h2, ?_, ?_, ?_, ?_, ?_⟩
  · intro fuel hf
    refine ⟨hrun fuel hf, ?_⟩
    unfold createSsdAnchors
    rw [hrun fuel hf]
    simp [h2]
  · rw [h1]; exact h3
  · rw [h1]
    have hp := List.chain'_iff_pairwise.mp h9
    rw [← h8] at hp
    exact hp.sublist (List.sublist_append_left _ _)
  · intro g hg
    rw [h1] at hg
    exact gridSize_finite (setDefaults config) hwf2 g.1 (h7 g hg).1
  · intro s H W hg
    obtain ⟨as, has, -, hidx⟩ := groupAnchors_index sqrt (setDefaults config) s H W hg
    refine ⟨as, has, ?_⟩
    intro y x k w h hy hx hw hh
    rw [hidx y x k w h hy hx hw hh, newAnchor_eq]
  · intro s w h hg hs
    rw [groupAnchors_finite sqrt (setDefaults config) s 2 2 hg, hs]
    rfl

/-- The hypothesis of `output_order` holds at the 2 × 2 example, and the theorem applies. -/
theorem output_order_witness :
    twoByTwoConfig.WellFormed ∧
    ∃ (st : LoopState ℚ) (groups : List (List (Anchor ℚ))),
      (∀ fuel, twoByTwoConfig.numLayers < fuel →
        createSsdAnchorsRun Rat.sqrt fuel twoByTwoConfig = some (st, setDefaults twoByTwoConfig) ∧
        createSsdAnchors Rat.sqrt fuel twoByTwoConfig = some groups.flatten) ∧
      st.anchors = groups.flatten ∧
      List.Forall₂ (fun g as => groupAnchors Rat.sqrt (setDefaults twoByTwoConfig) g.1 [] = some as)
        st.trace groups ∧
      (st.trace.map Prod.fst).Sorted (· < ·) ∧
      (∀ g ∈ st.trace, ∃ H W : ℤ,
        gridSize (setDefaults twoByTwoConfig) g.1 = (Extent.fin H, Extent.fin W)) ∧
      (∀ (s : ℕ) (H W : ℤ),
        gridSize (setDefaults twoByTwoConfig) s = (Extent.fin H, Extent.fin W) →
        ∃ as, groupAnchors Rat.sqrt (setDefaults twoByTwoConfig) s [] = some as ∧
          GroupOrder Rat.sqrt (setDefaults twoByTwoConfig) s H W as) ∧
      (∀ (s : ℕ) (w h : ℚ),
        gridSize (setDefaults twoByTwoConfig) s = (Extent.fin 2, Extent.fin 2) →
        groupSizes Rat.sqrt (setDefaults twoByTwoConfig) s = ([h], [w]) →
        groupAnchors Rat.sqrt (setDefaults twoByTwoConfig) s [] = some
          [newAnchor (setDefaults twoByTwoConfig) 2 2 0 0 (w, h),
           newAnchor (setDefaults twoByTwoConfig) 2 2 0 1 (w, h),
           newAnchor (setDefaults twoByTwoConfig) 2 2 1 0 (w, h),
           newAnchor (setDefaults twoByTwoConfig) 2 2 1 1 (w, h)]) := by
  have hwf : twoByTwoConfig.WellFormed := by
    unfold Config.WellFormed twoByTwoConfig FULL_RANGE_DETECTOR_ANCHOR_CONFIG
    simp
  exact ⟨hwf, output_order Rat.sqrt twoByTwoConfig hwf⟩

/-- C3 (count invariant). For every well-formed config with positive sizes the run
returns, for every fuel above `numLayers`, a list that is the concatenation of the stride
groups' anchors; the number of anchors of each group equals
`featureMapHeight * featureMapWidth * (number of shapes accumulated for the group)`, and
the length of the returned list is the sum of these products over the groups. -/
theorem count_invariant (sqrt : α → α) (config : Config α) (hwf : config.WellFormed)
    (hpos : config.PositiveSizes) :
    ∃ (st : LoopState α) (groups : List (List (Anchor α))) (products : List ℤ),
      (∀ fuel, config.numLayers < fuel →
        createSsdAnchorsRun sqrt fuel config = some (st, setDefaults config) ∧
        createSsdAnchors sqrt fuel config = some st.anchors) ∧
      st.anchors = groups.flatten ∧
      List.Forall₂ (fun g as => groupAnchors sqrt (setDefaults config) g.1 [] = some as)
        st.trace groups ∧
      List.Forall₂ (fun g p => ∃ H W : ℤ,
        gridSize (setDefaults config) g.1 = (Extent.fin H, Extent.fin W) ∧
        p = H * W * ((groupScan sqrt (setDefaults config) g.1).aspectRatios.length : ℤ))
        st.trace products ∧
      List.Forall₂ (fun as p => (as.length : ℤ) = p) groups products ∧
      (st.anchors.length : ℤ) = products.sum := by
  obtain ⟨st, hit, hrun⟩ := createSsdAnchorsRun_wellFormed sqrt config hwf
  have hwf2 := setDefaults_wellFormed config hwf
  obtain ⟨newTrace, groups, tail, h1, h2, h3, -, -, -, h7, -, -, -⟩ :=
    iterates_spec sqrt (setDefaults config) hwf2.2.1 _ st hit
  simp only [List.nil_append] at h1 h2
  obtain ⟨products, p1, p2, p3⟩ := group_counts sqrt (setDefaults config) hwf2
    (setDefaults_positiveSizes config hpos) newTrace groups h3 (fun g hg => (h7 g hg).1)
  refine ⟨st, groups, products, ?_, h2, ?_, ?_, p2, ?_⟩
  · intro fuel hf
    refine ⟨hrun fuel hf, ?_⟩
    unfold createSsdAnchors
    rw [hrun fuel hf]
    rfl
  · rw [h1]; exact h3
  · rw [h1]; exact p1
  · rw [h2]; exact p3

/-- The hypotheses of `count_invariant` hold at the 2 × 2 example, and the theorem
applies. -/
theorem count_invariant_witness :
    twoByTwoConfig.WellFormed ∧ twoByTwoConfig.PositiveSizes ∧
    ∃ (st : LoopState ℚ) (groups : List (List (Anchor ℚ))) (products : List ℤ),
      (∀ fuel, twoByTwoConfig.numLayers < fuel →
        createSsdAnchorsRun Rat.sqrt fuel twoByTwoConfig = some (st, setDefaults twoByTwoConfig) ∧
        createSsdAnchors Rat.sqrt fuel twoByTwoConfig = some st.anchors) ∧
      st.anchors = groups.flatten ∧
      List.Forall₂ (fun g as => groupAnchors Rat.sqrt (setDefaults twoByTwoConfig) g.1 [] = some as)
        st.trace groups ∧
      List.Forall₂ (fun g p => ∃ H W : ℤ,
        gridSize (setDefaults twoByTwoConfig) g.1 = (Extent.fin H, Extent.fin W) ∧
        p = H * W * ((groupScan Rat.sqrt (setDefaults twoByTwoConfig) g.1).aspectRatios.length : ℤ))
        st.trace products ∧
      List.Forall₂ (fun as p => (as.length : ℤ) = p) groups products ∧
      (st.anchors.length : ℤ) = products.sum := by
  have hwf : twoByTwoConfig.WellFormed := by
    unfold Config.WellFormed twoByTwoConfig FULL_RANGE_DETECTOR_ANCHOR_CONFIG
    simp
  have hpos : twoByTwoConfig.PositiveSizes := by
    unfold Config.PositiveSizes twoByTwoConfig FULL_RANGE_DETECTOR_ANCHOR_CONFIG
    simp
  exact ⟨hwf, hpos, count_invariant Rat.sqrt twoByTwoConfig hwf hpos⟩

/-- C4 (layers enumerated), as the code has it. For every well-formed config the run
returns, for every fuel above `numLayers`, a state whose visited layers are exactly
`0, 1, …, c - 1`, each once and in order, where `c` is the final value of the layer cursor;
`numLayers ≤ c ≤ strides.length`; every layer from `numLayers` up to `c - 1` has the stride
of layer `numLayers - 1`, and layer `c`, if there is one, has not; so `c = numLayers`
exactly when `strides` has no entry at index `numLayers` carrying the stride of layer
`numLayers - 1`, in particular when `strides` has exactly `numLayers` entries. -/
theorem layers_enumerated (sqrt : α → α) (config : Config α) (hwf : config.WellFormed) :
    ∃ st : LoopState α,
      (∀ fuel, config.numLayers < fuel →
        createSsdAnchorsRun sqrt fuel config = some (st, setDefaults config)) ∧
      st.trace.flatMap Prod.snd = List.range st.layerId ∧
      config.numLayers ≤ st.layerId ∧ st.layerId ≤ config.strides.length ∧
      (∀ l, config.numLayers ≤ l → l < st.layerId →
        config.strides[l]? = config.strides[config.numLayers - 1]?) ∧
      ¬ (st.layerId < config.strides.length ∧
          config.strides[st.layerId]? = config.strides[config.numLayers - 1]?) ∧
      (st.layerId = config.numLayers ↔
        ¬ (config.numLayers < config.strides.length ∧
            config.strides[config.numLayers]? = config.strides[config.numLayers - 1]?)) ∧
      (config.strides.length = config.numLayers → st.layerId = config.numLayers) := by
  obtain ⟨st, hit, hrun⟩ := createSsdAnchorsRun_wellFormed sqrt config hwf
  have hwf2 := setDefaults_wellFormed config hwf
  obtain ⟨newTrace, groups, tail, h1, -, -, h4, h5, h6, -, -, -, h10⟩ :=
    iterates_spec sqrt (setDefaults config) hwf2.2.1 _ st hit
  obtain ⟨-, -, hnl, -, -, -, -, -, -, hstr, -⟩ := setDefaults_fields config
  simp only [List.nil_append] at h1
  simp only [hnl, hstr] at h4 h5 h10
  simp only [Nat.sub_zero] at h6
  obtain ⟨s, hs, hlast⟩ := h10 hwf.1
  obtain ⟨-, -, -, hsame, hexit⟩ := groupScan_last sqrt (setDefaults config) s
  rw [← hlast, hstr] at hsame hexit
  have hge : config.numLayers ≤ st.layerId := by omega
  have hle : st.layerId ≤ config.strides.length := h5 (Nat.zero_le _)
  have hkey : config.strides[config.numLayers - 1]? = config.strides[s]? :=
    (hsame (config.numLayers - 1) (by omega) (by have := hwf.1; omega)).2
  have hfurther : ∀ l, config.numLayers ≤ l → l < st.layerId →
      config.strides[l]? = config.strides[config.numLayers - 1]? := by
    intro l hl1 hl2
    rw [hkey]
    exact (hsame l (by omega) hl2).2
  have hstop : ¬ (st.layerId < config.strides.length ∧
      config.strides[st.layerId]? = config.strides[config.numLayers - 1]?) := by
    rw [hkey]; exact hexit
  refine ⟨st, hrun, ?_, hge, hle, hfurther, hstop, ?_, ?_⟩
  · rw [h1, h6, List.range_eq_range']
  · constructor
    · intro heq hcon
      apply hstop
      rw [heq]
      exact hcon
    · intro hnot
      by_contra hne
      have hlt : config.numLayers < st.layerId := by omega
      exact hnot ⟨by omega, hfurther config.numLayers (le_refl _) hlt⟩
  · intro heq
    omega

/-- The hypothesis of `layers_enumerated` holds at the example with a further stride
entry, and the theorem applies. -/
theorem layers_enumerated_witness :
    extraStrideConfig.WellFormed ∧
    ∃ st : LoopState ℚ,
      (∀ fuel, extraStrideConfig.numLayers < fuel →
        createSsdAnchorsRun Rat.sqrt fuel extraStrideConfig = some (st, setDefaults extraStrideConfig)) ∧
      st.trace.flatMap Prod.snd = List.range st.layerId ∧
      extraStrideConfig.numLayers ≤ st.layerId ∧ st.layerId ≤ extraStrideConfig.strides.length ∧
      (∀ l, extraStrideConfig.numLayers ≤ l → l < st.layerId →
        extraStrideConfig.strides[l]? = extraStrideConfig.strides[extraStrideConfig.numLayers - 1]?) ∧
      ¬ (st.layerId < extraStrideConfig.strides.length ∧
          extraStrideConfig.strides[st.layerId]? = extraStrideConfig.strides[extraStrideConfig.numLayers - 1]?) ∧
      (st.layerId = extraStrideConfig.numLayers ↔
        ¬ (extraStrideConfig.numLayers < extraStrideConfig.strides.length ∧
            extraStrideConfig.strides[extraStrideConfig.numLayers]? = extraStrideConfig.strides[extraStrideConfig.numLayers - 1]?)) ∧
      (extraStrideConfig.strides.length = extraStrideConfig.numLayers → st.layerId = extraStrideConfig.numLayers) := by
  have hwf : extraStrideConfig.WellFormed := by
    unfold Config.WellFormed extraStrideConfig FULL_RANGE_DETECTOR_ANCHOR_CONFIG
    simp
  exact ⟨hwf, layers_enumerated Rat.sqrt extraStrideConfig hwf⟩

/-- C4, counterexample to the claim as stated. The example config is well formed, has
`numLayers = 1` and a second stride entry equal to the first; the run visits layers `0`
and `1` and leaves the cursor at `2`, not at `numLayers`. -/
theorem layers_enumerated_counterexample :
    extraStrideConfig.WellFormed ∧ extraStrideConfig.numLayers = 1 ∧
    ∃ st : LoopState ℚ,
      createSsdAnchorsRun Rat.sqrt 2 extraStrideConfig = some (st, extraStrideConfig) ∧
      st.layerId = 2 ∧ st.trace.flatMap Prod.snd = [0, 1] ∧
      st.layerId ≠ extraStrideConfig.numLayers ∧
      st.trace.flatMap Prod.snd ≠ List.range extraStrideConfig.numLayers := by
  have hwf : extraStrideConfig.WellFormed := by
    unfold Config.WellFormed extraStrideConfig FULL_RANGE_DETECTOR_ANCHOR_CONFIG
    simp
  have hn : extraStrideConfig.numLayers = 1 := rfl
  have hrun := singleGroup_run Rat.sqrt extraStrideConfig 2 2 (by rw [hn]; norm_num)
    (by rw [extraStride_setDefaults]; exact extraStride_gridSize)
    (by rw [extraStride_setDefaults, (extraStride_groupScan Rat.sqrt).1, hn]; norm_num) 0
  rw [extraStride_setDefaults] at hrun
  refine ⟨hwf, hn, _, hrun, ?_, ?_, ?_, ?_⟩
  · exact (extraStride_groupScan Rat.sqrt).1
  · simp [(extraStride_groupScan Rat.sqrt).2]
  · simp [(extraStride_groupScan Rat.sqrt).1, hn]
  · simp [(extraStride_groupScan Rat.sqrt).2, hn, List.range_succ]

/-- C5 (totality). For every well-formed config `createSsdAnchors` returns a result, the
same for every fuel above `numLayers`; every outer iteration entered with the cursor below
`numLayers` completes and leaves the cursor strictly larger, so the cursor values of the
run form a strictly increasing chain; and every read is inside its sequence: each group
start and each visited layer is an index of `strides` (the read at `lastSameStrideLayer` is
guarded by the length test before it), and when the explicit feature-map sizes are used the
group start is an index of both `featureMapHeight` and `featureMapWidth`. -/
theorem totality (sqrt : α → α) (config : Config α) (hwf : config.WellFormed) :
    ∃ st : LoopState α,
      (∀ fuel, config.numLayers < fuel →
        createSsdAnchorsRun sqrt fuel config = some (st, setDefaults config) ∧
        createSsdAnchors sqrt fuel config = some st.anchors) ∧
      (∀ s : LoopState α, s.layerId < config.numLayers →
        ∃ s1, groupStep sqrt (setDefaults config) s = some s1 ∧ s.layerId < s1.layerId) ∧
      List.Chain' (· < ·) (st.trace.map Prod.fst ++ [st.layerId]) ∧
      (∀ g ∈ st.trace, g.1 < config.strides.length ∧
        (∀ l ∈ g.2, l < config.strides.length) ∧
        (config.featureMapHeight.length > 0 →
          g.1 < config.featureMapHeight.length ∧ g.1 < config.featureMapWidth.length)) := by
  obtain ⟨st, hit, hrun⟩ := createSsdAnchorsRun_wellFormed sqrt config hwf
  have hwf2 := setDefaults_wellFormed config hwf
  obtain ⟨newTrace, groups, tail, h1, -, -, -, -, -, h7, h8, h9, -⟩ :=
    iterates_spec sqrt (setDefaults config) hwf2.2.1 _ st hit
  obtain ⟨-, -, hnl, -, -, -, -, -, -, hstr, -⟩ := setDefaults_fields config
  simp only [List.nil_append] at h1
  refine ⟨st, ?_, ?_, ?_, ?_⟩
  · intro fuel hf
    refine ⟨hrun fuel hf, ?_⟩
    unfold createSsdAnchors
    rw [hrun fuel hf]
    rfl
  · intro s hs
    have hs2 : s.layerId < (setDefaults config).numLayers := by rw [hnl]; exact hs
    obtain ⟨H, W, hg⟩ := gridSize_finite (setDefaults config) hwf2 s.layerId hs2
    have hstep := groupStep_of_groupAnchors sqrt (setDefaults config) s _
      (groupAnchors_finite sqrt (setDefaults config) s.layerId H W hg)
    refine ⟨_, hstep, ?_⟩
    exact ((groupScan_last sqrt (setDefaults config) s.layerId).2.1
      (lt_of_lt_of_le hs2 hwf2.2.1)).1
  · rw [h1, h8]; exact h9
  · intro g hg
    rw [h1] at hg
    obtain ⟨hlt, hvis⟩ := h7 g hg
    rw [hnl] at hlt
    have hlen : g.1 < config.strides.length := lt_of_lt_of_le hlt hwf.2.1
    refine ⟨hlen, ?_, ?_⟩
    · intro l hl
      rw [hvis, groupScan_visited] at hl
      have hb := ((groupScan_last sqrt (setDefaults config) g.1).2.1
        (by rw [hstr]; exact hlen)).2
      rw [hstr] at hb
      have := List.mem_range'_1.mp hl
      omega
    · intro hne
      rcases hwf.2.2.2 with ⟨hnil, _⟩ | ⟨e1, e2⟩
      · rw [hnil] at hne; simp at hne
      · exact ⟨by omega, by omega⟩

/-- The hypothesis of `totality` holds at the 2 × 2 example, and the theorem applies. -/
theorem totality_witness :
    twoByTwoConfig.WellFormed ∧
    ∃ st : LoopState ℚ,
      (∀ fuel, twoByTwoConfig.numLayers < fuel →
        createSsdAnchorsRun Rat.sqrt fuel twoByTwoConfig = some (st, setDefaults twoByTwoConfig) ∧
        createSsdAnchors Rat.sqrt fuel twoByTwoConfig = some st.anchors) ∧
      (∀ s : LoopState ℚ, s.layerId < twoByTwoConfig.numLayers →
        ∃ s1, groupStep Rat.sqrt (setDefaults twoByTwoConfig) s = some s1 ∧ s.layerId < s1.layerId) ∧
      List.Chain' (· < ·) (st.trace.map Prod.fst ++ [st.layerId]) ∧
      (∀ g ∈ st.trace, g.1 < twoByTwoConfig.strides.length ∧
        (∀ l ∈ g.2, l < twoByTwoConfig.strides.length) ∧
        (twoByTwoConfig.featureMapHeight.length > 0 →
          g.1 < twoByTwoConfig.featureMapHeight.length ∧ g.1 < twoByTwoConfig.featureMapWidth.length)) := by
  have hwf : twoByTwoConfig.WellFormed := by
    unfold Config.WellFormed twoByTwoConfig FULL_RANGE_DETECTOR_ANCHOR_CONFIG
    simp
  exact ⟨hwf, totality Rat.sqrt twoByTwoConfig hwf⟩

/-- C6, counterexample to the claim as stated. The example config is malformed (its
explicit feature-map sizes have one entry for two layers, so it is not well formed), yet
the call returns normally, with the anchor of the first stride group and nothing for the
second: no failure, and a partial result. -/
theorem malformed_input_counterexample :
    shortFeatureMapConfig.featureMapHeight ≠ [] ∧
    shortFeatureMapConfig.featureMapHeight.length < shortFeatureMapConfig.numLayers ∧
    ¬ shortFeatureMapConfig.WellFormed ∧
    createSsdAnchors Rat.sqrt 3 shortFeatureMapConfig =
      some [{ xCenter := 1 / 2, yCenter := 1 / 2, width := 1, height := 1 }] := by
  refine ⟨by simp [shortFeatureMapConfig], by simp [shortFeatureMapConfig], ?_, ?_⟩
  · unfold Config.WellFormed shortFeatureMapConfig FULL_RANGE_DETECTOR_ANCHOR_CONFIG
    simp
  · simp [createSsdAnchors, createSsdAnchorsRun, setDefaults, anchorsLoop, groupStep,
      groupAnchors, groupScan, sameStrideScan, groupSizes, shapeSizes, gridSize, emitAnchors,
      emitFinite, memberShapes, pushAspectRatios, interpolatedPositive, calculateScale,
      newAnchor, Field.truthy, shortFeatureMapConfig, FULL_RANGE_DETECTOR_ANCHOR_CONFIG,
      Extent.ofRead, List.range_succ]
    norm_num

/-- C6 (malformed input), as the code has it. The code validates nothing and raises no
error. For every config whose `strides` has fewer entries than `numLayers`, the call
returns no anchors at all: whatever the fuel, the run does not end (the cursor stops
advancing once it reaches the end of `strides`). -/
theorem short_strides_never_return (sqrt : α → α) (config : Config α)
    (hshort : config.strides.length < config.numLayers) (fuel : ℕ) :
    createSsdAnchors sqrt fuel config = none ∧
    createSsdAnchorsRun sqrt fuel config = none := by
  obtain ⟨-, -, hnl, -, -, -, -, -, -, hstr, -⟩ := setDefaults_fields config
  have h := anchorsLoop_short_strides sqrt (setDefaults config) (by rw [hnl, hstr]; exact hshort)
    fuel { anchors := [], layerId := 0, trace := [] } (Nat.zero_le _)
  unfold createSsdAnchors createSsdAnchorsRun
  dsimp only
  rw [h]
  exact ⟨rfl, rfl⟩

/-- The hypothesis of `short_strides_never_return` holds at the example with one stride
for two layers, and the theorem applies. -/
theorem short_strides_never_return_witness :
    shortStridesConfig.strides.length < shortStridesConfig.numLayers ∧
    createSsdAnchors Rat.sqrt 5 shortStridesConfig = none ∧
    createSsdAnchorsRun Rat.sqrt 5 shortStridesConfig = none := by
  have hshort : shortStridesConfig.strides.length < shortStridesConfig.numLayers := by
    simp [shortStridesConfig, FULL_RANGE_DETECTOR_ANCHOR_CONFIG]
  exact ⟨hshort, short_strides_never_return Rat.sqrt shortStridesConfig hshort 5⟩

/-- C7 (fixed-size override). For every config with `fixedAnchorSize = true`, every anchor
of every list that `createSsdAnchors` returns has `width = 1.0` and `height = 1.0`,
whatever the other fields are. -/
theorem fixed_size_override (sqrt : α → α) (config : Config α)
    (hfix : config.fixedAnchorSize = Field.val true) (fuel : ℕ) (anchors : List (Anchor α))
    (hrun : createSsdAnchors sqrt fuel config = some anchors) :
    ∀ a ∈ anchors, a.width = 1.0 ∧ a.height = 1.0 := by
  obtain ⟨st, hit, rfl⟩ := createSsdAnchors_eq_some sqrt fuel config anchors hrun
  have hfix2 := setDefaults_fixedAnchorSize config hfix
  refine iterates_anchors_forall sqrt (setDefaults config)
    (fun a => a.width = 1.0 ∧ a.height = 1.0) ?_ _ st hit (by simp)
  intro h w y x shape
  simp [newAnchor, hfix2, Field.truthy]

/-- The hypotheses of `fixed_size_override` hold at the 2 × 2 example, whose run returns
four anchors, and the theorem applies. -/
theorem fixed_size_override_witness :
    twoByTwoConfig.fixedAnchorSize = Field.val true ∧
    createSsdAnchors Rat.sqrt 2 twoByTwoConfig =
      some [{ xCenter := 1 / 4, yCenter := 1 / 4, width := 1, height := 1 },
            { xCenter := 3 / 4, yCenter := 1 / 4, width := 1, height := 1 },
            { xCenter := 1 / 4, yCenter := 3 / 4, width := 1, height := 1 },
            { xCenter := 3 / 4, yCenter := 3 / 4, width := 1, height := 1 }] ∧
    ∀ a ∈ ([{ xCenter := 1 / 4, yCenter := 1 / 4, width := 1, height := 1 },
            { xCenter := 3 / 4, yCenter := 1 / 4, width := 1, height := 1 },
            { xCenter := 1 / 4, yCenter := 3 / 4, width := 1, height := 1 },
            { xCenter := 3 / 4, yCenter := 3 / 4, width := 1, height := 1 }] :
          List (Anchor ℚ)), a.width = 1.0 ∧ a.height = 1.0 :=
  ⟨rfl, twoByTwo_anchors,
    fixed_size_override Rat.sqrt twoByTwoConfig rfl 2 _ twoByTwo_anchors⟩

/-- C8 (reduced lowest layer). For every config with `reduceBoxesInLowestLayer = true`,
the loop body at absolute layer 0 pushes exactly the three pairs `(1, 0.1)`,
`(2, scale(0))`, `(0.5, scale(0))`, in that order, whatever `aspectRatios` and
`interpolatedScaleAspectRatio` are (two such configs that agree on `minScale`, `maxScale`
and the number of strides push the same pairs); and when `strides` is not empty the arrays
of the stride group containing layer 0 begin with these three entries, followed by the
pairs of the later layers of the group in order. -/
theorem reduced_lowest_layer (sqrt : α → α) (config : Config α)
    (hred : config.reduceBoxesInLowestLayer = Field.val true) :
    (∀ ars scs : List α, memberShapes sqrt (setDefaults config) 0 ars scs =
      (ars ++ [1, 2, 0.5],
        scs ++ [0.1, calculateScale config.minScale config.maxScale 0 config.strides.length,
          calculateScale config.minScale config.maxScale 0 config.strides.length])) ∧
    (∀ other : Config α, other.reduceBoxesInLowestLayer = Field.val true →
      other.minScale = config.minScale → other.maxScale = config.maxScale →
      other.strides.length = config.strides.length →
      memberShapes sqrt (setDefaults other) 0 [] [] =
        memberShapes sqrt (setDefaults config) 0 [] []) ∧
    (config.strides ≠ [] →
      (groupScan sqrt (setDefaults config) 0).visited =
        0 :: (groupScan sqrt (setDefaults config) 0).visited.tail ∧
      (groupScan sqrt (setDefaults config) 0).aspectRatios =
        [1, 2, 0.5] ++ (groupScan sqrt (setDefaults config) 0).visited.tail.flatMap
          (fun l => (memberShapes sqrt (setDefaults config) l [] []).1) ∧
      (groupScan sqrt (setDefaults config) 0).scales =
        [0.1, calculateScale config.minScale config.maxScale 0 config.strides.length,
          calculateScale config.minScale config.maxScale 0 config.strides.length] ++
        (groupScan sqrt (setDefaults config) 0).visited.tail.flatMap
          (fun l => (memberShapes sqrt (setDefaults config) l [] []).2)) := by
  obtain ⟨-, -, -, hmin, hmax, -, -, -, -, hstr, -⟩ := setDefaults_fields config
  have hmem : ∀ ars scs : List α, memberShapes sqrt (setDefaults config) 0 ars scs =
      (ars ++ [1, 2, 0.5],
        scs ++ [0.1, calculateScale config.minScale config.maxScale 0 config.strides.length,
          calculateScale config.minScale config.maxScale 0 config.strides.length]) := by
    intro ars scs
    rw [memberShapes_reduced sqrt _ (setDefaults_reduce config hred), hmin, hmax, hstr]
  refine ⟨hmem, ?_, ?_⟩
  · intro other ho h1 h2 h3
    obtain ⟨-, -, -, omin, omax, -, -, -, -, ostr, -⟩ := setDefaults_fields other
    rw [hmem, memberShapes_reduced sqrt _ (setDefaults_reduce other ho), omin, omax, ostr,
      h1, h2, h3]
  · intro hne
    have hv := groupScan_zero_visited sqrt (setDefaults config) (by rw [hstr]; exact hne)
    obtain ⟨ha, hs⟩ := groupScan_shapes sqrt (setDefaults config) 0
    refine ⟨hv, ?_, ?_⟩
    · rw [ha]
      nth_rewrite 1 [hv]
      rw [List.flatMap_cons, hmem]
      rfl
    · rw [hs]
      nth_rewrite 1 [hv]
      rw [List.flatMap_cons, hmem]
      rfl

/-- The hypothesis of `reduced_lowest_layer` holds at the example with
`reduceBoxesInLowestLayer` set, and the theorem applies. -/
theorem reduced_lowest_layer_witness :
    reducedLowestConfig.reduceBoxesInLowestLayer = Field.val true ∧
    (∀ ars scs : List ℚ, memberShapes Rat.sqrt (setDefaults reducedLowestConfig) 0 ars scs =
      (ars ++ [1, 2, 0.5],
        scs ++ [0.1, calculateScale reducedLowestConfig.minScale reducedLowestConfig.maxScale 0 reducedLowestConfig.strides.length,
          calculateScale reducedLowestConfig.minScale reducedLowestConfig.maxScale 0 reducedLowestConfig.strides.length])) ∧
    (∀ other : Config ℚ, other.reduceBoxesInLowestLayer = Field.val true →
      other.minScale = reducedLowestConfig.minScale → other.maxScale = reducedLowestConfig.maxScale →
      other.strides.length = reducedLowestConfig.strides.length →
      memberShapes Rat.sqrt (setDefaults other) 0 [] [] =
        memberShapes Rat.sqrt (setDefaults reducedLowestConfig) 0 [] []) ∧
    (reducedLowestConfig.strides ≠ [] →
      (groupScan Rat.sqrt (setDefaults reducedLowestConfig) 0).visited =
        0 :: (groupScan Rat.sqrt (setDefaults reducedLowestConfig) 0).visited.tail ∧
      (groupScan Rat.sqrt (setDefaults reducedLowestConfig) 0).aspectRatios =
        [1, 2, 0.5] ++ (groupScan Rat.sqrt (setDefaults reducedLowestConfig) 0).visited.tail.flatMap
          (fun l => (memberShapes Rat.sqrt (setDefaults reducedLowestConfig) l [] []).1) ∧
      (groupScan Rat.sqrt (setDefaults reducedLowestConfig) 0).scales =
        [0.1, calculateScale reducedLowestConfig.minScale reducedLowestConfig.maxScale 0 reducedLowestConfig.strides.length,
          calculateScale reducedLowestConfig.minScale reducedLowestConfig.maxScale 0 reducedLowestConfig.strides.length] ++
        (groupScan Rat.sqrt (setDefaults reducedLowestConfig) 0).visited.tail.flatMap
          (fun l => (memberShapes Rat.sqrt (setDefaults reducedLowestConfig) l [] []).2)) :=
  ⟨rfl, reduced_lowest_layer Rat.sqrt reducedLowestConfig rfl⟩

/-- C9, counterexample to the claim as stated. In the example config
`reduceBoxesInLowestLayer` is true, so the claim's condition for the extra shape fails and
the claim gives `len(aspectRatios) = 1` shapes for every member; the member at layer 0
contributes three. -/
theorem interpolated_shape_count_counterexample :
    reducedLowestConfig.reduceBoxesInLowestLayer = Field.val true ∧
    reducedLowestConfig.aspectRatios.length = 1 ∧
    (memberShapes Rat.sqrt (setDefaults reducedLowestConfig) 0 [] []).1.length = 3 ∧
    (memberShapes Rat.sqrt (setDefaults reducedLowestConfig) 0 [] []).2.length = 3 ∧
    (memberShapes Rat.sqrt (setDefaults reducedLowestConfig) 0 [] []).1.length ≠
      (if (interpolatedPositive (setDefaults reducedLowestConfig)).isSome = true ∧
          (setDefaults reducedLowestConfig).reduceBoxesInLowestLayer = Field.val false
        then reducedLowestConfig.aspectRatios.length + 1
        else reducedLowestConfig.aspectRatios.length) := by
  have h := memberShapes_reduced Rat.sqrt (setDefaults reducedLowestConfig)
    (setDefaults_reduce reducedLowestConfig rfl) [] []
  have hr := setDefaults_reduce reducedLowestConfig rfl
  have hl : reducedLowestConfig.aspectRatios.length = 1 := rfl
  refine ⟨rfl, hl, by rw [h]; rfl, by rw [h]; rfl, ?_⟩
  rw [h, hr, hl]
  simp

/-- C9 (shapes per member), as the code has it. For every config and every layer, the
number of pairs the loop body pushes (onto both arrays alike) is three for the reduced
lowest layer (layer 0 with `reduceBoxesInLowestLayer` true), and for every other member it
is `len(aspectRatios) + 1` when `interpolatedScaleAspectRatio > 0` and `len(aspectRatios)`
otherwise. -/
theorem member_shape_count (sqrt : α → α) (config : Config α) (l : ℕ) (ars scs : List α) :
    ((memberShapes sqrt config l ars scs).1.length = ars.length +
      (if l = 0 ∧ config.reduceBoxesInLowestLayer.truthy = true then 3
       else if (interpolatedPositive config).isSome = true then
         config.aspectRatios.length + 1
       else config.aspectRatios.length)) ∧
    ((memberShapes sqrt config l ars scs).2.length = scs.length +
      (if l = 0 ∧ config.reduceBoxesInLowestLayer.truthy = true then 3
       else if (interpolatedPositive config).isSome = true then
         config.aspectRatios.length + 1
       else config.aspectRatios.length)) ∧
    ((interpolatedPositive config).isSome = true ↔
      ∃ v, config.interpolatedScaleAspectRatio = Field.val v ∧ 0 < v) := by
  refine ⟨?_, ?_, interpolatedPositive_isSome config⟩
  · unfold memberShapes
    simp only [pushAspectRatios_eq]
    split_ifs with h1 <;> cases hi : interpolatedPositive config <;> simp_all
  · unfold memberShapes
    simp only [pushAspectRatios_eq]
    split_ifs with h1 <;> cases hi : interpolatedPositive config <;> simp_all

/-- C10, counterexample to the claim as stated. The example config has a single stride and
`reduceBoxesInLowestLayer` set; the scales accumulated for its stride group are `0.1`,
`0.44921875`, `0.44921875`, and the first differs from `(minScale + maxScale) / 2`. -/
theorem single_stride_scale_counterexample :
    reducedLowestConfig.strides.length = 1 ∧
    (groupScan Rat.sqrt (setDefaults reducedLowestConfig) 0).scales =
      [0.1, 0.44921875, 0.44921875] ∧
    (reducedLowestConfig.minScale + reducedLowestConfig.maxScale) / 2 = 0.44921875 ∧
    ∃ x ∈ (groupScan Rat.sqrt (setDefaults reducedLowestConfig) 0).scales,
      x ≠ (reducedLowestConfig.minScale + reducedLowestConfig.maxScale) / 2 := by
  have hs : (groupScan Rat.sqrt (setDefaults reducedLowestConfig) 0).scales =
      [0.1, 0.44921875, 0.44921875] := by
    simp [groupScan, sameStrideScan, memberShapes, setDefaults, reducedLowestConfig,
      FULL_RANGE_DETECTOR_ANCHOR_CONFIG, calculateScale, Field.truthy]
    norm_num
  have hm : (reducedLowestConfig.minScale + reducedLowestConfig.maxScale) / 2 =
      0.44921875 := by
    simp [reducedLowestConfig, FULL_RANGE_DETECTOR_ANCHOR_CONFIG]
    norm_num
  refine ⟨rfl, hs, hm, 0.1, ?_, ?_⟩
  · rw [hs]; simp
  · rw [hm]; norm_num

/-- C10 (single-stride scale), as the code has it. For every config whose `strides` has
length 1, `calculateScale` returns `(minScale + maxScale) / 2` at every index, and every
scale accumulated for a stride group is `(minScale + maxScale) / 2`, except for the entry
`0.1` of the reduced lowest layer (present only when `reduceBoxesInLowestLayer` is true)
and the interpolated entry `sqrt ((minScale + maxScale) / 2 * 1.0)` (present only when
`interpolatedScaleAspectRatio > 0`); so with `reduceBoxesInLowestLayer` not true and
`interpolatedScaleAspectRatio` not above zero every scale is `(minScale + maxScale) / 2`. -/
theorem single_stride_scale (sqrt : α → α) (config : Config α)
    (hlen : config.strides.length = 1) :
    (∀ strideIndex : ℕ,
      calculateScale config.minScale config.maxScale strideIndex config.strides.length =
        (config.minScale + config.maxScale) / 2) ∧
    (∀ (layerId : ℕ) (x : α), x ∈ (groupScan sqrt (setDefaults config) layerId).scales →
      x = (config.minScale + config.maxScale) / 2 ∨
      (x = 0.1 ∧ (setDefaults config).reduceBoxesInLowestLayer.truthy = true) ∨
      (x = sqrt ((config.minScale + config.maxScale) / 2 * 1.0) ∧
        (interpolatedPositive (setDefaults config)).isSome = true)) ∧
    ((setDefaults config).reduceBoxesInLowestLayer.truthy = false →
      interpolatedPositive (setDefaults config) = none →
      ∀ (layerId : ℕ) (x : α), x ∈ (groupScan sqrt (setDefaults config) layerId).scales →
        x = (config.minScale + config.maxScale) / 2) := by
  obtain ⟨-, -, -, hmin, hmax, -, -, -, -, hstr, -⟩ := setDefaults_fields config
  have hall : ∀ (layerId : ℕ) (x : α),
      x ∈ (groupScan sqrt (setDefaults config) layerId).scales →
      x = (config.minScale + config.maxScale) / 2 ∨
      (x = 0.1 ∧ (setDefaults config).reduceBoxesInLowestLayer.truthy = true) ∨
      (x = sqrt ((config.minScale + config.maxScale) / 2 * 1.0) ∧
        (interpolatedPositive (setDefaults config)).isSome = true) := by
    intro layerId x hx
    have h := memberShapes_scales_single sqrt (setDefaults config) (by rw [hstr]; exact hlen) x
      (groupScan_scales_single sqrt (setDefaults config) (by rw [hstr]; exact hlen)
        layerId x hx)
    rw [hmin, hmax] at h
    exact h
  refine ⟨fun i => by rw [hlen]; exact calculateScale_single _ _ i, hall, ?_⟩
  intro hr hi layerId x hx
  rcases hall layerId x hx with h | ⟨_, h⟩ | ⟨_, h⟩
  · exact h
  · rw [hr] at h; simp at h
  · rw [hi] at h; simp at h

/-- The hypothesis of `single_stride_scale` holds at the full-range preset over the
rationals, and the theorem applies. -/
theorem single_stride_scale_witness :
    (FULL_RANGE_DETECTOR_ANCHOR_CONFIG : Config ℚ).strides.length = 1 ∧
    (∀ strideIndex : ℕ,
      calculateScale (FULL_RANGE_DETECTOR_ANCHOR_CONFIG : Config ℚ).minScale (FULL_RANGE_DETECTOR_ANCHOR_CONFIG : Config ℚ).maxScale strideIndex (FULL_RANGE_DETECTOR_ANCHOR_CONFIG : Config ℚ).strides.length =
        ((FULL_RANGE_DETECTOR_ANCHOR_CONFIG : Config ℚ).minScale + (FULL_RANGE_DETECTOR_ANCHOR_CONFIG : Config ℚ).maxScale) / 2) ∧
    (∀ (layerId : ℕ) (x : ℚ), x ∈ (groupScan Rat.sqrt (setDefaults (FULL_RANGE_DETECTOR_ANCHOR_CONFIG : Config ℚ)) layerId).scales →
      x = ((FULL_RANGE_DETECTOR_ANCHOR_CONFIG : Config ℚ).minScale + (FULL_RANGE_DETECTOR_ANCHOR_CONFIG : Config ℚ).maxScale) / 2 ∨
      (x = 0.1 ∧ (setDefaults (FULL_RANGE_DETECTOR_ANCHOR_CONFIG : Config ℚ)).reduceBoxesInLowestLayer.truthy = true) ∨
      (x = Rat.sqrt (((FULL_RANGE_DETECTOR_ANCHOR_CONFIG : Config ℚ).minScale + (FULL_RANGE_DETECTOR_ANCHOR_CONFIG : Config ℚ).maxScale) / 2 * 1.0) ∧
        (interpolatedPositive (setDefaults (FULL_RANGE_DETECTOR_ANCHOR_CONFIG : Config ℚ))).isSome = true)) ∧
    ((setDefaults (FULL_RANGE_DETECTOR_ANCHOR_CONFIG : Config ℚ)).reduceBoxesInLowestLayer.truthy = false →
      interpolatedPositive (setDefaults (FULL_RANGE_DETECTOR_ANCHOR_CONFIG : Config ℚ)) = none →
      ∀ (layerId : ℕ) (x : ℚ), x ∈ (groupScan Rat.sqrt (setDefaults (FULL_RANGE_DETECTOR_ANCHOR_CONFIG : Config ℚ)) layerId).scales →
        x = ((FULL_RANGE_DETECTOR_ANCHOR_CONFIG : Config ℚ).minScale + (FULL_RANGE_DETECTOR_ANCHOR_CONFIG : Config ℚ).maxScale) / 2) :=
  ⟨rfl, single_stride_scale Rat.sqrt FULL_RANGE_DETECTOR_ANCHOR_CONFIG rfl⟩

/-- C11 (defaulting), the code at the failing input. The example config leaves
`interpolatedScaleAspectRatio` out; the defaulting step of the code, which tests
`=== null`, leaves it absent, and the call returns one anchor per cell, whereas on the
config with the unset field replaced by `1.0` it returns two: the extra interpolated shape
is missing. -/
theorem defaulting_absent_field :
    absentInterpolatedConfig.interpolatedScaleAspectRatio = Field.undefined ∧
    (setDefaults absentInterpolatedConfig).interpolatedScaleAspectRatio = Field.undefined ∧
    (specDefaults absentInterpolatedConfig).interpolatedScaleAspectRatio = Field.val 1.0 ∧
    createSsdAnchors Rat.sqrt 2 absentInterpolatedConfig =
      some [{ xCenter := 1 / 2, yCenter := 1 / 2, width := 1, height := 1 }] ∧
    createSsdAnchors Rat.sqrt 2 (specDefaults absentInterpolatedConfig) =
      some [{ xCenter := 1 / 2, yCenter := 1 / 2, width := 1, height := 1 },
            { xCenter := 1 / 2, yCenter := 1 / 2, width := 1, height := 1 }] ∧
    createSsdAnchors Rat.sqrt 2 absentInterpolatedConfig ≠
      createSsdAnchors Rat.sqrt 2 (specDefaults absentInterpolatedConfig) := by
  have h1 : createSsdAnchors Rat.sqrt 2 absentInterpolatedConfig =
      some [{ xCenter := 1 / 2, yCenter := 1 / 2, width := 1, height := 1 }] := by
    simp [createSsdAnchors, createSsdAnchorsRun, setDefaults, anchorsLoop, groupStep,
      groupAnchors, groupScan, sameStrideScan, groupSizes, shapeSizes, gridSize, emitAnchors,
      emitFinite, memberShapes, pushAspectRatios, interpolatedPositive, calculateScale,
      newAnchor, Field.truthy, absentInterpolatedConfig, FULL_RANGE_DETECTOR_ANCHOR_CONFIG,
      Extent.ofRead, List.range_succ]
    norm_num
  have h2 : createSsdAnchors Rat.sqrt 2 (specDefaults absentInterpolatedConfig) =
      some [{ xCenter := 1 / 2, yCenter := 1 / 2, width := 1, height := 1 },
            { xCenter := 1 / 2, yCenter := 1 / 2, width := 1, height := 1 }] := by
    simp [createSsdAnchors, createSsdAnchorsRun, setDefaults, anchorsLoop, groupStep,
      groupAnchors, groupScan, sameStrideScan, groupSizes, shapeSizes, gridSize, emitAnchors,
      emitFinite, memberShapes, pushAspectRatios, interpolatedPositive, calculateScale,
      newAnchor, Field.truthy, absentInterpolatedConfig, FULL_RANGE_DETECTOR_ANCHOR_CONFIG,
      Extent.ofRead, List.range_succ, specDefaults, Field.orDefault]
    norm_num
  refine ⟨rfl, ?_, ?_, h1, h2, ?_⟩
  · simp [setDefaults, absentInterpolatedConfig, FULL_RANGE_DETECTOR_ANCHOR_CONFIG]
  · simp [specDefaults, Field.orDefault, absentInterpolatedConfig,
      FULL_RANGE_DETECTOR_ANCHOR_CONFIG]
  · rw [h1, h2]
    simp

/-- C12, counterexample to the claim as stated. The example config holds `null` in
`fixedAnchorSize`; the call returns, and the caller's object then holds `false` there, so
it is not the object it was before the call. -/
theorem no_side_effects_counterexample :
    nullFixedConfig.fixedAnchorSize = Field.null ∧
    ∃ (st : LoopState ℚ) (after : Config ℚ),
      createSsdAnchorsRun Rat.sqrt 2 nullFixedConfig = some (st, after) ∧
      after.fixedAnchorSize = Field.val false ∧ after ≠ nullFixedConfig := by
  obtain ⟨st, hrun⟩ := nullFixed_run
  have hf : (setDefaults nullFixedConfig).fixedAnchorSize = Field.val false := by
    simp [setDefaults, nullFixedConfig, FULL_RANGE_DETECTOR_ANCHOR_CONFIG]
  refine ⟨rfl, st, _, hrun, hf, ?_⟩
  intro heq
  have h2 : (setDefaults nullFixedConfig).fixedAnchorSize = nullFixedConfig.fixedAnchorSize := by
    rw [heq]
  rw [hf] at h2
  simp [nullFixedConfig] at h2

/-- C12 (side effects), as the code has it. Whenever the call returns, the caller's
object differs from what it was at most in the three defaulted fields: each of
`reduceBoxesInLowestLayer`, `interpolatedScaleAspectRatio`, `fixedAnchorSize` holds its
default (`false`, `1.0`, `false`) if it held `null` and is unchanged otherwise, every other
field is unchanged, and an object none of whose three fields holds `null` is left exactly
as it was. -/
theorem side_effects_only_defaults (sqrt : α → α) (fuel : ℕ) (config after : Config α)
    (st : LoopState α) (hrun : createSsdAnchorsRun sqrt fuel config = some (st, after)) :
    after.featureMapHeight = config.featureMapHeight ∧
    after.featureMapWidth = config.featureMapWidth ∧
    after.numLayers = config.numLayers ∧
    after.minScale = config.minScale ∧
    after.maxScale = config.maxScale ∧
    after.inputSizeHeight = config.inputSizeHeight ∧
    after.inputSizeWidth = config.inputSizeWidth ∧
    after.anchorOffsetX = config.anchorOffsetX ∧
    after.anchorOffsetY = config.anchorOffsetY ∧
    after.strides = config.strides ∧
    after.aspectRatios = config.aspectRatios ∧
    after.reduceBoxesInLowestLayer =
      (if config.reduceBoxesInLowestLayer = Field.null then Field.val false
       else config.reduceBoxesInLowestLayer) ∧
    after.interpolatedScaleAspectRatio =
      (if config.interpolatedScaleAspectRatio = Field.null then Field.val 1.0
       else config.interpolatedScaleAspectRatio) ∧
    after.fixedAnchorSize =
      (if config.fixedAnchorSize = Field.null then Field.val false
       else config.fixedAnchorSize) ∧
    (config.reduceBoxesInLowestLayer ≠ Field.null →
      config.interpolatedScaleAspectRatio ≠ Field.null →
      config.fixedAnchorSize ≠ Field.null → after = config) := by
  have h := createSsdAnchorsRun_config sqrt fuel config after st hrun
  subst h
  obtain ⟨e1, e2, e3, e4, e5, e6, e7, e8, e9, e10, e11⟩ := setDefaults_fields config
  obtain ⟨d1, d2, d3⟩ := setDefaults_defaulted config
  exact ⟨e1, e2, e3, e4, e5, e6, e7, e8, e9, e10, e11, d1, d2, d3,
    fun h1 h2 h3 => setDefaults_of_set config h1 h2 h3⟩

/-- The hypothesis of `side_effects_only_defaults` holds at the example holding `null` in
`fixedAnchorSize`, whose call returns, and the theorem applies. -/
theorem side_effects_only_defaults_witness :
    ∃ (st : LoopState ℚ) (after : Config ℚ),
      createSsdAnchorsRun Rat.sqrt 2 nullFixedConfig = some (st, after) ∧
      after.featureMapHeight = nullFixedConfig.featureMapHeight ∧
      after.featureMapWidth = nullFixedConfig.featureMapWidth ∧
      after.numLayers = nullFixedConfig.numLayers ∧
      after.minScale = nullFixedConfig.minScale ∧
      after.maxScale = nullFixedConfig.maxScale ∧
      after.inputSizeHeight = nullFixedConfig.inputSizeHeight ∧
      after.inputSizeWidth = nullFixedConfig.inputSizeWidth ∧
      after.anchorOffsetX = nullFixedConfig.anchorOffsetX ∧
      after.anchorOffsetY = nullFixedConfig.anchorOffsetY ∧
      after.strides = nullFixedConfig.strides ∧
      after.aspectRatios = nullFixedConfig.aspectRatios ∧
      after.reduceBoxesInLowestLayer =
        (if nullFixedConfig.reduceBoxesInLowestLayer = Field.null then Field.val false
         else nullFixedConfig.reduceBoxesInLowestLayer) ∧
      after.interpolatedScaleAspectRatio =
        (if nullFixedConfig.interpolatedScaleAspectRatio = Field.null then Field.val 1.0
         else nullFixedConfig.interpolatedScaleAspectRatio) ∧
      after.fixedAnchorSize =
        (if nullFixedConfig.fixedAnchorSize = Field.null then Field.val false
         else nullFixedConfig.fixedAnchorSize) ∧
      (nullFixedConfig.reduceBoxesInLowestLayer ≠ Field.null →
        nullFixedConfig.interpolatedScaleAspectRatio ≠ Field.null →
        nullFixedConfig.fixedAnchorSize ≠ Field.null → after = nullFixedConfig) := by
  obtain ⟨st, hrun⟩ := nullFixed_run
  exact ⟨st, _, hrun, side_effects_only_defaults Rat.sqrt 2 nullFixedConfig _ st hrun⟩

/-- C13 (determinism). For every well-formed config the first call returns, for every fuel
above `numLayers`, and a second call on the same object, which now holds whatever the first
call wrote back while defaulting, returns the same anchor sequence (same count, same
order) and leaves the object as the first call left it. -/
theorem determinism (sqrt : α → α) (config : Config α) (hwf : config.WellFormed) :
    ∃ (st : LoopState α) (after : Config α),
      ∀ fuel, config.numLayers < fuel →
        createSsdAnchorsRun sqrt fuel config = some (st, after) ∧
        createSsdAnchorsRun sqrt fuel after = some (st, after) ∧
        createSsdAnchors sqrt fuel config = some st.anchors ∧
        createSsdAnchors sqrt fuel after = some st.anchors := by
  obtain ⟨st, -, hrun⟩ := createSsdAnchorsRun_wellFormed sqrt config hwf
  refine ⟨st, setDefaults config, fun fuel hf => ?_⟩
  have h1 := hrun fuel hf
  have h2 : createSsdAnchorsRun sqrt fuel (setDefaults config) =
      some (st, setDefaults config) := by
    rw [createSsdAnchorsRun_setDefaults]; exact h1
  refine ⟨h1, h2, ?_, ?_⟩
  · unfold createSsdAnchors; rw [h1]; rfl
  · unfold createSsdAnchors; rw [h2]; rfl

/-- The hypothesis of `determinism` holds at the example holding `null` in
`fixedAnchorSize`, which the first call overwrites, and the theorem applies. -/
theorem determinism_witness :
    nullFixedConfig.WellFormed ∧
    ∃ (st : LoopState ℚ) (after : Config ℚ),
      ∀ fuel, nullFixedConfig.numLayers < fuel →
        createSsdAnchorsRun Rat.sqrt fuel nullFixedConfig = some (st, after) ∧
        createSsdAnchorsRun Rat.sqrt fuel after = some (st, after) ∧
        createSsdAnchors Rat.sqrt fuel nullFixedConfig = some st.anchors ∧
        createSsdAnchors Rat.sqrt fuel after = some st.anchors :=
  ⟨nullFixed_wellFormed, determinism Rat.sqrt nullFixedConfig nullFixed_wellFormed⟩

/-- C14 (interpolated scale value). For every config with
`interpolatedScaleAspectRatio = v > 0` and every layer `l` that is not the reduced lowest
layer, the loop body appends one pair `(aspectRatios[j], scale(l))` per configured aspect
ratio, in order, and then the pair `(v, sqrt (scale(l) * scaleNext))`, where `scaleNext`
is `1.0` if `l` is the last index of `strides` and otherwise
`calculateScale minScale maxScale (l + 1) strides.length`, the helper's own value. -/
theorem interpolated_scale_value (sqrt : α → α) (config : Config α) (l : ℕ) (v : α)
    (hv : config.interpolatedScaleAspectRatio = Field.val v) (hpos : 0 < v)
    (hnot : ¬ (l = 0 ∧ config.reduceBoxesInLowestLayer.truthy = true)) :
    (∀ ars scs : List α, memberShapes sqrt config l ars scs =
      (ars ++ config.aspectRatios ++ [v],
        scs ++ List.replicate config.aspectRatios.length
            (calculateScale config.minScale config.maxScale l config.strides.length) ++
          [sqrt (calculateScale config.minScale config.maxScale l config.strides.length *
            (if l + 1 = config.strides.length then 1.0
             else calculateScale config.minScale config.maxScale (l + 1)
               config.strides.length))])) ∧
    List.zip (memberShapes sqrt config l [] []).1 (memberShapes sqrt config l [] []).2 =
      config.aspectRatios.map (fun r =>
        (r, calculateScale config.minScale config.maxScale l config.strides.length)) ++
      [(v, sqrt (calculateScale config.minScale config.maxScale l config.strides.length *
          (if l + 1 = config.strides.length then 1.0
           else calculateScale config.minScale config.maxScale (l + 1)
             config.strides.length)))] := by
  have hi := interpolatedPositive_eq_some config v hv hpos
  have hmem : ∀ ars scs : List α, memberShapes sqrt config l ars scs =
      (ars ++ config.aspectRatios ++ [v],
        scs ++ List.replicate config.aspectRatios.length
            (calculateScale config.minScale config.maxScale l config.strides.length) ++
          [sqrt (calculateScale config.minScale config.maxScale l config.strides.length *
            (if l + 1 = config.strides.length then 1.0
             else calculateScale config.minScale config.maxScale (l + 1)
               config.strides.length))]) := by
    intro ars scs
    rw [memberShapes_eq, if_neg hnot, hi]
  refine ⟨hmem, ?_⟩
  rw [hmem]
  simp only [List.nil_append]
  rw [List.zip_append (by simp)]
  congr 1
  induction config.aspectRatios with
  | nil => rfl
  | cons r rs ih => simp [List.replicate_succ, ih]

/-- The hypotheses of `interpolated_scale_value` hold at the example with
`interpolatedScaleAspectRatio = 1.0`, layer 0, and the theorem applies. -/
theorem interpolated_scale_value_witness :
    interpolatedConfig.interpolatedScaleAspectRatio = Field.val 1.0 ∧ (0 : ℚ) < 1.0 ∧
    ¬ ((0 : ℕ) = 0 ∧ interpolatedConfig.reduceBoxesInLowestLayer.truthy = true) ∧
    (∀ ars scs : List ℚ, memberShapes Rat.sqrt interpolatedConfig 0 ars scs =
      (ars ++ interpolatedConfig.aspectRatios ++ [1.0],
        scs ++ List.replicate interpolatedConfig.aspectRatios.length
            (calculateScale interpolatedConfig.minScale interpolatedConfig.maxScale 0
              interpolatedConfig.strides.length) ++
          [Rat.sqrt (calculateScale interpolatedConfig.minScale interpolatedConfig.maxScale 0
              interpolatedConfig.strides.length *
            (if 0 + 1 = interpolatedConfig.strides.length then 1.0
             else calculateScale interpolatedConfig.minScale interpolatedConfig.maxScale (0 + 1)
               interpolatedConfig.strides.length))])) ∧
    List.zip (memberShapes Rat.sqrt interpolatedConfig 0 [] []).1
        (memberShapes Rat.sqrt interpolatedConfig 0 [] []).2 =
      interpolatedConfig.aspectRatios.map (fun r =>
        (r, calculateScale interpolatedConfig.minScale interpolatedConfig.maxScale 0
          interpolatedConfig.strides.length)) ++
      [(1.0, Rat.sqrt (calculateScale interpolatedConfig.minScale interpolatedConfig.maxScale 0
          interpolatedConfig.strides.length *
          (if 0 + 1 = interpolatedConfig.strides.length then 1.0
           else calculateScale interpolatedConfig.minScale interpolatedConfig.maxScale (0 + 1)
             interpolatedConfig.strides.length)))] := by
  have h1 : interpolatedConfig.interpolatedScaleAspectRatio = Field.val 1.0 := rfl
  have h2 : (0 : ℚ) < 1.0 := by norm_num
  have h3 : ¬ ((0 : ℕ) = 0 ∧ interpolatedConfig.reduceBoxesInLowestLayer.truthy = true) := by
    simp [interpolatedConfig, FULL_RANGE_DETECTOR_ANCHOR_CONFIG, Field.truthy]
  exact ⟨h1, h2, h3, interpolated_scale_value Rat.sqrt interpolatedConfig 0 1.0 h1 h2 h3⟩

/-- C15 (scale helper). `calculateScale minScale maxScale index 1` is
`(minScale + maxScale) / 2`; for every `numStrides` other than 1 the helper returns
`minScale + (maxScale - minScale) * index / (numStrides - 1)` and the divisor is not zero;
the loop body of `createSsdAnchors` at layer `l` calls the helper with `strides.length` as
`numStrides` and with the absolute indices `l` and `l + 1`, and the layers a stride group
starting at `s` visits are the absolute indices `s, s + 1, …`, whose pairs make up the
group's arrays. -/
theorem scale_helper (sqrt : α → α) (config : Config α) :
    (∀ (minScale maxScale : α) (index : ℕ),
      calculateScale minScale maxScale index 1 = (minScale + maxScale) / 2) ∧
    (∀ (minScale maxScale : α) (index numStrides : ℕ), numStrides = 1 ∨
      (calculateScale minScale maxScale index numStrides =
          minScale + (maxScale - minScale) * (index : α) / ((numStrides : α) - 1) ∧
        (numStrides : α) - 1 ≠ 0)) ∧
    (∀ (l : ℕ) (ars scs : List α), memberShapes sqrt config l ars scs =
      if l = 0 ∧ config.reduceBoxesInLowestLayer.truthy = true then
        (ars ++ [1, 2, 0.5],
          scs ++ [0.1,
            calculateScale config.minScale config.maxScale l config.strides.length,
            calculateScale config.minScale config.maxScale l config.strides.length])
      else
        match interpolatedPositive config with
        | some v =>
          (ars ++ config.aspectRatios ++ [v],
            scs ++ List.replicate config.aspectRatios.length
                (calculateScale config.minScale config.maxScale l config.strides.length) ++
              [sqrt (calculateScale config.minScale config.maxScale l config.strides.length *
                (if l + 1 = config.strides.length then 1.0
                 else calculateScale config.minScale config.maxScale (l + 1)
                   config.strides.length))])
        | none =>
          (ars ++ config.aspectRatios,
            scs ++ List.replicate config.aspectRatios.length
              (calculateScale config.minScale config.maxScale l config.strides.length))) ∧
    (∀ s : ℕ,
      (groupScan sqrt config s).visited =
        List.range' s ((groupScan sqrt config s).lastSameStrideLayer - s) ∧
      (groupScan sqrt config s).aspectRatios =
        (groupScan sqrt config s).visited.flatMap
          (fun l => (memberShapes sqrt config l [] []).1) ∧
      (groupScan sqrt config s).scales =
        (groupScan sqrt config s).visited.flatMap
          (fun l => (memberShapes sqrt config l [] []).2)) := by
  refine ⟨fun a b i => calculateScale_single a b i, ?_, fun l ars scs =>
    memberShapes_eq sqrt config l ars scs, fun s =>
    ⟨groupScan_visited sqrt config s, groupScan_shapes sqrt config s⟩⟩
  intro a b i n
  by_cases h : n = 1
  · exact Or.inl h
  · exact Or.inr ⟨calculateScale_general a b i n h, divisor_ne_zero n h⟩

/-- C18 (normalised centers). For every well-formed config with `anchorOffsetX` and
`anchorOffsetY` in `[0, 1]` the call returns, and every returned anchor has
`0 ≤ xCenter ≤ 1` and `0 ≤ yCenter ≤ 1`; width and height are not bounded in this way:
some well-formed config with offsets in `[0, 1]` and `fixedAnchorSize` false has a
returned anchor of width above `1`. -/
theorem normalised_centers (sqrt : α → α) (config : Config α) (hwf : config.WellFormed)
    (hx : 0 ≤ config.anchorOffsetX ∧ config.anchorOffsetX ≤ 1)
    (hy : 0 ≤ config.anchorOffsetY ∧ config.anchorOffsetY ≤ 1) :
    (∃ st : LoopState α,
      (∀ fuel, config.numLayers < fuel →
        createSsdAnchors sqrt fuel config = some st.anchors) ∧
      ∀ a ∈ st.anchors,
        0 ≤ a.xCenter ∧ a.xCenter ≤ 1 ∧ 0 ≤ a.yCenter ∧ a.yCenter ≤ 1) ∧
    (∃ wide : Config ℚ, wide.WellFormed ∧
      (0 ≤ wide.anchorOffsetX ∧ wide.anchorOffsetX ≤ 1) ∧
      (0 ≤ wide.anchorOffsetY ∧ wide.anchorOffsetY ≤ 1) ∧
      wide.fixedAnchorSize = Field.val false ∧
      ∃ (anchors : List (Anchor ℚ)) (a : Anchor ℚ),
        createSsdAnchors Rat.sqrt 2 wide = some anchors ∧ a ∈ anchors ∧ 1 < a.width) := by
  constructor
  · obtain ⟨st, hit, hrun⟩ := createSsdAnchorsRun_wellFormed sqrt config hwf
    obtain ⟨-, -, -, -, -, -, -, eox, eoy, -, -⟩ := setDefaults_fields config
    refine ⟨st, fun fuel hf => ?_, ?_⟩
    · unfold createSsdAnchors
      rw [hrun fuel hf]
      rfl
    · refine iterates_anchors_forall_bounded sqrt (setDefaults config)
        (fun a => 0 ≤ a.xCenter ∧ a.xCenter ≤ 1 ∧ 0 ≤ a.yCenter ∧ a.yCenter ≤ 1)
        ?_ _ st hit (by simp)
      intro h w y x shape hyb hxb
      obtain ⟨sw, sh⟩ := shape
      rw [newAnchor_eq, eox, eoy]
      obtain ⟨x0, x1⟩ := center_bounds w x config.anchorOffsetX hxb hx.1 hx.2
      obtain ⟨y0, y1⟩ := center_bounds h y config.anchorOffsetY hyb hy.1 hy.2
      exact ⟨x0, x1, y0, y1⟩
  · refine ⟨wideShapeConfig, ?_, ?_, ?_, rfl, _, _, wideShape_anchors,
      List.mem_singleton.mpr rfl, ?_⟩
    · unfold Config.WellFormed wideShapeConfig FULL_RANGE_DETECTOR_ANCHOR_CONFIG
      simp
    · simp only [wideShapeConfig, FULL_RANGE_DETECTOR_ANCHOR_CONFIG]
      norm_num
    · simp only [wideShapeConfig, FULL_RANGE_DETECTOR_ANCHOR_CONFIG]
      norm_num
    · norm_num

/-- The hypotheses of `normalised_centers` hold at the 2 × 2 example, whose offsets are
`0.5`, and the theorem applies. -/
theorem normalised_centers_witness :
    twoByTwoConfig.WellFormed ∧
    (0 ≤ twoByTwoConfig.anchorOffsetX ∧ twoByTwoConfig.anchorOffsetX ≤ 1) ∧
    (0 ≤ twoByTwoConfig.anchorOffsetY ∧ twoByTwoConfig.anchorOffsetY ≤ 1) ∧
    (∃ st : LoopState ℚ,
      (∀ fuel, twoByTwoConfig.numLayers < fuel →
        createSsdAnchors Rat.sqrt fuel twoByTwoConfig = some st.anchors) ∧
      ∀ a ∈ st.anchors,
        0 ≤ a.xCenter ∧ a.xCenter ≤ 1 ∧ 0 ≤ a.yCenter ∧ a.yCenter ≤ 1) ∧
    (∃ wide : Config ℚ, wide.WellFormed ∧
      (0 ≤ wide.anchorOffsetX ∧ wide.anchorOffsetX ≤ 1) ∧
      (0 ≤ wide.anchorOffsetY ∧ wide.anchorOffsetY ≤ 1) ∧
      wide.fixedAnchorSize = Field.val false ∧
      ∃ (anchors : List (Anchor ℚ)) (a : Anchor ℚ),
        createSsdAnchors Rat.sqrt 2 wide = some anchors ∧ a ∈ anchors ∧ 1 < a.width) := by
  have hwf : twoByTwoConfig.WellFormed := by
    unfold Config.WellFormed twoByTwoConfig FULL_RANGE_DETECTOR_ANCHOR_CONFIG
    simp
  have hx : 0 ≤ twoByTwoConfig.anchorOffsetX ∧ twoByTwoConfig.anchorOffsetX ≤ 1 := by
    simp only [twoByTwoConfig, FULL_RANGE_DETECTOR_ANCHOR_CONFIG]
    norm_num
  have hy : 0 ≤ twoByTwoConfig.anchorOffsetY ∧ twoByTwoConfig.anchorOffsetY ≤ 1 := by
    simp only [twoByTwoConfig, FULL_RANGE_DETECTOR_ANCHOR_CONFIG]
    norm_num
  exact ⟨hwf, hx, hy, normalised_centers Rat.sqrt twoByTwoConfig hwf hx hy⟩

/-- C19, counterexample to the claim as stated. In double arithmetic, with `minScale` and
`maxScale` the doubles nearest `0.1` and `0.9` and four strides, `calculateScale` at the
last index `3` returns `0.9000000000000001`, which is not `maxScale` and is above it. -/
theorem scale_within_bounds_counterexample :
    toDouble 0.1 ≤ toDouble 0.9 ∧
    toDouble 0.9 = 8106479329266893 / 9007199254740992 ∧
    calculateScaleFl toDouble (toDouble 0.1) (toDouble 0.9) (4 - 1) 4 =
      8106479329266894 / 9007199254740992 ∧
    calculateScaleFl toDouble (toDouble 0.1) (toDouble 0.9) (4 - 1) 4 ≠ toDouble 0.9 ∧
    toDouble 0.9 < calculateScaleFl toDouble (toDouble 0.1) (toDouble 0.9) (4 - 1) 4 := by
  have hd : toDouble (8106479329266893 / 9007199254740992 -
      3602879701896397 / 36028797018963968) = 3602879701896397 / 4503599627370496 := by
    unfold toDouble
    rw [roundBinary_cert 53 _ (-1) 7205759403792794 (by norm_num) (by norm_num) (by norm_num)
      (by norm_num) (by norm_num)]
    norm_num
  have ht : toDouble (3602879701896397 / 4503599627370496 * ((3 : ℕ) : ℚ)) =
      1351079888211149 / 562949953421312 := by
    unfold toDouble
    rw [roundBinary_cert_tie 53 _ 1 5404319552844595 (by norm_num) (by norm_num)
      (by norm_num) (by norm_num)]
    norm_num
  have hu : toDouble (1351079888211149 / 562949953421312 / 3) =
      7205759403792795 / 9007199254740992 := by
    unfold toDouble
    rw [roundBinary_cert 53 _ (-1) 7205759403792795 (by norm_num) (by norm_num) (by norm_num)
      (by norm_num) (by norm_num)]
    norm_num
  have hv : toDouble (3602879701896397 / 36028797018963968 +
      7205759403792795 / 9007199254740992) = 8106479329266894 / 9007199254740992 := by
    unfold toDouble
    rw [roundBinary_cert 53 _ (-1) 8106479329266894 (by norm_num) (by norm_num) (by norm_num)
      (by norm_num) (by norm_num)]
    norm_num
  have hval : calculateScaleFl toDouble (toDouble 0.1) (toDouble 0.9) (4 - 1) 4 =
      8106479329266894 / 9007199254740992 := by
    have h41 : (4 : ℕ) ≠ 1 := by norm_num
    have h3 : (4 - 1 : ℕ) = 3 := rfl
    rw [h3]
    unfold calculateScaleFl
    rw [if_neg h41, toDouble_tenth, toDouble_nine_tenths, hd, ht, toDouble_three, hu, hv]
  refine ⟨?_, toDouble_nine_tenths, hval, ?_, ?_⟩
  · rw [toDouble_tenth, toDouble_nine_tenths]; norm_num
  · rw [hval, toDouble_nine_tenths]; norm_num
  · rw [hval, toDouble_nine_tenths]; norm_num

/-- C19 (scale interpolation and its bounds), as the code has it. Every operation of
`calculateScale` is rounded by `fl`, a monotone rounding that leaves `0`, `minScale`,
`maxScale` and twice these unchanged (as rounding to the nearest double does for
doubles). For `numStrides ≥ 2` and `minScale ≤ maxScale` the helper returns `minScale` at
index 0, is non-decreasing in the index and never returns less than `minScale`; for
`numStrides = 1` its value lies between `minScale` and `maxScale`. At an index where no
operation rounds, the helper returns the exact value of the formula, which is `maxScale`
at index `numStrides - 1` and lies between `minScale` and `maxScale` up to that index;
where an operation rounds, this end value and the upper bound hold only up to rounding. -/
theorem scale_bounds_rounded (fl : α → α) (minScale maxScale : α) (numStrides : ℕ)
    (hn : 2 ≤ numStrides) (hle : minScale ≤ maxScale) (hmono : Monotone fl)
    (hzero : fl 0 = 0) (hmin : fl minScale = minScale) (hmax : fl maxScale = maxScale)
    (hmin2 : fl (minScale + minScale) = minScale + minScale)
    (hmax2 : fl (maxScale + maxScale) = maxScale + maxScale) :
    calculateScaleFl fl minScale maxScale 0 numStrides = minScale ∧
    (∀ i j : ℕ, i ≤ j →
      calculateScaleFl fl minScale maxScale i numStrides ≤
        calculateScaleFl fl minScale maxScale j numStrides) ∧
    (∀ i : ℕ, minScale ≤ calculateScaleFl fl minScale maxScale i numStrides) ∧
    (∀ i : ℕ, minScale ≤ calculateScaleFl fl minScale maxScale i 1 ∧
      calculateScaleFl fl minScale maxScale i 1 ≤ maxScale) ∧
    (∀ i : ℕ,
      fl (maxScale - minScale) = maxScale - minScale →
      fl ((maxScale - minScale) * (i : α)) = (maxScale - minScale) * (i : α) →
      fl ((numStrides : α) - 1) = (numStrides : α) - 1 →
      fl ((maxScale - minScale) * (i : α) / ((numStrides : α) - 1)) =
        (maxScale - minScale) * (i : α) / ((numStrides : α) - 1) →
      fl (minScale + (maxScale - minScale) * (i : α) / ((numStrides : α) - 1)) =
        minScale + (maxScale - minScale) * (i : α) / ((numStrides : α) - 1) →
      calculateScaleFl fl minScale maxScale i numStrides =
        calculateScale minScale maxScale i numStrides) ∧
    calculateScale minScale maxScale (numStrides - 1) numStrides = maxScale ∧
    (∀ i : ℕ, i ≤ numStrides - 1 →
      minScale ≤ calculateScale minScale maxScale i numStrides ∧
      calculateScale minScale maxScale i numStrides ≤ maxScale) := by
  have hne : numStrides ≠ 1 := by omega
  have hd : 0 ≤ fl (maxScale - minScale) := by
    have := hmono (sub_nonneg.mpr hle)
    rw [hzero] at this
    exact this
  have hc : 0 ≤ fl ((numStrides : α) - 1) := by
    have h1 : (1 : α) ≤ (numStrides : α) := by
      have : ((1 : ℕ) : α) ≤ (numStrides : α) := Nat.cast_le.mpr (by omega)
      simpa using this
    have := hmono (sub_nonneg.mpr h1)
    rw [hzero] at this
    exact this
  have hzeroidx : calculateScaleFl fl minScale maxScale 0 numStrides = minScale := by
    unfold calculateScaleFl
    rw [if_neg hne]
    simp [hzero, hmin]
  have hmonoidx : ∀ i j : ℕ, i ≤ j →
      calculateScaleFl fl minScale maxScale i numStrides ≤
        calculateScaleFl fl minScale maxScale j numStrides := by
    intro i j hij
    unfold calculateScaleFl
    rw [if_neg hne, if_neg hne]
    apply hmono
    apply add_le_add_left
    apply hmono
    apply div_le_div_of_nonneg_right _ hc
    apply hmono
    exact mul_le_mul_of_nonneg_left (Nat.cast_le.mpr hij) hd
  obtain ⟨-, hlast, -, hbounds, -⟩ :=
    calculateScale_exact_bounds minScale maxScale numStrides hn hle
  refine ⟨hzeroidx, hmonoidx, ?_, ?_, ?_, hlast, hbounds⟩
  · intro i
    have := hmonoidx 0 i (Nat.zero_le _)
    rw [hzeroidx] at this
    exact this
  · intro i
    unfold calculateScaleFl
    rw [if_pos rfl]
    have h1 : minScale + minScale ≤ fl (minScale + maxScale) := by
      have := hmono (add_le_add_left hle minScale)
      rw [hmin2] at this
      exact this
    have h2 : fl (minScale + maxScale) ≤ maxScale + maxScale := by
      have := hmono (add_le_add_right hle maxScale)
      rw [hmax2] at this
      exact this
    have hhalf : (0.5 : α) = 1 / 2 := by norm_num
    constructor
    · have := hmono (show minScale ≤ fl (minScale + maxScale) * 0.5 by rw [hhalf]; linarith)
      rw [hmin] at this
      exact this
    · have := hmono (show fl (minScale + maxScale) * 0.5 ≤ maxScale by rw [hhalf]; linarith)
      rw [hmax] at this
      exact this
  · intro i e1 e2 e3 e4 e5
    unfold calculateScaleFl calculateScale
    rw [if_neg hne, if_neg hne, e1, e2, e3, e4, e5]

/-- The hypotheses of `scale_bounds_rounded` hold for rounding to the nearest double, the
scale range from `0.25` to `0.75` and three strides, and the theorem applies. -/
theorem scale_bounds_rounded_witness :
    2 ≤ 3 ∧ (1 / 4 : ℚ) ≤ 3 / 4 ∧ Monotone toDouble ∧ toDouble 0 = 0 ∧
    toDouble (1 / 4) = 1 / 4 ∧ toDouble (3 / 4) = 3 / 4 ∧
    toDouble (1 / 4 + 1 / 4) = 1 / 4 + 1 / 4 ∧ toDouble (3 / 4 + 3 / 4) = 3 / 4 + 3 / 4 ∧
    calculateScaleFl toDouble (1 / 4 : ℚ) (3 / 4 : ℚ) 0 (3 : ℕ) = (1 / 4 : ℚ) ∧
    (∀ i j : ℕ, i ≤ j →
      calculateScaleFl toDouble (1 / 4 : ℚ) (3 / 4 : ℚ) i (3 : ℕ) ≤
        calculateScaleFl toDouble (1 / 4 : ℚ) (3 / 4 : ℚ) j (3 : ℕ)) ∧
    (∀ i : ℕ, (1 / 4 : ℚ) ≤ calculateScaleFl toDouble (1 / 4 : ℚ) (3 / 4 : ℚ) i (3 : ℕ)) ∧
    (∀ i : ℕ, (1 / 4 : ℚ) ≤ calculateScaleFl toDouble (1 / 4 : ℚ) (3 / 4 : ℚ) i 1 ∧
      calculateScaleFl toDouble (1 / 4 : ℚ) (3 / 4 : ℚ) i 1 ≤ (3 / 4 : ℚ)) ∧
    (∀ i : ℕ,
      toDouble ((3 / 4 : ℚ) - (1 / 4 : ℚ)) = (3 / 4 : ℚ) - (1 / 4 : ℚ) →
      toDouble (((3 / 4 : ℚ) - (1 / 4 : ℚ)) * (i : ℚ)) = ((3 / 4 : ℚ) - (1 / 4 : ℚ)) * (i : ℚ) →
      toDouble (((3 : ℕ) : ℚ) - 1) = ((3 : ℕ) : ℚ) - 1 →
      toDouble (((3 / 4 : ℚ) - (1 / 4 : ℚ)) * (i : ℚ) / (((3 : ℕ) : ℚ) - 1)) =
        ((3 / 4 : ℚ) - (1 / 4 : ℚ)) * (i : ℚ) / (((3 : ℕ) : ℚ) - 1) →
      toDouble ((1 / 4 : ℚ) + ((3 / 4 : ℚ) - (1 / 4 : ℚ)) * (i : ℚ) / (((3 : ℕ) : ℚ) - 1)) =
        (1 / 4 : ℚ) + ((3 / 4 : ℚ) - (1 / 4 : ℚ)) * (i : ℚ) / (((3 : ℕ) : ℚ) - 1) →
      calculateScaleFl toDouble (1 / 4 : ℚ) (3 / 4 : ℚ) i (3 : ℕ) =
        calculateScale (1 / 4 : ℚ) (3 / 4 : ℚ) i (3 : ℕ)) ∧
    calculateScale (1 / 4 : ℚ) (3 / 4 : ℚ) ((3 : ℕ) - 1) (3 : ℕ) = (3 / 4 : ℚ) ∧
    (∀ i : ℕ, i ≤ (3 : ℕ) - 1 →
      (1 / 4 : ℚ) ≤ calculateScale (1 / 4 : ℚ) (3 / 4 : ℚ) i (3 : ℕ) ∧
      calculateScale (1 / 4 : ℚ) (3 / 4 : ℚ) i (3 : ℕ) ≤ (3 / 4 : ℚ)) := by
  have h1 : 2 ≤ 3 := by norm_num
  have h2 : (1 / 4 : ℚ) ≤ 3 / 4 := by norm_num
  exact ⟨h1, h2, toDouble_mono, toDouble_zero, toDouble_quarter, toDouble_three_quarters,
    toDouble_two_quarters, toDouble_six_quarters,
    scale_bounds_rounded toDouble (1 / 4 : ℚ) (3 / 4 : ℚ) 3 h1 h2 toDouble_mono toDouble_zero
      toDouble_quarter toDouble_three_quarters toDouble_two_quarters toDouble_six_quarters⟩

/-- C16 (grid sizing), counterexample. In the config `hugeInputConfig` (no explicit
feature-map sizes, input size `13510798882111492` both ways, stride `4503599627370497`, all
three numbers being doubles) the quotient of input size and stride rounds to the double `3`,
so the grid computed at layer 0 with double arithmetic is `3 × 3`, although three strides
are less than the input size; the least integer `H` with `H * stride ≥ inputSize` is `4`,
which is the ceiling of the exact quotient. -/
theorem grid_sizing_counterexample :
    hugeInputConfig.WellFormed ∧ hugeInputConfig.featureMapHeight = [] ∧
    hugeInputConfig.strides[0]? = some 4503599627370497 ∧
    hugeInputConfig.inputSizeHeight = 13510798882111492 ∧
    hugeInputConfig.inputSizeWidth = 13510798882111492 ∧
    toDouble 13510798882111492 = 13510798882111492 ∧
    toDouble 4503599627370497 = 4503599627370497 ∧
    toDouble (13510798882111492 / 4503599627370497) = 3 ∧
    gridSizeFl toDouble hugeInputConfig 0 = (Extent.fin 3, Extent.fin 3) ∧
    (3 : ℤ) * 4503599627370497 < 13510798882111492 ∧
    (13510798882111492 : ℤ) ≤ 4 * 4503599627370497 ∧
    ⌈((13510798882111492 : ℤ) : ℚ) / ((4503599627370497 : ℤ) : ℚ)⌉ = 4 := by
  have hc : ⌈toDouble (13510798882111492 / 4503599627370497)⌉ = 3 := by
    rw [toDouble_huge_quotient]
    exact Int.ceil_eq_iff.mpr ⟨by norm_num, by norm_num⟩
  refine ⟨?_, rfl, rfl, rfl, rfl, toDouble_huge_size, toDouble_huge_stride,
    toDouble_huge_quotient, ?_, by norm_num, by norm_num, ?_⟩
  · unfold Config.WellFormed hugeInputConfig FULL_RANGE_DETECTOR_ANCHOR_CONFIG
    simp
  · simp [gridSizeFl, hugeInputConfig, FULL_RANGE_DETECTOR_ANCHOR_CONFIG, ceilDivFl, hc]
  · exact Int.ceil_eq_iff.mpr ⟨by norm_num, by norm_num⟩

/-- C16 (grid sizing), as the code has it. For every well-formed config whose input height
and width are integers of magnitude below `2 ^ 53` the run returns, and for every stride
group of the run, starting at layer `s`: if the explicit feature-map sizes are non-empty
the grid is `(featureMapHeight[s], featureMapWidth[s])`; otherwise the stride `strides[s]`
is positive and the grid, computed as the ceiling of the quotient rounded to the nearest
double, is the grid of the exact quotient,
`(ceil(inputSizeHeight / strides[s]), ceil(inputSizeWidth / strides[s]))`, the height
being the least integer `H` with `H * stride ≥ inputSizeHeight` and the width the least
integer `W` with `W * stride ≥ inputSizeWidth`. -/
theorem grid_sizing_rounded (sqrt : α → α) (config : Config α) (hwf : config.WellFormed)
    (hH : |config.inputSizeHeight| < 2 ^ 53) (hW : |config.inputSizeWidth| < 2 ^ 53) :
    ∃ st : LoopState α,
      (∀ fuel, config.numLayers < fuel →
        createSsdAnchorsRun sqrt fuel config = some (st, setDefaults config)) ∧
      ∀ g ∈ st.trace,
        (config.featureMapHeight ≠ [] →
          ∃ h w : ℤ, config.featureMapHeight[g.1]? = some h ∧
            config.featureMapWidth[g.1]? = some w ∧
            gridSizeFl toDouble (setDefaults config) g.1 = (Extent.fin h, Extent.fin w) ∧
            gridSize (setDefaults config) g.1 = (Extent.fin h, Extent.fin w)) ∧
        (config.featureMapHeight = [] →
          ∃ (stride H W : ℤ), config.strides[g.1]? = some stride ∧ 0 < stride ∧
            gridSizeFl toDouble (setDefaults config) g.1 = (Extent.fin H, Extent.fin W) ∧
            gridSize (setDefaults config) g.1 = (Extent.fin H, Extent.fin W) ∧
            H = ⌈toDouble ((config.inputSizeHeight : ℚ) / (stride : ℚ))⌉ ∧
            W = ⌈toDouble ((config.inputSizeWidth : ℚ) / (stride : ℚ))⌉ ∧
            H = ⌈(config.inputSizeHeight : ℚ) / (stride : ℚ)⌉ ∧
            W = ⌈(config.inputSizeWidth : ℚ) / (stride : ℚ)⌉ ∧
            config.inputSizeHeight ≤ H * stride ∧
            (∀ H2 : ℤ, config.inputSizeHeight ≤ H2 * stride → H ≤ H2) ∧
            config.inputSizeWidth ≤ W * stride ∧
            (∀ W2 : ℤ, config.inputSizeWidth ≤ W2 * stride → W ≤ W2)) := by
  obtain ⟨st, hit, hrun⟩ := createSsdAnchorsRun_wellFormed sqrt config hwf
  have hwf2 := setDefaults_wellFormed config hwf
  obtain ⟨newTrace, groups, tail, h1, -, -, -, -, -, h7, -, -, -⟩ :=
    iterates_spec sqrt (setDefaults config) hwf2.2.1 _ st hit
  obtain ⟨eH, eW, -, -, -, eih, eiw, -, -, estr, -⟩ := setDefaults_fields config
  simp only [List.nil_append] at h1
  refine ⟨st, hrun, fun g hg => ?_⟩
  rw [h1] at hg
  have hfl := gridSizeFl_toDouble (setDefaults config) hwf2 g.1 (h7 g hg).1
    (by rw [eih]; exact hH) (by rw [eiw]; exact hW)
  obtain ⟨c1, c2⟩ := gridSize_cases (setDefaults config) hwf2 g.1 (h7 g hg).1
  rw [eH, eW] at c1
  rw [eH, estr, eih, eiw] at c2
  constructor
  · intro hne
    obtain ⟨h, w, a1, a2, a3⟩ := c1 hne
    exact ⟨h, w, a1, a2, hfl.trans a3, a3⟩
  · intro hnil
    obtain ⟨stride, hs, hpos, hgrid⟩ := c2 hnil
    obtain ⟨a1, a2⟩ := ceil_div_least config.inputSizeHeight stride hpos
    obtain ⟨b1, b2⟩ := ceil_div_least config.inputSizeWidth stride hpos
    exact ⟨stride, _, _, hs, hpos, hfl.trans hgrid, hgrid,
      (ceil_toDouble_div _ _ hpos hH).symm, (ceil_toDouble_div _ _ hpos hW).symm, rfl, rfl,
      a1, a2, b1, b2⟩

/-- The hypotheses of `grid_sizing_rounded` hold at the full-range preset over the
rationals, and the theorem applies. -/
theorem grid_sizing_rounded_witness :
    (FULL_RANGE_DETECTOR_ANCHOR_CONFIG : Config ℚ).WellFormed ∧
    |(FULL_RANGE_DETECTOR_ANCHOR_CONFIG : Config ℚ).inputSizeHeight| < 2 ^ 53 ∧
    |(FULL_RANGE_DETECTOR_ANCHOR_CONFIG : Config ℚ).inputSizeWidth| < 2 ^ 53 ∧
    ∃ st : LoopState ℚ,
      (∀ fuel, (FULL_RANGE_DETECTOR_ANCHOR_CONFIG : Config ℚ).numLayers < fuel →
        createSsdAnchorsRun Rat.sqrt fuel (FULL_RANGE_DETECTOR_ANCHOR_CONFIG : Config ℚ) = some (st, setDefaults (FULL_RANGE_DETECTOR_ANCHOR_CONFIG : Config ℚ))) ∧
      ∀ g ∈ st.trace,
        ((FULL_RANGE_DETECTOR_ANCHOR_CONFIG : Config ℚ).featureMapHeight ≠ [] →
          ∃ h w : ℤ, (FULL_RANGE_DETECTOR_ANCHOR_CONFIG : Config ℚ).featureMapHeight[g.1]? = some h ∧
            (FULL_RANGE_DETECTOR_ANCHOR_CONFIG : Config ℚ).featureMapWidth[g.1]? = some w ∧
            gridSizeFl toDouble (setDefaults (FULL_RANGE_DETECTOR_ANCHOR_CONFIG : Config ℚ)) g.1 = (Extent.fin h, Extent.fin w) ∧
            gridSize (setDefaults (FULL_RANGE_DETECTOR_ANCHOR_CONFIG : Config ℚ)) g.1 = (Extent.fin h, Extent.fin w)) ∧
        ((FULL_RANGE_DETECTOR_ANCHOR_CONFIG : Config ℚ).featureMapHeight = [] →
          ∃ (stride H W : ℤ), (FULL_RANGE_DETECTOR_ANCHOR_CONFIG : Config ℚ).strides[g.1]? = some stride ∧ 0 < stride ∧
            gridSizeFl toDouble (setDefaults (FULL_RANGE_DETECTOR_ANCHOR_CONFIG : Config ℚ)) g.1 = (Extent.fin H, Extent.fin W) ∧
            gridSize (setDefaults (FULL_RANGE_DETECTOR_ANCHOR_CONFIG : Config ℚ)) g.1 = (Extent.fin H, Extent.fin W) ∧
            H = ⌈toDouble (((FULL_RANGE_DETECTOR_ANCHOR_CONFIG : Config ℚ).inputSizeHeight : ℚ) / (stride : ℚ))⌉ ∧
            W = ⌈toDouble (((FULL_RANGE_DETECTOR_ANCHOR_CONFIG : Config ℚ).inputSizeWidth : ℚ) / (stride : ℚ))⌉ ∧
            H = ⌈((FULL_RANGE_DETECTOR_ANCHOR_CONFIG : Config ℚ).inputSizeHeight : ℚ) / (stride : ℚ)⌉ ∧
            W = ⌈((FULL_RANGE_DETECTOR_ANCHOR_CONFIG : Config ℚ).inputSizeWidth : ℚ) / (stride : ℚ)⌉ ∧
            (FULL_RANGE_DETECTOR_ANCHOR_CONFIG : Config ℚ).inputSizeHeight ≤ H * stride ∧
            (∀ H2 : ℤ, (FULL_RANGE_DETECTOR_ANCHOR_CONFIG : Config ℚ).inputSizeHeight ≤ H2 * stride → H ≤ H2) ∧
            (FULL_RANGE_DETECTOR_ANCHOR_CONFIG : Config ℚ).inputSizeWidth ≤ W * stride ∧
            (∀ W2 : ℤ, (FULL_RANGE_DETECTOR_ANCHOR_CONFIG : Config ℚ).inputSizeWidth ≤ W2 * stride → W ≤ W2)) := by
  have hwf : (FULL_RANGE_DETECTOR_ANCHOR_CONFIG : Config ℚ).WellFormed := by
    unfold Config.WellFormed FULL_RANGE_DETECTOR_ANCHOR_CONFIG
    simp
  have hH : |(FULL_RANGE_DETECTOR_ANCHOR_CONFIG : Config ℚ).inputSizeHeight| < 2 ^ 53 := by
    show |(192 : ℤ)| < 2 ^ 53
    norm_num
  have hW : |(FULL_RANGE_DETECTOR_ANCHOR_CONFIG : Config ℚ).inputSizeWidth| < 2 ^ 53 := by
    show |(192 : ℤ)| < 2 ^ 53
    norm_num
  exact ⟨hwf, hH, hW, grid_sizing_rounded Rat.sqrt FULL_RANGE_DETECTOR_ANCHOR_CONFIG hwf hH hW⟩

/-- C17 (shape from aspect ratio), counterexample. For the aspect ratio `9` (a double whose
square root `3` is exact) and the scale `0.1` as a double, line 71 and line 72 give the
doubles `height = 0.03333333333333333` and `width = 0.30000000000000004`; their exact
quotient is not `9`, and `width / height` computed in double arithmetic is
`9.000000000000002`. -/
theorem shape_from_aspect_ratio_counterexample :
    toDouble 9 = 9 ∧ Rat.sqrt 9 = 3 ∧
    toDouble 0.1 = 3602879701896397 / 36028797018963968 ∧
    shapeSizesFl toDouble Rat.sqrt [9] [toDouble 0.1] =
      ([4803839602528529 / 144115188075855872], [1351079888211149 / 4503599627370496]) ∧
    (1351079888211149 / 4503599627370496 : ℚ) / (4803839602528529 / 144115188075855872) ≠ 9 ∧
    toDouble ((1351079888211149 / 4503599627370496) /
      (4803839602528529 / 144115188075855872)) = 5066549580791809 / 562949953421312 ∧
    (5066549580791809 / 562949953421312 : ℚ) ≠ 9 := by
  have hh : toDouble (3602879701896397 / 36028797018963968 / 3) =
      4803839602528529 / 144115188075855872 := by
    unfold toDouble
    rw [roundBinary_cert 53 _ (-5) 4803839602528529 (by norm_num) (by norm_num) (by norm_num)
      (by norm_num) (by norm_num)]
    norm_num
  have hw : toDouble (3602879701896397 / 36028797018963968 * 3) =
      1351079888211149 / 4503599627370496 := by
    unfold toDouble
    rw [roundBinary_cert_tie 53 _ (-2) 5404319552844595 (by norm_num) (by norm_num)
      (by norm_num) (by norm_num)]
    norm_num
  have hr : toDouble ((1351079888211149 / 4503599627370496) /
      (4803839602528529 / 144115188075855872)) = 5066549580791809 / 562949953421312 := by
    unfold toDouble
    rw [roundBinary_cert 53 _ 3 5066549580791809 (by norm_num) (by norm_num) (by norm_num)
      (by norm_num) (by norm_num)]
    norm_num
  have hs : shapeSizesFl toDouble Rat.sqrt [9] [toDouble 0.1] =
      ([toDouble (toDouble 0.1 / Rat.sqrt 9)], [toDouble (toDouble 0.1 * Rat.sqrt 9)]) := rfl
  refine ⟨toDouble_nine, rat_sqrt_nine, toDouble_tenth, ?_, by norm_num, hr, by norm_num⟩
  rw [hs, rat_sqrt_nine, toDouble_tenth, hh, hw]

/-- C17 (shape from aspect ratio), as the code has it. Let `fl` be the rounding of the
arithmetic, with relative error at most `u < 1` (for doubles `u = 2 ^ (-53)`). For every
pair `(aspectRatio, scale)` at position `k` of the accumulated arrays, with
`aspectRatio > 0` and `sqrt aspectRatio > 0`, the computed shape has
`height = fl (scale / sqrt aspectRatio)` and `width = fl (scale * sqrt aspectRatio)`;
`width / height` lies within the relative error `2 u / (1 - u)` of `(sqrt aspectRatio) ^ 2`
when `scale ≠ 0`, and `width * height` within the relative error `2 u + u ^ 2` of
`scale ^ 2`; when `sqrt` returns the exact root and neither operation rounds,
`width / height = aspectRatio` (for `scale ≠ 0`) and `width * height = scale ^ 2`; and
when `fixedAnchorSize` is false, `width` and `height` are the width and the height of every
anchor emitted for shape `k`, on any finite grid. -/
theorem shape_from_aspect_ratio_rounded (fl : α → α) (sqrt : α → α) (config : Config α)
    (aspectRatios scales : List α) (k : ℕ) (ar sc u : α)
    (hlen : aspectRatios.length = scales.length)
    (har : aspectRatios[k]? = some ar) (hsc : scales[k]? = some sc)
    (hpos : 0 < ar) (hroot : 0 < sqrt ar)
    (hu0 : 0 ≤ u) (hu1 : u < 1) (hfl : ∀ x, |fl x - x| ≤ u * |x|) :
    (shapeSizesFl fl sqrt aspectRatios scales).1[k]? = some (fl (sc / sqrt ar)) ∧
    (shapeSizesFl fl sqrt aspectRatios scales).2[k]? = some (fl (sc * sqrt ar)) ∧
    (sc ≠ 0 → |fl (sc * sqrt ar) / fl (sc / sqrt ar) - sqrt ar * sqrt ar| ≤
      2 * u / (1 - u) * (sqrt ar * sqrt ar)) ∧
    |fl (sc * sqrt ar) * fl (sc / sqrt ar) - sc ^ 2| ≤ (2 * u + u ^ 2) * sc ^ 2 ∧
    (sqrt ar * sqrt ar = ar → fl (sc / sqrt ar) = sc / sqrt ar →
      fl (sc * sqrt ar) = sc * sqrt ar →
        (sc ≠ 0 → fl (sc * sqrt ar) / fl (sc / sqrt ar) = ar) ∧
        fl (sc * sqrt ar) * fl (sc / sqrt ar) = sc ^ 2) ∧
    (config.fixedAnchorSize.truthy = false → ∀ H W : ℤ,
      ∃ as, emitAnchors config (Extent.fin H) (Extent.fin W)
          (shapeSizesFl fl sqrt aspectRatios scales).2
          (shapeSizesFl fl sqrt aspectRatios scales).1 [] = some as ∧
        ∀ y x : ℕ, y < H.toNat → x < W.toNat →
          ∃ a, as[(y * W.toNat + x) * aspectRatios.length + k]? = some a ∧
            a.width = fl (sc * sqrt ar) ∧ a.height = fl (sc / sqrt ar)) := by
  have _ := hpos
  have hne : sqrt ar ≠ 0 := ne_of_gt hroot
  obtain ⟨hh, hw⟩ := shapeSizesFl_getElem? fl sqrt aspectRatios scales k ar sc har hsc
  obtain ⟨b1, b2⟩ := rounded_shape_bounds fl u hu0 hu1 hfl sc (sqrt ar) hroot
  refine ⟨hh, hw, b1, b2, ?_, ?_⟩
  · intro hr e1 e2
    rw [e1, e2]
    constructor
    · intro hsc0
      have e : (sc * sqrt ar) / (sc / sqrt ar) = sqrt ar * sqrt ar := by
        field_simp
        ring
      rw [e, hr]
    · field_simp
      ring
  · intro hfix H W
    refine ⟨_, rfl, fun y x hy hx => ?_⟩
    have hzk : (List.zip (shapeSizesFl fl sqrt aspectRatios scales).2
        (shapeSizesFl fl sqrt aspectRatios scales).1)[k]? =
          some (fl (sc * sqrt ar), fl (sc / sqrt ar)) :=
      List.getElem?_zip_eq_some.mpr ⟨hw, hh⟩
    have hk : k < (List.zip (shapeSizesFl fl sqrt aspectRatios scales).2
        (shapeSizesFl fl sqrt aspectRatios scales).1).length :=
      (List.getElem?_eq_some_iff.mp hzk).1
    have hz : (List.zip (shapeSizesFl fl sqrt aspectRatios scales).2
        (shapeSizesFl fl sqrt aspectRatios scales).1).length = aspectRatios.length := by
      rw [shapeSizesFl_eq]
      simp [hlen]
    refine ⟨newAnchor config H W y x (fl (sc * sqrt ar), fl (sc / sqrt ar)), ?_, ?_, ?_⟩
    · rw [emitFinite_nil, ← hz, getElem?_grid _ _ _ _ y x k hy hx hk, hzk]
      rfl
    · rw [newAnchor_eq]
      simp [hfix]
    · rw [newAnchor_eq]
      simp [hfix]

/-- The hypotheses of `shape_from_aspect_ratio_rounded` hold for rounding to the nearest
double, the aspect ratio `4`, whose square root `Rat.sqrt` returns exactly, and the scale
`0.5`, and the theorem applies. -/
theorem shape_from_aspect_ratio_rounded_witness :
    ([4] : List ℚ).length = ([1 / 2] : List ℚ).length ∧
    ([4] : List ℚ)[0]? = some (4 : ℚ) ∧ ([1 / 2] : List ℚ)[0]? = some (1 / 2 : ℚ) ∧
    (0 : ℚ) < 4 ∧ 0 < Rat.sqrt (4 : ℚ) ∧ (0 : ℚ) ≤ 1 / 2 ^ 53 ∧ (1 / 2 ^ 53 : ℚ) < 1 ∧
    (∀ x, |toDouble x - x| ≤ (1 / 2 ^ 53 : ℚ) * |x|) ∧
    (shapeSizesFl toDouble Rat.sqrt ([4] : List ℚ) ([1 / 2] : List ℚ)).1[0]? = some (toDouble ((1 / 2 : ℚ) / Rat.sqrt (4 : ℚ))) ∧
    (shapeSizesFl toDouble Rat.sqrt ([4] : List ℚ) ([1 / 2] : List ℚ)).2[0]? = some (toDouble ((1 / 2 : ℚ) * Rat.sqrt (4 : ℚ))) ∧
    ((1 / 2 : ℚ) ≠ 0 → |toDouble ((1 / 2 : ℚ) * Rat.sqrt (4 : ℚ)) / toDouble ((1 / 2 : ℚ) / Rat.sqrt (4 : ℚ)) - Rat.sqrt (4 : ℚ) * Rat.sqrt (4 : ℚ)| ≤
      2 * (1 / 2 ^ 53 : ℚ) / (1 - (1 / 2 ^ 53 : ℚ)) * (Rat.sqrt (4 : ℚ) * Rat.sqrt (4 : ℚ))) ∧
    |toDouble ((1 / 2 : ℚ) * Rat.sqrt (4 : ℚ)) * toDouble ((1 / 2 : ℚ) / Rat.sqrt (4 : ℚ)) - (1 / 2 : ℚ) ^ 2| ≤ (2 * (1 / 2 ^ 53 : ℚ) + (1 / 2 ^ 53 : ℚ) ^ 2) * (1 / 2 : ℚ) ^ 2 ∧
    (Rat.sqrt (4 : ℚ) * Rat.sqrt (4 : ℚ) = (4 : ℚ) → toDouble ((1 / 2 : ℚ) / Rat.sqrt (4 : ℚ)) = (1 / 2 : ℚ) / Rat.sqrt (4 : ℚ) →
      toDouble ((1 / 2 : ℚ) * Rat.sqrt (4 : ℚ)) = (1 / 2 : ℚ) * Rat.sqrt (4 : ℚ) →
        ((1 / 2 : ℚ) ≠ 0 → toDouble ((1 / 2 : ℚ) * Rat.sqrt (4 : ℚ)) / toDouble ((1 / 2 : ℚ) / Rat.sqrt (4 : ℚ)) = (4 : ℚ)) ∧
        toDouble ((1 / 2 : ℚ) * Rat.sqrt (4 : ℚ)) * toDouble ((1 / 2 : ℚ) / Rat.sqrt (4 : ℚ)) = (1 / 2 : ℚ) ^ 2) ∧
    (wideShapeConfig.fixedAnchorSize.truthy = false → ∀ H W : ℤ,
      ∃ as, emitAnchors wideShapeConfig (Extent.fin H) (Extent.fin W)
          (shapeSizesFl toDouble Rat.sqrt ([4] : List ℚ) ([1 / 2] : List ℚ)).2
          (shapeSizesFl toDouble Rat.sqrt ([4] : List ℚ) ([1 / 2] : List ℚ)).1 [] = some as ∧
        ∀ y x : ℕ, y < H.toNat → x < W.toNat →
          ∃ a, as[(y * W.toNat + x) * ([4] : List ℚ).length + 0]? = some a ∧
            a.width = toDouble ((1 / 2 : ℚ) * Rat.sqrt (4 : ℚ)) ∧ a.height = toDouble ((1 / 2 : ℚ) / Rat.sqrt (4 : ℚ))) := by
  have h1 : ([4] : List ℚ).length = ([1 / 2] : List ℚ).length := rfl
  have h2 : ([4] : List ℚ)[0]? = some (4 : ℚ) := rfl
  have h3 : ([1 / 2] : List ℚ)[0]? = some (1 / 2 : ℚ) := rfl
  have h4 : (0 : ℚ) < 4 := by norm_num
  have h5 : 0 < Rat.sqrt (4 : ℚ) := by
    rw [rat_sqrt_four]
    norm_num
  have h6 : (0 : ℚ) ≤ 1 / 2 ^ 53 := by norm_num
  have h7 : (1 / 2 ^ 53 : ℚ) < 1 := by norm_num
  exact ⟨h1, h2, h3, h4, h5, h6, h7, toDouble_rel_error,
    shape_from_aspect_ratio_rounded toDouble Rat.sqrt wideShapeConfig ([4] : List ℚ)
      ([1 / 2] : List ℚ) 0 (4 : ℚ) (1 / 2 : ℚ) (1 / 2 ^ 53 : ℚ) h1 h2 h3 h4 h5 h6 h7
      toDouble_rel_error⟩

/-- C20 (preset consistency), counterexample. `useFullRangeModel` with the tensor library's
`float32` storage, on a detector with empty fields: anchor 0 has `xCenter = 0.5 / 48`, whose
double is `0.010416666666666666`, but entry 0 of the column `x` is its `float32` rounding
`11184811 / 2 ^ 30 = 0.010416666977107525`, a different number. -/
theorem preset_consistency_counterexample :
    ∃ d : Detector ℚ,
      useFullRangeModel fround Rat.sqrt 2 emptyDetector = some d ∧
      d.anchors[0]?.map (fun a => a.xCenter) = some ((0.5 : ℚ) / 48) ∧
      d.anchorTensor.x[0]? = some (11184811 / 1073741824) ∧
      d.anchorTensor.x[0]? ≠ d.anchors[0]?.map (fun a => a.xCenter) ∧
      toDouble (0.5 / 48) = 6004799503160661 / 576460752303423488 ∧
      fround (6004799503160661 / 576460752303423488) = 11184811 / 1073741824 ∧
      (11184811 / 1073741824 : ℚ) ≠ 6004799503160661 / 576460752303423488 := by
  have hf : fround ((0.5 : ℚ) / 48) = 11184811 / 1073741824 := by
    unfold fround
    rw [roundBinary_cert 24 _ (-7) 11184811 (by norm_num) (by norm_num) (by norm_num)
      (by norm_num) (by norm_num)]
    norm_num
  have hd : toDouble (0.5 / 48) = 6004799503160661 / 576460752303423488 := by
    unfold toDouble
    rw [roundBinary_cert 53 _ (-7) 6004799503160661 (by norm_num) (by norm_num) (by norm_num)
      (by norm_num) (by norm_num)]
    norm_num
  have hfd : fround (6004799503160661 / 576460752303423488) = 11184811 / 1073741824 := by
    unfold fround
    rw [roundBinary_cert 24 _ (-7) 11184811 (by norm_num) (by norm_num) (by norm_num)
      (by norm_num) (by norm_num)]
    norm_num
  have hrun := fullRange_anchors_explicit Rat.sqrt 0
  have hhead : ((List.range 48).flatMap (fun y => (List.range 48).flatMap (fun x =>
        [({ xCenter := ((x : ℚ) + 0.5) / 48, yCenter := ((y : ℚ) + 0.5) / 48,
            width := 1, height := 1 } : Anchor ℚ)])))[0]? =
      some ({ xCenter := 0.5 / 48, yCenter := 0.5 / 48, width := 1, height := 1 } :
        Anchor ℚ) := by
    have h := getElem?_grid 48 48 [()] (fun (y x : ℕ) (_ : Unit) =>
      ({ xCenter := ((x : ℚ) + 0.5) / 48, yCenter := ((y : ℚ) + 0.5) / 48,
         width := 1, height := 1 } : Anchor ℚ)) 0 0 0 (by norm_num) (by norm_num) (by simp)
    simpa using h
  have ha : ∀ d : Detector ℚ, useFullRangeModel fround Rat.sqrt 2 emptyDetector = some d →
      d.anchors[0]?.map (fun a => a.xCenter) = some ((0.5 : ℚ) / 48) ∧
      d.anchorTensor.x[0]? = some (11184811 / 1073741824) := by
    intro d hdet
    unfold useFullRangeModel at hdet
    simp only [hrun, Option.some.injEq] at hdet
    subst hdet
    simp only [tensor1d, List.getElem?_map, hhead, Option.map_some', hf, and_self]
  have hex : ∃ d : Detector ℚ, useFullRangeModel fround Rat.sqrt 2 emptyDetector = some d := by
    unfold useFullRangeModel
    simp only [hrun]
    exact ⟨_, rfl⟩
  obtain ⟨d, hdet⟩ := hex
  obtain ⟨a1, a2⟩ := ha d hdet
  refine ⟨d, hdet, a1, a2, ?_, hd, hfd, by norm_num⟩
  rw [a1, a2]
  norm_num

/-- C20 (preset consistency), as the code has it. For every fuel of at least two,
`useFullRangeModel` installs `FULL_RANGE_TENSORS_TO_DETECTION_CONFIG`, whose `numBoxes` is
2304, together with the anchors `createSsdAnchors` returns on
`FULL_RANGE_DETECTOR_ANCHOR_CONFIG`; the number of these anchors equals `numBoxes`, each of
the four columns `x`, `y`, `w`, `h` of the anchor tensor has exactly `numBoxes` entries,
and entry `i` of a column is the corresponding field (`xCenter`, `yCenter`, `width`,
`height`) of anchor `i` converted to the tensor's storage type by `store`; when `store`
leaves `1` unchanged, as `float32` storage does, the columns `w` and `h` hold the fields
`width` and `height` themselves. -/
theorem preset_consistency_stored (store : α → α) (sqrt : α → α) (fuel : ℕ)
    (detector : Detector α) :
    ∃ d : Detector α,
      useFullRangeModel store sqrt (fuel + 2) detector = some d ∧
      d.tensorsToDetectionConfig = FULL_RANGE_TENSORS_TO_DETECTION_CONFIG ∧
      d.tensorsToDetectionConfig.numBoxes = 2304 ∧
      createSsdAnchors sqrt (fuel + 2) FULL_RANGE_DETECTOR_ANCHOR_CONFIG = some d.anchors ∧
      d.anchors.length = d.tensorsToDetectionConfig.numBoxes ∧
      d.anchorTensor.x.length = d.tensorsToDetectionConfig.numBoxes ∧
      d.anchorTensor.y.length = d.tensorsToDetectionConfig.numBoxes ∧
      d.anchorTensor.w.length = d.tensorsToDetectionConfig.numBoxes ∧
      d.anchorTensor.h.length = d.tensorsToDetectionConfig.numBoxes ∧
      (∀ i : ℕ,
        d.anchorTensor.x[i]? = d.anchors[i]?.map (fun a => store a.xCenter) ∧
        d.anchorTensor.y[i]? = d.anchors[i]?.map (fun a => store a.yCenter) ∧
        d.anchorTensor.w[i]? = d.anchors[i]?.map (fun a => store a.width) ∧
        d.anchorTensor.h[i]? = d.anchors[i]?.map (fun a => store a.height)) ∧
      (store 1 = 1 → ∀ i : ℕ,
        d.anchorTensor.w[i]? = d.anchors[i]?.map (fun a => a.width) ∧
        d.anchorTensor.h[i]? = d.anchors[i]?.map (fun a => a.height)) := by
  obtain ⟨anchors, hrun, hlen, hunit⟩ := fullRange_anchors_unit sqrt fuel
  refine ⟨{ imageToTensorConfig := FULL_RANGE_IMAGE_TO_TENSOR_CONFIG
            tensorsToDetectionConfig := FULL_RANGE_TENSORS_TO_DETECTION_CONFIG
            anchors := anchors
            anchorTensor :=
              { x := tensor1d store (anchors.map (fun a => a.xCenter))
                y := tensor1d store (anchors.map (fun a => a.yCenter))
                w := tensor1d store (anchors.map (fun a => a.width))
                h := tensor1d store (anchors.map (fun a => a.height)) } }, ?_, rfl, rfl, hrun,
    hlen, ?_, ?_, ?_, ?_, ?_, ?_⟩
  · unfold useFullRangeModel
    simp only [hrun]
  · simpa [tensor1d] using hlen
  · simpa [tensor1d] using hlen
  · simpa [tensor1d] using hlen
  · simpa [tensor1d] using hlen
  · intro i
    simp only [tensor1d, List.getElem?_map, Option.map_map]
    exact ⟨rfl, rfl, rfl, rfl⟩
  · intro h1 i
    simp only [tensor1d, List.getElem?_map, Option.map_map]
    rcases hi : anchors[i]? with _ | a
    · simp
    · obtain ⟨hw, hh⟩ := hunit a (List.mem_iff_getElem?.mpr ⟨i, hi⟩)
      simp [hw, hh, h1]

end Claims

end SsdAnchors
